import Mathlib

/-!
# Cayenne LPP codec: encoder and decoder

A shallow embedding of `src/encoder.go`, `src/decoder.go`,
`src/cayennelpp/channels.go` and the decoder of the older generation,
`src/cayennelpp/decoder.go`.

Modelling conventions:

* a byte is a `Nat` (a `uint8` is a `Nat` below 256); the byte source read by
  the decoder is the list of bytes it still holds;
* a floating-point value is a rational number (`ℚ`); NaN and the infinities
  are not values of the model. A rational stands for the `float64` nearest to
  it, `round64 q`, as a Go constant does, and a `float64` stands for itself.
  Floating-point arithmetic rounds to nearest, ties to even: the encoder's
  `value * 100` is `f64mul value 100`. The quotient `float64(val) / 100` the
  decoder delivers is written `val / 100`: division is correctly rounded, so
  the `float64` delivered is the one this rational stands for. The `float32`
  quotients of the older generation are the rounded values themselves,
  `f32div val 100`;
* a target (the callback object) is modelled by the list of calls it
  receives, in order: one `UplinkEvent` / `PortEvent` per callback call;
* a decoder returns the delivered events, the returned error (`none` is the
  Go `nil`) and the bytes left unread in the source;
* the `for` loops take a fuel argument, one unit per iteration, and the
  methods run them with more fuel than the source has bytes; `none` is a loop
  that ran out of fuel, which the theorems show never to happen.
-/

namespace cayennelpp

/-! ## Channel type tags (`src/cayennelpp/channels.go`) -/

/-- DigitalInput (1 byte). -/
def DigitalInput : Nat := 0
/-- DigitalOutput (1 byte). -/
def DigitalOutput : Nat := 1
/-- AnalogInput (2 bytes, 0.01 signed). -/
def AnalogInput : Nat := 2
/-- AnalogOutput (2 bytes, 0.01 signed). -/
def AnalogOutput : Nat := 3
/-- Luminosity (2 bytes, 1 lux unsigned). -/
def Luminosity : Nat := 101
/-- Presence (1 byte, 1). -/
def Presence : Nat := 102
/-- Temperature (2 bytes, 0.1 degree Celsius signed). -/
def Temperature : Nat := 103
/-- RelativeHumidity (1 byte, 0.5 percent unsigned). -/
def RelativeHumidity : Nat := 104
/-- Accelerometer (2 bytes per axis, 0.001 G). -/
def Accelerometer : Nat := 113
/-- BarometricPressure (2 bytes 0.1 hPa Unsigned). -/
def BarometricPressure : Nat := 115
/-- Gyrometer (2 bytes per axis, 0.01 degree per second). -/
def Gyrometer : Nat := 134
/-- GPS (3 byte lon/lat 0.0001 degree, 3 bytes alt 0.01 meter). -/
def GPS : Nat := 136

/-! ## Errors, events and results -/

/-- The errors a decoder can return: `io.EOF`, `io.ErrUnexpectedEOF` and
`ErrInvalidChannelType`. -/
inductive DecodeError where
  | EOF
  | ErrUnexpectedEOF
  | ErrInvalidChannelType
  deriving DecidableEq

/-- One call on an `UplinkTarget`: the method called and its arguments. The
same type describes one `Add...` call on the encoder, whose methods take the
same arguments. -/
inductive UplinkEvent where
  | DigitalInput (channel value : Nat)
  | DigitalOutput (channel value : Nat)
  | AnalogInput (channel : Nat) (value : ℚ)
  | AnalogOutput (channel : Nat) (value : ℚ)
  | Luminosity (channel value : Nat)
  | Presence (channel value : Nat)
  | Temperature (channel : Nat) (celcius : ℚ)
  | RelativeHumidity (channel : Nat) (rh : ℚ)
  | Accelerometer (channel : Nat) (x y z : ℚ)
  | BarometricPressure (channel : Nat) (hpa : ℚ)
  | Gyrometer (channel : Nat) (x y z : ℚ)
  | GPS (channel : Nat) (latitude longitude altitude : ℚ)
  deriving DecidableEq

/-- One call of `DownlinkTarget.Port`. -/
structure PortEvent where
  channel : Nat
  value : ℚ
  deriving DecidableEq

/-- What a decode run leaves behind: the callbacks delivered (in order), the
error returned (`none` for `nil`) and the unread bytes. -/
structure Decoded (ε : Type) where
  events : List ε
  err : Option DecodeError
  rest : List Nat
  deriving DecidableEq

/-- Put one more delivered event in front of a later run's result. -/
def Decoded.deliver {ε : Type} (ev : ε) (d : Decoded ε) : Decoded ε :=
  { d with events := ev :: d.events }

/-- The result of one read: a value or an error, and the source afterwards. -/
abbrev Read (α : Type) := Except DecodeError α × List Nat

/-! ## Reading from the byte source -/

/-- Go `io.ReadFull(r, buf)` with `len(buf) = n` on an in-memory source: all
`n` bytes, or `io.EOF` when no byte was read, or `io.ErrUnexpectedEOF` when
some but not all were; a short read drains the source. -/
def readFull (n : Nat) (r : List Nat) : Read (List Nat) :=
  if n ≤ r.length then (.ok (r.take n), r.drop n)
  else if r.isEmpty then (.error .EOF, [])
  else (.error .ErrUnexpectedEOF, [])

/-- Go `binary.BigEndian.Uint16`. -/
def beUint16 (b : List Nat) : Nat := b.getD 0 0 * 256 + b.getD 1 0

/-- Go `binary.BigEndian.Uint32`. -/
def beUint32 (b : List Nat) : Nat :=
  b.getD 0 0 * 16777216 + b.getD 1 0 * 65536 + b.getD 2 0 * 256 + b.getD 3 0

/-- Go `int16(u)` for an unsigned `u`: the two's-complement reading of the low
16 bits. -/
def int16 (u : Nat) : Int :=
  if u % 65536 < 32768 then (u % 65536 : Nat) else (u % 65536 : Nat) - 65536

/-- Go `int32(u)` for an unsigned `u`: the two's-complement reading of the low
32 bits. -/
def int32 (u : Nat) : Int :=
  if u % 4294967296 < 2147483648 then (u % 4294967296 : Nat)
  else (u % 4294967296 : Nat) - 4294967296

/-- Go `binary.Read(r, binary.BigEndian, &val)` for `val uint8`. -/
def readUint8 (r : List Nat) : Read Nat :=
  match readFull 1 r with
  | (.error e, r1) => (.error e, r1)
  | (.ok b, r1) => (.ok (b.getD 0 0), r1)

/-- Go `binary.Read(r, binary.BigEndian, &val)` for `val uint16`. -/
def readUint16 (r : List Nat) : Read Nat :=
  match readFull 2 r with
  | (.error e, r1) => (.error e, r1)
  | (.ok b, r1) => (.ok (beUint16 b), r1)

/-- Go `binary.Read(r, binary.BigEndian, &val)` for `val int16`. -/
def readInt16 (r : List Nat) : Read Int :=
  match readFull 2 r with
  | (.error e, r1) => (.error e, r1)
  | (.ok b, r1) => (.ok (int16 (beUint16 b)), r1)

/-! ## The uplink decoder (`src/decoder.go`) -/

def decodeDigitalInput (channel : Nat) (r : List Nat) : Read UplinkEvent :=
  match readUint8 r with
  | (.error e, r1) => (.error e, r1)
  | (.ok val, r1) => (.ok (.DigitalInput channel val), r1)

def decodeDigitalOutput (channel : Nat) (r : List Nat) : Read UplinkEvent :=
  match readUint8 r with
  | (.error e, r1) => (.error e, r1)
  | (.ok val, r1) => (.ok (.DigitalOutput channel val), r1)

def decodeAnalogInput (channel : Nat) (r : List Nat) : Read UplinkEvent :=
  match readInt16 r with
  | (.error e, r1) => (.error e, r1)
  | (.ok val, r1) => (.ok (.AnalogInput channel ((val : ℚ) / 100)), r1)

def decodeAnalogOutput (channel : Nat) (r : List Nat) : Read UplinkEvent :=
  match readInt16 r with
  | (.error e, r1) => (.error e, r1)
  | (.ok val, r1) => (.ok (.AnalogOutput channel ((val : ℚ) / 100)), r1)

def decodeLuminosity (channel : Nat) (r : List Nat) : Read UplinkEvent :=
  match readUint16 r with
  | (.error e, r1) => (.error e, r1)
  | (.ok val, r1) => (.ok (.Luminosity channel val), r1)

def decodePresence (channel : Nat) (r : List Nat) : Read UplinkEvent :=
  match readUint8 r with
  | (.error e, r1) => (.error e, r1)
  | (.ok val, r1) => (.ok (.Presence channel val), r1)

def decodeTemperature (channel : Nat) (r : List Nat) : Read UplinkEvent :=
  match readInt16 r with
  | (.error e, r1) => (.error e, r1)
  | (.ok val, r1) => (.ok (.Temperature channel ((val : ℚ) / 10)), r1)

def decodeRelativeHumidity (channel : Nat) (r : List Nat) : Read UplinkEvent :=
  match readUint8 r with
  | (.error e, r1) => (.error e, r1)
  | (.ok val, r1) => (.ok (.RelativeHumidity channel ((val : ℚ) / 2)), r1)

def decodeAccelerometer (channel : Nat) (r : List Nat) : Read UplinkEvent :=
  match readInt16 r with
  | (.error e, r1) => (.error e, r1)
  | (.ok valX, r1) =>
    match readInt16 r1 with
    | (.error e, r2) => (.error e, r2)
    | (.ok valY, r2) =>
      match readInt16 r2 with
      | (.error e, r3) => (.error e, r3)
      | (.ok valZ, r3) =>
        (.ok (.Accelerometer channel
          ((valX : ℚ) / 1000) ((valY : ℚ) / 1000) ((valZ : ℚ) / 1000)), r3)

def decodeBarometricPressure (channel : Nat) (r : List Nat) : Read UplinkEvent :=
  match readInt16 r with
  | (.error e, r1) => (.error e, r1)
  | (.ok val, r1) => (.ok (.BarometricPressure channel ((val : ℚ) / 10)), r1)

def decodeGyrometer (channel : Nat) (r : List Nat) : Read UplinkEvent :=
  match readInt16 r with
  | (.error e, r1) => (.error e, r1)
  | (.ok valX, r1) =>
    match readInt16 r1 with
    | (.error e, r2) => (.error e, r2)
    | (.ok valY, r2) =>
      match readInt16 r2 with
      | (.error e, r3) => (.error e, r3)
      | (.ok valZ, r3) =>
        (.ok (.Gyrometer channel
          ((valX : ℚ) / 100) ((valY : ℚ) / 100) ((valZ : ℚ) / 100)), r3)

/-- One packed GPS field: the 3 bytes copied into a zeroed 4-byte buffer, read
as a big-endian `uint32`, converted to `int32` and shifted right by 8. -/
def gpsField (b : List Nat) : Int := int32 (beUint32 (b ++ [0])) >>> (8 : Nat)

def decodeGPS (channel : Nat) (r : List Nat) : Read UplinkEvent :=
  match readFull 9 r with
  | (.error e, r1) => (.error e, r1)
  | (.ok buf, r1) =>
    (.ok (.GPS channel
      ((gpsField (buf.take 3) : ℚ) / 10000)
      ((gpsField ((buf.drop 3).take 3) : ℚ) / 10000)
      ((gpsField ((buf.drop 6).take 3) : ℚ) / 100)), r1)

/-- The `switch buf[1]` of `DecodeUplink`: the helper for the header's type
tag, or `ErrInvalidChannelType`. -/
def decodeUnit (channel type : Nat) (r : List Nat) : Read UplinkEvent :=
  if type = DigitalInput then decodeDigitalInput channel r
  else if type = DigitalOutput then decodeDigitalOutput channel r
  else if type = AnalogInput then decodeAnalogInput channel r
  else if type = AnalogOutput then decodeAnalogOutput channel r
  else if type = Luminosity then decodeLuminosity channel r
  else if type = Presence then decodePresence channel r
  else if type = Temperature then decodeTemperature channel r
  else if type = RelativeHumidity then decodeRelativeHumidity channel r
  else if type = Accelerometer then decodeAccelerometer channel r
  else if type = BarometricPressure then decodeBarometricPressure channel r
  else if type = Gyrometer then decodeGyrometer channel r
  else if type = GPS then decodeGPS channel r
  else (.error .ErrInvalidChannelType, r)

/-- The `for` loop of `DecodeUplink`, one iteration per unit of fuel; `none`
when the fuel runs out before the loop stops. -/
def uplinkLoop : Nat → List Nat → Option (Decoded UplinkEvent)
  | 0, _ => none
  | fuel + 1, r =>
    match readFull 2 r with
    | (.error e, r1) =>
      if e = .EOF then some ⟨[], none, r1⟩ else some ⟨[], some e, r1⟩
    | (.ok buf, r1) =>
      match decodeUnit (buf.getD 0 0) (buf.getD 1 0) r1 with
      | (.error e, r2) => some ⟨[], some e, r2⟩
      | (.ok ev, r2) => (uplinkLoop fuel r2).map (Decoded.deliver ev)

/-- The method `DecodeUplink` on a decoder whose source holds `r`. -/
def DecodeUplink (r : List Nat) : Option (Decoded UplinkEvent) :=
  uplinkLoop (r.length + 1) r

/-! ## The downlink decoder (`src/decoder.go`) -/

/-- The `for` loop of `DecodeDownlink`, one iteration per unit of fuel. -/
def downlinkLoop : Nat → List Nat → Option (Decoded PortEvent)
  | 0, _ => none
  | fuel + 1, r =>
    match readFull 1 r with
    | (.error e, r1) =>
      if e = .EOF then some ⟨[], none, r1⟩ else some ⟨[], some e, r1⟩
    | (.ok buf, r1) =>
      if buf.getD 0 0 = 0xFF then some ⟨[], none, r1⟩
      else
        match readInt16 r1 with
        | (.error e, r2) => some ⟨[], some e, r2⟩
        | (.ok val, r2) =>
          (downlinkLoop fuel r2).map
            (Decoded.deliver ⟨buf.getD 0 0, (val : ℚ) / 100⟩)

/-- The method `DecodeDownlink` on a decoder whose source holds `r`. -/
def DecodeDownlink (r : List Nat) : Option (Decoded PortEvent) :=
  downlinkLoop (r.length + 1) r

/-! ## Floating-point arithmetic (`float64`, `float32`) -/

/-- Round to the nearest integer, a tie to the even one. -/
def roundHalfEven (x : ℚ) : Int :=
  if x - ⌊x⌋ < 1 / 2 then ⌊x⌋
  else if 1 / 2 < x - ⌊x⌋ then ⌊x⌋ + 1
  else if ⌊x⌋ % 2 = 0 then ⌊x⌋ else ⌊x⌋ + 1

/-- The binary exponent of the unit in the last place at `x`, in the binary
floating-point format with `p` significant bits whose smallest positive value
is `2 ^ emin`. -/
def ulpExp (p : Nat) (emin : Int) (x : ℚ) : Int := max (Int.log 2 |x| - (p - 1)) emin

/-- IEEE 754 rounding of a real value to the format `(p, emin)`: to the
nearest multiple of the unit in the last place, a tie to the even one. A
result of magnitude `2 ^ 1024` (`2 ^ 128` for `float32`) or more stands for an
infinity. -/
def roundTo (p : Nat) (emin : Int) (x : ℚ) : ℚ :=
  (roundHalfEven (x / 2 ^ ulpExp p emin x) : ℚ) * 2 ^ ulpExp p emin x

/-- The `float64` nearest to `x` (53 significant bits, smallest subnormal
`2 ^ -1074`). -/
def round64 (x : ℚ) : ℚ := roundTo 53 (-1074) x

/-- The `float32` nearest to `x` (24 significant bits, smallest subnormal
`2 ^ -149`). -/
def round32 (x : ℚ) : ℚ := roundTo 24 (-149) x

/-- Go `x * y` on `float64`. An argument stands for the `float64` nearest to
it, as a Go constant does; a `float64` stands for itself. -/
def f64mul (x y : ℚ) : ℚ := round64 (round64 x * round64 y)

/-- Go `x / y` on `float32`, for `y` other than zero. -/
def f32div (x y : ℚ) : ℚ := round32 (round32 x / round32 y)

/-! ## The encoder (`src/encoder.go`) -/

/-- The integer part of a floating-point value: the fraction is discarded
(truncation toward zero). -/
def truncate (x : ℚ) : Int := if 0 ≤ x then ⌊x⌋ else ⌈x⌉

/-- Go conversion of a `float64` to a 32-bit integer (`Cvt64Fto32`), through
which the compiler converts to every integer type of at most 32 bits: the
fraction is discarded toward zero. When the result does not fit 32 bits the Go
language leaves the value to the implementation; the one given here is that
of the amd64 instruction `CVTTSD2SL`, the integer `0x80000000`. -/
def Cvt64Fto32 (x : ℚ) : Int :=
  if -2147483648 ≤ truncate x ∧ truncate x ≤ 2147483647 then truncate x else -2147483648

/-- Go `int16(x)` for a `float64` `x`: the conversion to a 32-bit integer,
then its low 16 bits in two's complement (`Trunc32to16`). For a value in range
this is the truncated value. -/
def floatToInt16 (x : ℚ) : Int := (Cvt64Fto32 x + 32768) % 65536 - 32768

/-- Go `int32(x)` for a `float64` `x`. -/
def floatToInt32 (x : ℚ) : Int := Cvt64Fto32 x

/-- Go `uint8(x)` for a `float64` `x`: the conversion to a 32-bit integer,
then its low 8 bits (`Trunc32to8`). -/
def floatToUint8 (x : ℚ) : Nat := (Cvt64Fto32 x % 256).toNat

/-- Go `byte(v)` for a signed integer `v`: the low 8 bits. -/
def byte (v : Int) : Nat := (v % 256).toNat

/-- Go `binary.Write(buf, binary.BigEndian, value)` for `value uint16`: the
two bytes appended. -/
def putUint16 (value : Nat) : List Nat := [value / 256 % 256, value % 256]

/-- Go `binary.Write(buf, binary.BigEndian, val)` for `val int16`: the two
bytes appended. -/
def putInt16 (val : Int) : List Nat := putUint16 (val % 65536).toNat

/-- The encoder: its buffer. -/
structure encoder where
  buf : List Nat
  deriving DecidableEq

def NewEncoder : encoder := ⟨[]⟩

def encoder.Bytes (e : encoder) : List Nat := e.buf

def encoder.Reset (_e : encoder) : encoder := ⟨[]⟩

/-- Go `e.buf.WriteByte(b)`. -/
def encoder.WriteByte (e : encoder) (b : Nat) : encoder := ⟨e.buf ++ [b]⟩

/-- Go `binary.Write(e.buf, binary.BigEndian, val)` for `val int16`. -/
def encoder.WriteInt16 (e : encoder) (val : Int) : encoder := ⟨e.buf ++ putInt16 val⟩

/-- Go `binary.Write(e.buf, binary.BigEndian, value)` for `value uint16`. -/
def encoder.WriteUint16 (e : encoder) (value : Nat) : encoder := ⟨e.buf ++ putUint16 value⟩

def encoder.AddPort (e : encoder) (channel : Nat) (value : ℚ) : encoder :=
  let val := floatToInt16 (f64mul value 100)
  (e.WriteByte channel).WriteInt16 val

def encoder.AddDigitalInput (e : encoder) (channel value : Nat) : encoder :=
  ((e.WriteByte channel).WriteByte DigitalInput).WriteByte value

def encoder.AddDigitalOutput (e : encoder) (channel value : Nat) : encoder :=
  ((e.WriteByte channel).WriteByte DigitalOutput).WriteByte value

def encoder.AddAnalogInput (e : encoder) (channel : Nat) (value : ℚ) : encoder :=
  let val := floatToInt16 (f64mul value 100)
  ((e.WriteByte channel).WriteByte AnalogInput).WriteInt16 val

def encoder.AddAnalogOutput (e : encoder) (channel : Nat) (value : ℚ) : encoder :=
  let val := floatToInt16 (f64mul value 100)
  ((e.WriteByte channel).WriteByte AnalogOutput).WriteInt16 val

def encoder.AddLuminosity (e : encoder) (channel value : Nat) : encoder :=
  ((e.WriteByte channel).WriteByte Luminosity).WriteUint16 value

def encoder.AddPresence (e : encoder) (channel value : Nat) : encoder :=
  ((e.WriteByte channel).WriteByte Presence).WriteByte value

def encoder.AddTemperature (e : encoder) (channel : Nat) (celcius : ℚ) : encoder :=
  let val := floatToInt16 (f64mul celcius 10)
  ((e.WriteByte channel).WriteByte Temperature).WriteInt16 val

def encoder.AddRelativeHumidity (e : encoder) (channel : Nat) (rh : ℚ) : encoder :=
  ((e.WriteByte channel).WriteByte RelativeHumidity).WriteByte (floatToUint8 (f64mul rh 2))

def encoder.AddAccelerometer (e : encoder) (channel : Nat) (x y z : ℚ) : encoder :=
  let valX := floatToInt16 (f64mul x 1000)
  let valY := floatToInt16 (f64mul y 1000)
  let valZ := floatToInt16 (f64mul z 1000)
  (((((e.WriteByte channel).WriteByte Accelerometer).WriteInt16 valX).WriteInt16 valY).WriteInt16 valZ)

def encoder.AddBarometricPressure (e : encoder) (channel : Nat) (hpa : ℚ) : encoder :=
  let val := floatToInt16 (f64mul hpa 10)
  ((e.WriteByte channel).WriteByte BarometricPressure).WriteInt16 val

def encoder.AddGyrometer (e : encoder) (channel : Nat) (x y z : ℚ) : encoder :=
  let valX := floatToInt16 (f64mul x 100)
  let valY := floatToInt16 (f64mul y 100)
  let valZ := floatToInt16 (f64mul z 100)
  (((((e.WriteByte channel).WriteByte Gyrometer).WriteInt16 valX).WriteInt16 valY).WriteInt16 valZ)

def encoder.AddGPS (e : encoder) (channel : Nat) (latitude longitude meters : ℚ) : encoder :=
  let valLat := floatToInt32 (f64mul latitude 10000)
  let valLon := floatToInt32 (f64mul longitude 10000)
  let valAlt := floatToInt32 (f64mul meters 100)
  (((((((((((e.WriteByte channel).WriteByte GPS).WriteByte (byte (valLat >>> (16 : Nat)))).WriteByte
    (byte (valLat >>> (8 : Nat)))).WriteByte (byte valLat)).WriteByte (byte (valLon >>> (16 : Nat)))).WriteByte
    (byte (valLon >>> (8 : Nat)))).WriteByte (byte valLon)).WriteByte (byte (valAlt >>> (16 : Nat)))).WriteByte
    (byte (valAlt >>> (8 : Nat)))).WriteByte (byte valAlt))

/-- One `Add...` call on the encoder, described by the event it is meant to
produce on decoding: the method of the same name with the same arguments. -/
def encoder.Add (e : encoder) : UplinkEvent → encoder
  | .DigitalInput c v => e.AddDigitalInput c v
  | .DigitalOutput c v => e.AddDigitalOutput c v
  | .AnalogInput c v => e.AddAnalogInput c v
  | .AnalogOutput c v => e.AddAnalogOutput c v
  | .Luminosity c v => e.AddLuminosity c v
  | .Presence c v => e.AddPresence c v
  | .Temperature c v => e.AddTemperature c v
  | .RelativeHumidity c v => e.AddRelativeHumidity c v
  | .Accelerometer c x y z => e.AddAccelerometer c x y z
  | .BarometricPressure c v => e.AddBarometricPressure c v
  | .Gyrometer c x y z => e.AddGyrometer c x y z
  | .GPS c la lo al => e.AddGPS c la lo al

/-! ## The older generation's decoder (`src/cayennelpp/decoder.go`)

Its targets take `float32` values: every physical value it delivers is the
`float32` quotient `float32(val) / scale`. -/

namespace older

/-- The `for` loop of the older `DecodeDownlink`, one iteration per unit of
fuel: it has no terminator byte. -/
def downlinkLoop : Nat → List Nat → Option (Decoded PortEvent)
  | 0, _ => none
  | fuel + 1, r =>
    match readFull 1 r with
    | (.error e, r1) =>
      if e = .EOF then some ⟨[], none, r1⟩ else some ⟨[], some e, r1⟩
    | (.ok buf, r1) =>
      match readInt16 r1 with
      | (.error e, r2) => some ⟨[], some e, r2⟩
      | (.ok val, r2) =>
        (downlinkLoop fuel r2).map
          (Decoded.deliver ⟨buf.getD 0 0, f32div (val : ℚ) 100⟩)

/-- The older method `DecodeDownlink` on a decoder whose source holds `r`. -/
def DecodeDownlink (r : List Nat) : Option (Decoded PortEvent) :=
  downlinkLoop (r.length + 1) r

/-- The older generation's `decodeBarometricPressure`
(`src/cayennelpp/decoder.go`). -/
def decodeBarometricPressure (channel : Nat) (r : List Nat) : Read UplinkEvent :=
  match readInt16 r with
  | (.error e, r1) => (.error e, r1)
  | (.ok val, r1) => (.ok (.BarometricPressure channel (f32div (val : ℚ) 10)), r1)

/-- Go `int8(u)` for an unsigned `u`: the two's-complement reading of the low
8 bits. -/
def int8 (u : Nat) : Int :=
  if u % 256 < 128 then (u % 256 : Nat) else (u % 256 : Nat) - 256

/-- Go `binary.Read(r, binary.BigEndian, &val)` for `val int8`. -/
def readInt8 (r : List Nat) : Read Int :=
  match readFull 1 r with
  | (.error e, r1) => (.error e, r1)
  | (.ok b, r1) => (.ok (int8 (b.getD 0 0)), r1)

def decodeDigitalInput (channel : Nat) (r : List Nat) : Read UplinkEvent :=
  match readUint8 r with
  | (.error e, r1) => (.error e, r1)
  | (.ok val, r1) => (.ok (.DigitalInput channel val), r1)

def decodeDigitalOutput (channel : Nat) (r : List Nat) : Read UplinkEvent :=
  match readUint8 r with
  | (.error e, r1) => (.error e, r1)
  | (.ok val, r1) => (.ok (.DigitalOutput channel val), r1)

def decodeAnalogInput (channel : Nat) (r : List Nat) : Read UplinkEvent :=
  match readInt16 r with
  | (.error e, r1) => (.error e, r1)
  | (.ok val, r1) => (.ok (.AnalogInput channel (f32div (val : ℚ) 100)), r1)

def decodeAnalogOutput (channel : Nat) (r : List Nat) : Read UplinkEvent :=
  match readInt16 r with
  | (.error e, r1) => (.error e, r1)
  | (.ok val, r1) => (.ok (.AnalogOutput channel (f32div (val : ℚ) 100)), r1)

def decodeLuminosity (channel : Nat) (r : List Nat) : Read UplinkEvent :=
  match readUint16 r with
  | (.error e, r1) => (.error e, r1)
  | (.ok val, r1) => (.ok (.Luminosity channel val), r1)

def decodePresence (channel : Nat) (r : List Nat) : Read UplinkEvent :=
  match readUint8 r with
  | (.error e, r1) => (.error e, r1)
  | (.ok val, r1) => (.ok (.Presence channel val), r1)

def decodeTemperature (channel : Nat) (r : List Nat) : Read UplinkEvent :=
  match readInt16 r with
  | (.error e, r1) => (.error e, r1)
  | (.ok val, r1) => (.ok (.Temperature channel (f32div (val : ℚ) 10)), r1)

/-- The older `decodeRelativeHumidity`: the payload byte is read as `int8`. -/
def decodeRelativeHumidity (channel : Nat) (r : List Nat) : Read UplinkEvent :=
  match readInt8 r with
  | (.error e, r1) => (.error e, r1)
  | (.ok val, r1) => (.ok (.RelativeHumidity channel (f32div (val : ℚ) 2)), r1)

def decodeAccelerometer (channel : Nat) (r : List Nat) : Read UplinkEvent :=
  match readInt16 r with
  | (.error e, r1) => (.error e, r1)
  | (.ok valX, r1) =>
    match readInt16 r1 with
    | (.error e, r2) => (.error e, r2)
    | (.ok valY, r2) =>
      match readInt16 r2 with
      | (.error e, r3) => (.error e, r3)
      | (.ok valZ, r3) =>
        (.ok (.Accelerometer channel
          (f32div (valX : ℚ) 1000) (f32div (valY : ℚ) 1000) (f32div (valZ : ℚ) 1000)), r3)

def decodeGyrometer (channel : Nat) (r : List Nat) : Read UplinkEvent :=
  match readInt16 r with
  | (.error e, r1) => (.error e, r1)
  | (.ok valX, r1) =>
    match readInt16 r1 with
    | (.error e, r2) => (.error e, r2)
    | (.ok valY, r2) =>
      match readInt16 r2 with
      | (.error e, r3) => (.error e, r3)
      | (.ok valZ, r3) =>
        (.ok (.Gyrometer channel
          (f32div (valX : ℚ) 100) (f32div (valY : ℚ) 100) (f32div (valZ : ℚ) 100)), r3)

/-- One packed GPS field as the older decoder reads it:
`int32(b[0])<<16 | int32(b[1])<<8 | int32(b[2])`, with no sign extension. -/
def gpsField (b : List Nat) : Int :=
  (b.getD 0 0 * 65536 + b.getD 1 0 * 256 + b.getD 2 0 : Nat)

def decodeGPS (channel : Nat) (r : List Nat) : Read UplinkEvent :=
  match readFull 9 r with
  | (.error e, r1) => (.error e, r1)
  | (.ok buf, r1) =>
    (.ok (.GPS channel
      (f32div (gpsField (buf.take 3) : ℚ) 10000)
      (f32div (gpsField ((buf.drop 3).take 3) : ℚ) 10000)
      (f32div (gpsField ((buf.drop 6).take 3) : ℚ) 100)), r1)

/-- The `switch buf[1]` of the older `DecodeUplink`; its unknown-type error,
`ErrInvalidChannel`, is the `ErrInvalidChannelType` of the newer generation
under its older name. -/
def decodeUnit (channel type : Nat) (r : List Nat) : Read UplinkEvent :=
  if type = DigitalInput then decodeDigitalInput channel r
  else if type = DigitalOutput then decodeDigitalOutput channel r
  else if type = AnalogInput then decodeAnalogInput channel r
  else if type = AnalogOutput then decodeAnalogOutput channel r
  else if type = Luminosity then decodeLuminosity channel r
  else if type = Presence then decodePresence channel r
  else if type = Temperature then decodeTemperature channel r
  else if type = RelativeHumidity then decodeRelativeHumidity channel r
  else if type = Accelerometer then decodeAccelerometer channel r
  else if type = BarometricPressure then decodeBarometricPressure channel r
  else if type = Gyrometer then decodeGyrometer channel r
  else if type = GPS then decodeGPS channel r
  else (.error .ErrInvalidChannelType, r)

/-- The `for` loop of the older `DecodeUplink`, one iteration per unit of
fuel. -/
def uplinkLoop : Nat → List Nat → Option (Decoded UplinkEvent)
  | 0, _ => none
  | fuel + 1, r =>
    match readFull 2 r with
    | (.error e, r1) =>
      if e = .EOF then some ⟨[], none, r1⟩ else some ⟨[], some e, r1⟩
    | (.ok buf, r1) =>
      match decodeUnit (buf.getD 0 0) (buf.getD 1 0) r1 with
      | (.error e, r2) => some ⟨[], some e, r2⟩
      | (.ok ev, r2) => (uplinkLoop fuel r2).map (Decoded.deliver ev)

/-- The older method `DecodeUplink` on a decoder whose source holds `r`. -/
def DecodeUplink (r : List Nat) : Option (Decoded UplinkEvent) :=
  uplinkLoop (r.length + 1) r

end older

/-! ## Vocabulary of the specification -/

/-- The twelve registered type tags. -/

def tags : List Nat :=
  [DigitalInput, DigitalOutput, AnalogInput, AnalogOutput, Luminosity, Presence, Temperature,
    RelativeHumidity, Accelerometer, BarometricPressure, Gyrometer, GPS]

/-- The tag has an entry in the registry. -/
def registered (t : Nat) : Prop := t ∈ tags

instance (t : Nat) : Decidable (registered t) := by unfold registered; infer_instance

/-- Payload width in bytes of a registered type (0 for an unknown tag). -/
def payloadWidth (t : Nat) : Nat :=
  if t = DigitalInput ∨ t = DigitalOutput ∨ t = Presence ∨ t = RelativeHumidity then 1
  else if t = AnalogInput ∨ t = AnalogOutput ∨ t = Luminosity ∨ t = Temperature
    ∨ t = BarometricPressure then 2
  else if t = Accelerometer ∨ t = Gyrometer then 6
  else if t = GPS then 9
  else 0

/-- Width of each single read the decoder makes for a type: one byte, one
2-byte field (three of them for the 3-axis types), or the 9-byte GPS block. -/
def readWidth (t : Nat) : Nat :=
  if t = DigitalInput ∨ t = DigitalOutput ∨ t = Presence ∨ t = RelativeHumidity then 1
  else if t = GPS then 9
  else 2

/-- The scaled value, fraction discarded, fits a signed 16-bit field. -/
def fits16 (x : ℚ) : Prop := -32768 ≤ truncate x ∧ truncate x ≤ 32767

/-- The scaled value, fraction discarded, fits a signed 24-bit field. -/
def fits24 (x : ℚ) : Prop := -8388608 ≤ truncate x ∧ truncate x ≤ 8388607

/-- The scaled value, fraction discarded, fits an unsigned byte. -/
def fitsU8 (x : ℚ) : Prop := 0 ≤ truncate x ∧ truncate x ≤ 255

/-- The arguments of an `Add...` call are in range: every scaled integer (the
`float64` product of the value and the scale, fraction discarded) fits the
field it is written to. -/
def Fits : UplinkEvent → Prop
  | .DigitalInput _ _ => True
  | .DigitalOutput _ _ => True
  | .AnalogInput _ v => fits16 (f64mul v 100)
  | .AnalogOutput _ v => fits16 (f64mul v 100)
  | .Luminosity _ v => v < 65536
  | .Presence _ _ => True
  | .Temperature _ v => fits16 (f64mul v 10)
  | .RelativeHumidity _ v => fitsU8 (f64mul v 2)
  | .Accelerometer _ x y z => fits16 (f64mul x 1000) ∧ fits16 (f64mul y 1000) ∧ fits16 (f64mul z 1000)
  | .BarometricPressure _ v => fits16 (f64mul v 10)
  | .Gyrometer _ x y z => fits16 (f64mul x 100) ∧ fits16 (f64mul y 100) ∧ fits16 (f64mul z 100)
  | .GPS _ la lo al => fits24 (f64mul la 10000) ∧ fits24 (f64mul lo 10000) ∧ fits24 (f64mul al 100)

/-- The quantized value `trunc(v * scale) / scale`, the product being the
`float64` product the encoder computes. -/
def quant (scale : ℚ) (v : ℚ) : ℚ := (truncate (f64mul v scale) : ℚ) / scale

/-- The call with every physical value replaced by its quantized value. -/
def quantize : UplinkEvent → UplinkEvent
  | .DigitalInput c v => .DigitalInput c v
  | .DigitalOutput c v => .DigitalOutput c v
  | .AnalogInput c v => .AnalogInput c (quant 100 v)
  | .AnalogOutput c v => .AnalogOutput c (quant 100 v)
  | .Luminosity c v => .Luminosity c v
  | .Presence c v => .Presence c v
  | .Temperature c v => .Temperature c (quant 10 v)
  | .RelativeHumidity c v => .RelativeHumidity c (quant 2 v)
  | .Accelerometer c x y z => .Accelerometer c (quant 1000 x) (quant 1000 y) (quant 1000 z)
  | .BarometricPressure c v => .BarometricPressure c (quant 10 v)
  | .Gyrometer c x y z => .Gyrometer c (quant 100 x) (quant 100 y) (quant 100 z)
  | .GPS c la lo al => .GPS c (quant 10000 la) (quant 10000 lo) (quant 100 al)

/-- The two `float64` values differ by less than `step`. -/
def closer (step v v1 : ℚ) : Prop := |round64 v1 - round64 v| < step

/-- The second event is a call of the same method on the same channel whose
values, as `float64`, differ from the first one's by less than `slack` times
the quantization step of the type (and are equal for the unscaled types). -/
def WithinBy (slack : ℚ) : UplinkEvent → UplinkEvent → Prop
  | .DigitalInput c v, .DigitalInput c1 v1 => c1 = c ∧ v1 = v
  | .DigitalOutput c v, .DigitalOutput c1 v1 => c1 = c ∧ v1 = v
  | .AnalogInput c v, .AnalogInput c1 v1 => c1 = c ∧ closer (slack / 100) v v1
  | .AnalogOutput c v, .AnalogOutput c1 v1 => c1 = c ∧ closer (slack / 100) v v1
  | .Luminosity c v, .Luminosity c1 v1 => c1 = c ∧ v1 = v
  | .Presence c v, .Presence c1 v1 => c1 = c ∧ v1 = v
  | .Temperature c v, .Temperature c1 v1 => c1 = c ∧ closer (slack / 10) v v1
  | .RelativeHumidity c v, .RelativeHumidity c1 v1 => c1 = c ∧ closer (slack / 2) v v1
  | .Accelerometer c x y z, .Accelerometer c1 x1 y1 z1 =>
    c1 = c ∧ closer (slack / 1000) x x1 ∧ closer (slack / 1000) y y1 ∧
      closer (slack / 1000) z z1
  | .BarometricPressure c v, .BarometricPressure c1 v1 => c1 = c ∧ closer (slack / 10) v v1
  | .Gyrometer c x y z, .Gyrometer c1 x1 y1 z1 =>
    c1 = c ∧ closer (slack / 100) x x1 ∧ closer (slack / 100) y y1 ∧ closer (slack / 100) z z1
  | .GPS c la lo al, .GPS c1 la1 lo1 al1 =>
    c1 = c ∧ closer (slack / 10000) la la1 ∧ closer (slack / 10000) lo lo1 ∧
      closer (slack / 100) al al1
  | _, _ => False

/-- The second event is a call of the same method on the same channel whose
values differ from the first one's by less than the quantization step of the
type (and are equal for the unscaled types). -/
def Within (call ev : UplinkEvent) : Prop := WithinBy 1 call ev

/-- The allowance for the rounding of the `float64` operations: one part in
`2 ^ 27` of the quantization step. -/
def slack : ℚ := 1 + 1 / 2 ^ 27

/-- What decoding the unit written by an `Add...` call delivers: the call with
every scaled value converted to its field's integer type and divided by the
scale again. -/
def echo : UplinkEvent → UplinkEvent
  | .DigitalInput c v => .DigitalInput c v
  | .DigitalOutput c v => .DigitalOutput c v
  | .AnalogInput c v => .AnalogInput c ((floatToInt16 (f64mul v 100) : ℚ) / 100)
  | .AnalogOutput c v => .AnalogOutput c ((floatToInt16 (f64mul v 100) : ℚ) / 100)
  | .Luminosity c v => .Luminosity c (v % 65536)
  | .Presence c v => .Presence c v
  | .Temperature c v => .Temperature c ((floatToInt16 (f64mul v 10) : ℚ) / 10)
  | .RelativeHumidity c v => .RelativeHumidity c ((floatToUint8 (f64mul v 2) : ℚ) / 2)
  | .Accelerometer c x y z =>
    .Accelerometer c ((floatToInt16 (f64mul x 1000) : ℚ) / 1000)
      ((floatToInt16 (f64mul y 1000) : ℚ) / 1000) ((floatToInt16 (f64mul z 1000) : ℚ) / 1000)
  | .BarometricPressure c v => .BarometricPressure c ((floatToInt16 (f64mul v 10) : ℚ) / 10)
  | .Gyrometer c x y z =>
    .Gyrometer c ((floatToInt16 (f64mul x 100) : ℚ) / 100)
      ((floatToInt16 (f64mul y 100) : ℚ) / 100) ((floatToInt16 (f64mul z 100) : ℚ) / 100)
  | .GPS c la lo al =>
    .GPS c ((((floatToInt32 (f64mul la 10000) + 8388608) % 16777216 - 8388608 : Int) : ℚ) / 10000)
      ((((floatToInt32 (f64mul lo 10000) + 8388608) % 16777216 - 8388608 : Int) : ℚ) / 10000)
      ((((floatToInt32 (f64mul al 100) + 8388608) % 16777216 - 8388608 : Int) : ℚ) / 100)

/-- A sequence of `Add...` calls made in order on a fresh encoder. -/
def encodeAll (calls : List UplinkEvent) : encoder := calls.foldl encoder.Add NewEncoder

/-- The big-endian two's-complement signed 16-bit value of two bytes. -/
def signed16 (hi lo : Nat) : Int :=
  if hi < 128 then (hi * 256 + lo : Nat) else (hi * 256 + lo : Nat) - 65536

/-- The 24-bit big-endian two's-complement integer of three bytes:
`((b0*65536 + b1*256 + b2 + 2^23) mod 2^24) - 2^23`. -/
def signed24 (b0 b1 b2 : Nat) : Int :=
  ((b0 * 65536 + b1 * 256 + b2 + 8388608) % 16777216 : Nat) - 8388608

/-- A complete uplink Data Unit: channel, registered type tag, and the full
fixed-width payload of that type. -/
def IsUnit (u : List Nat) : Prop :=
  ∃ c t p, u = c :: t :: p ∧ registered t ∧ p.length = payloadWidth t

/-- The units of a list, one after the other. -/
def concatUnits : List (List Nat) → List Nat
  | [] => []
  | u :: us => u ++ concatUnits us

/-- A concatenation of zero or more complete uplink Data Units. -/
def IsFrame (s : List Nat) : Prop :=
  ∃ units : List (List Nat), (∀ u ∈ units, IsUnit u) ∧ s = concatUnits units

/-- The events of an earlier part of the stream put in front of a later run's
result. -/
def Decoded.after {ε : Type} (evs : List ε) (d : Decoded ε) : Decoded ε :=
  { d with events := evs ++ d.events }

/-- The bytes of a sequence of downlink units `(channel, hi, lo)`. -/
def downlinkFrame : List (Nat × Nat × Nat) → List Nat
  | [] => []
  | (c, hi, lo) :: us => c :: hi :: lo :: downlinkFrame us

/-- The `Port` call a downlink unit `(channel, hi, lo)` stands for. -/
def portOf (u : Nat × Nat × Nat) : PortEvent := ⟨u.1, (signed16 u.2.1 u.2.2 : ℚ) / 100⟩

/-- The `Port` call a downlink unit stands for in the older generation, its
value the `float32` quotient. -/
def portOf32 (u : Nat × Nat × Nat) : PortEvent := ⟨u.1, f32div (signed16 u.2.1 u.2.2 : ℚ) 100⟩

/-- The `Port` call with its value, a quotient by the scale, taken in
`float32` as the older generation does. -/
def PortEvent.toFloat32 (p : PortEvent) : PortEvent := ⟨p.channel, round32 p.value⟩

/-- The call with every physical value, a quotient by the scale, taken in
`float32` as the older generation does. -/
def UplinkEvent.toFloat32 : UplinkEvent → UplinkEvent
  | .DigitalInput c v => .DigitalInput c v
  | .DigitalOutput c v => .DigitalOutput c v
  | .AnalogInput c v => .AnalogInput c (round32 v)
  | .AnalogOutput c v => .AnalogOutput c (round32 v)
  | .Luminosity c v => .Luminosity c v
  | .Presence c v => .Presence c v
  | .Temperature c v => .Temperature c (round32 v)
  | .RelativeHumidity c v => .RelativeHumidity c (round32 v)
  | .Accelerometer c x y z => .Accelerometer c (round32 x) (round32 y) (round32 z)
  | .BarometricPressure c v => .BarometricPressure c (round32 v)
  | .Gyrometer c x y z => .Gyrometer c (round32 x) (round32 y) (round32 z)
  | .GPS c la lo al => .GPS c (round32 la) (round32 lo) (round32 al)

/-- The result of a decoding helper with the physical values of its event
taken in `float32`. -/
def narrowRead (x : Read UplinkEvent) : Read UplinkEvent :=
  (x.1.map UplinkEvent.toFloat32, x.2)

/-- The result of a run with every event replaced by its image. -/
def Decoded.mapEvents {ε : Type} (f : ε → ε) (d : Decoded ε) : Decoded ε :=
  { d with events := d.events.map f }

/-- The big-endian two's-complement encoding of an integer on 16 bits (also
the plain big-endian encoding of an unsigned 16-bit value). -/
def be16 (n : Int) : List Nat :=
  [(if n < 0 then n + 65536 else n).toNat / 256, (if n < 0 then n + 65536 else n).toNat % 256]

/-- The big-endian two's-complement encoding of an integer on 24 bits. -/
def be24 (n : Int) : List Nat :=
  [(if n < 0 then n + 16777216 else n).toNat / 65536,
    (if n < 0 then n + 16777216 else n).toNat / 256 % 256,
    (if n < 0 then n + 16777216 else n).toNat % 256]

/-- The type tag of the unit an `Add...` call writes. -/
def tagOf : UplinkEvent → Nat
  | .DigitalInput _ _ => DigitalInput
  | .DigitalOutput _ _ => DigitalOutput
  | .AnalogInput _ _ => AnalogInput
  | .AnalogOutput _ _ => AnalogOutput
  | .Luminosity _ _ => Luminosity
  | .Presence _ _ => Presence
  | .Temperature _ _ => Temperature
  | .RelativeHumidity _ _ => RelativeHumidity
  | .Accelerometer _ _ _ _ => Accelerometer
  | .BarometricPressure _ _ => BarometricPressure
  | .Gyrometer _ _ _ _ => Gyrometer
  | .GPS _ _ _ _ => GPS

/-- The wire layout of the unit of an in-range call: channel, type tag, then
each raw integer (the `float64` product of the value and the scale of the
type, fraction discarded) big-endian at the width of the type, two's
complement for the signed fields. -/
def unitLayout : UplinkEvent → List Nat
  | .DigitalInput c v => [c, DigitalInput, v]
  | .DigitalOutput c v => [c, DigitalOutput, v]
  | .AnalogInput c v => c :: AnalogInput :: be16 (truncate (f64mul v 100))
  | .AnalogOutput c v => c :: AnalogOutput :: be16 (truncate (f64mul v 100))
  | .Luminosity c v => c :: Luminosity :: be16 v
  | .Presence c v => [c, Presence, v]
  | .Temperature c v => c :: Temperature :: be16 (truncate (f64mul v 10))
  | .RelativeHumidity c v => [c, RelativeHumidity, (truncate (f64mul v 2)).toNat]
  | .Accelerometer c x y z =>
    c :: Accelerometer ::
      (be16 (truncate (f64mul x 1000)) ++ be16 (truncate (f64mul y 1000)) ++ be16 (truncate (f64mul z 1000)))
  | .BarometricPressure c v => c :: BarometricPressure :: be16 (truncate (f64mul v 10))
  | .Gyrometer c x y z =>
    c :: Gyrometer ::
      (be16 (truncate (f64mul x 100)) ++ be16 (truncate (f64mul y 100)) ++ be16 (truncate (f64mul z 100)))
  | .GPS c la lo al =>
    c :: GPS ::
      (be24 (truncate (f64mul la 10000)) ++ be24 (truncate (f64mul lo 10000)) ++ be24 (truncate (f64mul al 100)))

/-- The wire layout the specification gives the unit of a call: channel, type
tag, then each raw integer, the value times the scale of the type with the
fraction discarded, big-endian at the width of the type, two's complement for
the signed fields. -/
def specLayout : UplinkEvent → List Nat
  | .DigitalInput c v => [c, DigitalInput, v]
  | .DigitalOutput c v => [c, DigitalOutput, v]
  | .AnalogInput c v => c :: AnalogInput :: be16 (truncate (v * 100))
  | .AnalogOutput c v => c :: AnalogOutput :: be16 (truncate (v * 100))
  | .Luminosity c v => c :: Luminosity :: be16 v
  | .Presence c v => [c, Presence, v]
  | .Temperature c v => c :: Temperature :: be16 (truncate (v * 10))
  | .RelativeHumidity c v => [c, RelativeHumidity, (truncate (v * 2)).toNat]
  | .Accelerometer c x y z =>
    c :: Accelerometer ::
      (be16 (truncate (x * 1000)) ++ be16 (truncate (y * 1000)) ++ be16 (truncate (z * 1000)))
  | .BarometricPressure c v => c :: BarometricPressure :: be16 (truncate (v * 10))
  | .Gyrometer c x y z =>
    c :: Gyrometer ::
      (be16 (truncate (x * 100)) ++ be16 (truncate (y * 100)) ++ be16 (truncate (z * 100)))
  | .GPS c la lo al =>
    c :: GPS ::
      (be24 (truncate (la * 10000)) ++ be24 (truncate (lo * 10000)) ++ be24 (truncate (al * 100)))

/-- The `float64` product of the value and the scale is the exact product:
the value is a `float64` and the multiplication does not round. -/
def exactProduct (v s : ℚ) : Prop := f64mul v s = v * s

/-- Every scaled value of the call has an exact `float64` product. -/
def Exact : UplinkEvent → Prop
  | .DigitalInput _ _ => True
  | .DigitalOutput _ _ => True
  | .AnalogInput _ v => exactProduct v 100
  | .AnalogOutput _ v => exactProduct v 100
  | .Luminosity _ _ => True
  | .Presence _ _ => True
  | .Temperature _ v => exactProduct v 10
  | .RelativeHumidity _ v => exactProduct v 2
  | .Accelerometer _ x y z => exactProduct x 1000 ∧ exactProduct y 1000 ∧ exactProduct z 1000
  | .BarometricPressure _ v => exactProduct v 10
  | .Gyrometer _ x y z => exactProduct x 100 ∧ exactProduct y 100 ∧ exactProduct z 100
  | .GPS _ la lo al => exactProduct la 10000 ∧ exactProduct lo 10000 ∧ exactProduct al 100

/-- The two's-complement wraparound of the spec (sections 4.3 and 9): the
integer in `[-2^15, 2^15)` congruent to `n` modulo `2^16`. -/
def wrap16 (n : Int) : Int := (n + 32768) % 65536 - 32768

/-- The integer in `[-2^23, 2^23)` congruent to `n` modulo `2^24`. -/
def wrap24 (n : Int) : Int := (n + 8388608) % 16777216 - 8388608

/-- The two bytes of `n` modulo `2^16`, high byte first. -/
def low16 (n : Int) : List Nat := [(n % 65536).toNat / 256, (n % 65536).toNat % 256]

/-- The low three bytes of `n`, high byte first: `(n >> 16) & 0xFF`,
`(n >> 8) & 0xFF`, `n & 0xFF`. -/
def low24 (n : Int) : List Nat :=
  [(n / 65536 % 256).toNat, (n / 256 % 256).toNat, (n % 256).toNat]

/-- The scaled value, fraction discarded, fits a signed 32-bit integer. -/
def fits32 (x : ℚ) : Prop := -2147483648 ≤ truncate x ∧ truncate x ≤ 2147483647

/-- The integer `n` is `x` with its fractional part discarded toward zero. -/
def TowardZero (x : ℚ) (n : Int) : Prop :=
  (0 ≤ x → (n : ℚ) ≤ x ∧ x < n + 1) ∧ (x < 0 → (n : ℚ) - 1 < x ∧ x ≤ n)

/-- One call on the encoder, uplink or downlink. -/
inductive EncoderCall where
  | uplink (call : UplinkEvent)
  | port (channel : Nat) (value : ℚ)

/-- The encoder after one call. -/
def encoder.call (e : encoder) : EncoderCall → encoder
  | .uplink ev => e.Add ev
  | .port c v => e.AddPort c v

/-- The encoder after a sequence of calls, made in order. -/
def encoder.calls (e : encoder) (cs : List EncoderCall) : encoder := cs.foldl encoder.call e

/-- The `Port` events replayed in order through `AddPort` on a fresh
encoder. -/
def encodePorts (evs : List PortEvent) : encoder :=
  evs.foldl (fun e p => e.AddPort p.channel p.value) NewEncoder

/-- Every element of the stream is a byte. -/
def IsBytes (s : List Nat) : Prop := ∀ b ∈ s, b < 256

/-- The proviso on one complete uplink unit under which the two generations
read it alike: a relative-humidity payload byte below `0x80`, and the first
byte of each of the three GPS fields below `0x80`. -/
def unitAgrees (u : List Nat) : Prop :=
  (u.getD 1 0 = RelativeHumidity → u.getD 2 0 < 0x80) ∧
  (u.getD 1 0 = GPS → u.getD 2 0 < 0x80 ∧ u.getD 5 0 < 0x80 ∧ u.getD 8 0 < 0x80)

/-- Every complete unit of the stream satisfies the proviso: the units of any
way of reading a start of the stream as complete units followed by a rest. -/
def Agrees (s : List Nat) : Prop :=
  ∀ (units : List (List Nat)) (rest : List Nat), s = concatUnits units ++ rest →
    (∀ u ∈ units, IsUnit u) → ∀ u ∈ units, unitAgrees u

/-- No byte at a downlink unit boundary (positions 0, 3, 6, ...) is the
terminator `0xFF`. -/
def NoTerminator (s : List Nat) : Prop := ∀ k, 3 * k < s.length → s.getD (3 * k) 0 ≠ 0xFF

/-! ## Rounding to nearest -/

theorem roundHalfEven_eq (x : ℚ) (n : Int) (h : |x - n| < 1 / 2) : roundHalfEven x = n := by
  rw [abs_lt] at h
  obtain ⟨h1, h2⟩ := h
  unfold roundHalfEven
  by_cases hx : (n : ℚ) ≤ x
  · have hf : ⌊x⌋ = n := by rw [Int.floor_eq_iff]; constructor <;> linarith
    rw [hf, if_pos (by linarith)]
  · have hx1 := not_le.mp hx
    have hf : ⌊x⌋ = n - 1 := by
      rw [Int.floor_eq_iff]; push_cast; constructor <;> linarith
    rw [hf]
    push_cast
    rw [if_neg (by linarith), if_pos (by linarith)]
    ring

theorem roundHalfEven_intCast (n : Int) : roundHalfEven (n : ℚ) = n :=
  roundHalfEven_eq _ n (by simp)

theorem roundHalfEven_abs_sub_le (x : ℚ) : |(roundHalfEven x : ℚ) - x| ≤ 1 / 2 := by
  have h1 := Int.floor_le x
  have h2 := Int.lt_floor_add_one x
  unfold roundHalfEven
  split_ifs with a b c
  · rw [abs_le]; constructor <;> linarith
  · push_cast; rw [abs_le]; constructor <;> linarith
  · rw [abs_le]; constructor <;> linarith
  · push_cast; rw [abs_le]; constructor <;> linarith

theorem roundHalfEven_nonneg {x : ℚ} (h : 0 ≤ x) : 0 ≤ roundHalfEven x := by
  have h0 : 0 ≤ ⌊x⌋ := Int.floor_nonneg.mpr h
  unfold roundHalfEven
  split_ifs <;> omega

theorem two_zpow_pos (e : Int) : (0 : ℚ) < 2 ^ e := zpow_pos (by norm_num) e

theorem ulpExp_of_bounds (p : Nat) (emin : Int) (x : ℚ) (k : Int)
    (h1 : (2 : ℚ) ^ k ≤ |x|) (h2 : |x| < 2 ^ (k + 1)) :
    ulpExp p emin x = max (k - (p - 1)) emin := by
  have hpos : (0 : ℚ) < |x| := lt_of_lt_of_le (two_zpow_pos k) h1
  have ha : k ≤ Int.log 2 |x| := (Int.zpow_le_iff_le_log (by norm_num) hpos).mp (by exact_mod_cast h1)
  have hb : Int.log 2 |x| < k + 1 :=
    (Int.lt_zpow_iff_log_lt (by norm_num) hpos).mp (by exact_mod_cast h2)
  have : Int.log 2 |x| = k := by omega
  unfold ulpExp
  rw [this]

/-- A value with bounds `2 ^ k ≤ |x| < 2 ^ (k + 1)` rounds to the multiple
`n * 2 ^ e` of its unit in the last place that is less than half a unit
away. -/
theorem roundTo_eq_of (p : Nat) (emin : Int) (x : ℚ) (k n : Int)
    (h1 : (2 : ℚ) ^ k ≤ |x|) (h2 : |x| < 2 ^ (k + 1))
    (hn : |x / 2 ^ (max (k - (p - 1)) emin) - n| < 1 / 2) :
    roundTo p emin x = n * 2 ^ (max (k - (p - 1)) emin) := by
  unfold roundTo
  rw [ulpExp_of_bounds p emin x k h1 h2, roundHalfEven_eq _ n hn]

theorem round64_eq_of (x : ℚ) (k n : Int) (hk : -1022 ≤ k)
    (h1 : (2 : ℚ) ^ k ≤ |x|) (h2 : |x| < 2 ^ (k + 1))
    (hn : |x / 2 ^ (k - 52) - n| < 1 / 2) : round64 x = n * 2 ^ (k - 52) := by
  have e : max (k - ((53 : Nat) - 1 : Int)) (-1074) = k - 52 := by
    norm_num; omega
  have := roundTo_eq_of 53 (-1074) x k n h1 h2 (by rw [e]; exact hn)
  rw [e] at this
  exact this

theorem round32_eq_of (x : ℚ) (k n : Int) (hk : -126 ≤ k)
    (h1 : (2 : ℚ) ^ k ≤ |x|) (h2 : |x| < 2 ^ (k + 1))
    (hn : |x / 2 ^ (k - 23) - n| < 1 / 2) : round32 x = n * 2 ^ (k - 23) := by
  have e : max (k - ((24 : Nat) - 1 : Int)) (-149) = k - 23 := by
    norm_num; omega
  have := roundTo_eq_of 24 (-149) x k n h1 h2 (by rw [e]; exact hn)
  rw [e] at this
  exact this

theorem roundTo_zero (p : Nat) (emin : Int) : roundTo p emin 0 = 0 := by
  unfold roundTo
  rw [zero_div]
  have : roundHalfEven (0 : ℚ) = 0 := by exact_mod_cast roundHalfEven_intCast 0
  rw [this]
  simp

/-- A value that is a multiple `m * 2 ^ e` with `|m| < 2 ^ p` and `e` not
below the smallest exponent is in the format: rounding leaves it as it is. -/
theorem roundTo_exact (p : Nat) (emin : Int) (m e : Int) (hm : |m| < 2 ^ p) (he : emin ≤ e) :
    roundTo p emin ((m : ℚ) * 2 ^ e) = (m : ℚ) * 2 ^ e := by
  by_cases hm0 : m = 0
  · subst hm0; simp [roundTo_zero]
  have hx : (m : ℚ) * 2 ^ e ≠ 0 := mul_ne_zero (by exact_mod_cast hm0) (two_zpow_pos e).ne'
  have hpos : (0 : ℚ) < |(m : ℚ) * 2 ^ e| := abs_pos.mpr hx
  -- the unit in the last place is not above `2 ^ e`
  have hu : ulpExp p emin ((m : ℚ) * 2 ^ e) ≤ e := by
    unfold ulpExp
    apply max_le _ he
    have hlt : |(m : ℚ) * 2 ^ e| < (2 : ℚ) ^ ((p : Int) + e) := by
      rw [abs_mul, abs_of_pos (two_zpow_pos e), zpow_add₀ (by norm_num : (2 : ℚ) ≠ 0)]
      apply mul_lt_mul_of_pos_right _ (two_zpow_pos e)
      have : ((|m| : Int) : ℚ) < ((2 ^ p : Int) : ℚ) := by exact_mod_cast hm
      simpa using this
    have hlog : Int.log 2 |(m : ℚ) * 2 ^ e| < (p : Int) + e :=
      (Int.lt_zpow_iff_log_lt (by norm_num) hpos).mp (by exact_mod_cast hlt)
    omega
  set u := ulpExp p emin ((m : ℚ) * 2 ^ e) with hu_def
  obtain ⟨d, hd⟩ : ∃ d : Nat, e = u + d := ⟨(e - u).toNat, by omega⟩
  have hq : (m : ℚ) * 2 ^ e / 2 ^ u = ((m * 2 ^ d : Int) : ℚ) := by
    rw [hd, zpow_add₀ (by norm_num : (2 : ℚ) ≠ 0)]
    field_simp
    ring
  unfold roundTo
  rw [← hu_def, hq, roundHalfEven_intCast, ← hq]
  field_simp

theorem round64_intCast (n : Int) (h : |n| < 2 ^ 53) : round64 (n : ℚ) = n := by
  have := roundTo_exact 53 (-1074) n 0 h (by norm_num)
  simpa [round64] using this

theorem round32_intCast (n : Int) (h : |n| < 2 ^ 24) : round32 (n : ℚ) = n := by
  have := roundTo_exact 24 (-149) n 0 h (by norm_num)
  simpa [round32] using this

theorem roundTo_nonneg (p : Nat) (emin : Int) {x : ℚ} (h : 0 ≤ x) : 0 ≤ roundTo p emin x := by
  unfold roundTo
  apply mul_nonneg _ (two_zpow_pos _).le
  exact_mod_cast roundHalfEven_nonneg (div_nonneg h (two_zpow_pos _).le)

/-- The rounding error is at most half a unit in the last place: a relative
error of `2 ^ -p`, or half the smallest positive value of the format. -/
theorem roundTo_abs_sub_le (p : Nat) (emin : Int) (x : ℚ) :
    |roundTo p emin x - x| ≤ |x| / 2 ^ p + 2 ^ emin / 2 := by
  by_cases hx : x = 0
  · subst hx
    rw [roundTo_zero]
    simp
    exact (div_pos (two_zpow_pos _) (by norm_num)).le
  have hpos : (0 : ℚ) < |x| := abs_pos.mpr hx
  set u := ulpExp p emin x with hu
  have hupos := two_zpow_pos u
  have e1 : roundTo p emin x - x = ((roundHalfEven (x / 2 ^ u) : ℚ) - x / 2 ^ u) * 2 ^ u := by
    unfold roundTo
    rw [← hu]
    field_simp
  have h1 := roundHalfEven_abs_sub_le (x / 2 ^ u)
  have h2 : |roundTo p emin x - x| ≤ 2 ^ u / 2 := by
    rw [e1, abs_mul, abs_of_pos hupos]
    calc |(roundHalfEven (x / 2 ^ u) : ℚ) - x / 2 ^ u| * 2 ^ u ≤ 1 / 2 * 2 ^ u :=
          mul_le_mul_of_nonneg_right h1 hupos.le
      _ = 2 ^ u / 2 := by ring
  have h3 : (2 : ℚ) ^ u ≤ |x| / 2 ^ p * 2 + 2 ^ emin := by
    rcases max_cases (Int.log 2 |x| - ((p : Int) - 1)) emin with ⟨hm, _⟩ | ⟨hm, _⟩
    · have hu2 : u = Int.log 2 |x| - ((p : Int) - 1) := by rw [hu]; unfold ulpExp; exact hm
      have hl : (2 : ℚ) ^ Int.log 2 |x| ≤ |x| := by
        have := Int.zpow_log_le_self (b := 2) (by norm_num) hpos
        exact_mod_cast this
      have e2 : (2 : ℚ) ^ u = 2 ^ Int.log 2 |x| / 2 ^ p * 2 := by
        rw [hu2, zpow_sub₀ (by norm_num : (2 : ℚ) ≠ 0), zpow_sub₀ (by norm_num : (2 : ℚ) ≠ 0)]
        simp
        field_simp
      rw [e2]
      have hp2 : (0 : ℚ) < 2 ^ p := by positivity
      have : (2 : ℚ) ^ Int.log 2 |x| / 2 ^ p * 2 ≤ |x| / 2 ^ p * 2 := by
        apply mul_le_mul_of_nonneg_right _ (by norm_num)
        exact div_le_div_of_nonneg_right hl hp2.le
      have := two_zpow_pos emin
      linarith
    · have hu2 : u = emin := by rw [hu]; unfold ulpExp; exact hm
      rw [hu2]
      have : (0 : ℚ) ≤ |x| / 2 ^ p * 2 := by positivity
      linarith
  linarith
/-! ## Reading and the decode loop -/

theorem readFull_of_le {n : Nat} {r : List Nat} (h : n ≤ r.length) :
    readFull n r = (.ok (r.take n), r.drop n) := by
  simp [readFull, h]

theorem readFull_short {n : Nat} {r : List Nat} (h : r.length < n) :
    readFull n r = (.error (if r = [] then .EOF else .ErrUnexpectedEOF), []) := by
  cases r with
  | nil => simp at h; simp [readFull]; omega
  | cons a t => simp at h; simp [readFull]; omega

theorem decodeUnit_unregistered (c t : Nat) (r : List Nat) (h : ¬ registered t) :
    decodeUnit c t r = (.error .ErrInvalidChannelType, r) := by
  simp only [registered, tags, List.mem_cons, List.mem_singleton, not_or, List.mem_nil_iff, or_false] at h
  obtain ⟨h1, h2, h3, h4, h5, h6, h7, h8, h9, h10, h11, h12⟩ := h
  simp [decodeUnit, h1, h2, h3, h4, h5, h6, h7, h8, h9, h10, h11, h12]

theorem decodeUnit_short (c t : Nat) (r : List Nat) (h : registered t)
    (hr : r.length < payloadWidth t) :
    decodeUnit c t r =
      (.error (if r.length % readWidth t = 0 then .EOF else .ErrUnexpectedEOF), []) := by
  simp only [registered, tags, List.mem_cons, List.mem_singleton, List.mem_nil_iff, or_false] at h
  rcases h with rfl | rfl | rfl | rfl | rfl | rfl | rfl | rfl | rfl | rfl | rfl | rfl
  all_goals
    rcases r with _ | ⟨a0, _ | ⟨a1, _ | ⟨a2, _ | ⟨a3, _ | ⟨a4, _ | ⟨a5, _ | ⟨a6, _ | ⟨a7, _ | ⟨a8, r⟩⟩⟩⟩⟩⟩⟩⟩⟩
  all_goals
    simp_all [payloadWidth, readWidth, decodeUnit, decodeDigitalInput, decodeDigitalOutput,
      decodeAnalogInput, decodeAnalogOutput, decodeLuminosity, decodePresence, decodeTemperature,
      decodeRelativeHumidity, decodeAccelerometer, decodeBarometricPressure, decodeGyrometer,
      decodeGPS, readUint8, readUint16, readInt16, readFull,
      DigitalInput, DigitalOutput, AnalogInput, AnalogOutput, Luminosity, Presence, Temperature,
      RelativeHumidity, Accelerometer, BarometricPressure, Gyrometer, GPS]
  all_goals omega

theorem decodeUnit_append (c t : Nat) (p : List Nat) (h : registered t)
    (hp : p.length = payloadWidth t) :
    ∃ ev, ∀ r, decodeUnit c t (p ++ r) = (.ok ev, r) := by
  simp only [registered, tags, List.mem_cons, List.mem_singleton, List.mem_nil_iff, or_false] at h
  rcases h with rfl | rfl | rfl | rfl | rfl | rfl | rfl | rfl | rfl | rfl | rfl | rfl
  all_goals
    rcases p with _ | ⟨a0, _ | ⟨a1, _ | ⟨a2, _ | ⟨a3, _ | ⟨a4, _ | ⟨a5, _ | ⟨a6, _ | ⟨a7, _ | ⟨a8, p⟩⟩⟩⟩⟩⟩⟩⟩⟩
  all_goals
    simp_all [payloadWidth, readWidth, decodeUnit, decodeDigitalInput, decodeDigitalOutput,
      decodeAnalogInput, decodeAnalogOutput, decodeLuminosity, decodePresence, decodeTemperature,
      decodeRelativeHumidity, decodeAccelerometer, decodeBarometricPressure, decodeGyrometer,
      decodeGPS, readUint8, readUint16, readInt16, readFull,
      DigitalInput, DigitalOutput, AnalogInput, AnalogOutput, Luminosity, Presence, Temperature,
      RelativeHumidity, Accelerometer, BarometricPressure, Gyrometer, GPS]

theorem decodeUnit_length (c t : Nat) (r : List Nat) :
    (decodeUnit c t r).2.length ≤ r.length := by
  by_cases h : registered t
  · by_cases hw : payloadWidth t ≤ r.length
    · obtain ⟨ev, hev⟩ := decodeUnit_append c t (r.take (payloadWidth t)) h (by simp [hw])
      have := hev (r.drop (payloadWidth t))
      rw [List.take_append_drop] at this
      simp [this]
    · rw [decodeUnit_short c t r h (by omega)]
      simp
  · rw [decodeUnit_unregistered c t r h]

theorem uplinkLoop_nil (fuel : Nat) : uplinkLoop (fuel + 1) [] = some ⟨[], none, []⟩ := by
  simp [uplinkLoop, readFull]

theorem uplinkLoop_single (fuel b : Nat) :
    uplinkLoop (fuel + 1) [b] = some ⟨[], some .ErrUnexpectedEOF, []⟩ := by
  simp [uplinkLoop, readFull]

theorem uplinkLoop_cons (fuel c t : Nat) (r : List Nat) :
    uplinkLoop (fuel + 1) (c :: t :: r) =
      match decodeUnit c t r with
      | (.error e, r2) => some ⟨[], some e, r2⟩
      | (.ok ev, r2) => (uplinkLoop fuel r2).map (Decoded.deliver ev) := by
  simp [uplinkLoop, readFull]

theorem uplinkLoop_fuel (n : Nat) : ∀ (r : List Nat) (f1 f2 : Nat), r.length ≤ n →
    r.length < f1 → r.length < f2 → uplinkLoop f1 r = uplinkLoop f2 r := by
  induction n with
  | zero =>
    intro r f1 f2 hn h1 h2
    have hr : r = [] := List.length_eq_zero.mp (by omega)
    subst hr
    obtain ⟨g1, rfl⟩ : ∃ g, f1 = g + 1 := ⟨f1 - 1, by omega⟩
    obtain ⟨g2, rfl⟩ : ∃ g, f2 = g + 1 := ⟨f2 - 1, by omega⟩
    rw [uplinkLoop_nil, uplinkLoop_nil]
  | succ n ih =>
    intro r f1 f2 hn h1 h2
    obtain ⟨g1, rfl⟩ : ∃ g, f1 = g + 1 := ⟨f1 - 1, by omega⟩
    obtain ⟨g2, rfl⟩ : ∃ g, f2 = g + 1 := ⟨f2 - 1, by omega⟩
    rcases r with _ | ⟨c, _ | ⟨t, r⟩⟩
    · rw [uplinkLoop_nil, uplinkLoop_nil]
    · rw [uplinkLoop_single, uplinkLoop_single]
    · have hl := decodeUnit_length c t r
      simp only [List.length_cons] at hn h1 h2
      rw [uplinkLoop_cons, uplinkLoop_cons]
      rcases hd : decodeUnit c t r with ⟨res, r2⟩
      rw [hd] at hl
      simp only at hl
      cases res with
      | error e => rfl
      | ok ev =>
        simp only
        rw [ih r2 g1 g2 (by omega) (by omega) (by omega)]

theorem DecodeUplink_eq (r : List Nat) (fuel : Nat) (h : r.length < fuel) :
    uplinkLoop fuel r = DecodeUplink r :=
  uplinkLoop_fuel r.length r fuel (r.length + 1) (le_refl _) h (by omega)

theorem DecodeUplink_nil : DecodeUplink [] = some ⟨[], none, []⟩ :=
  uplinkLoop_nil 0

theorem DecodeUplink_single (b : Nat) :
    DecodeUplink [b] = some ⟨[], some .ErrUnexpectedEOF, []⟩ :=
  uplinkLoop_single 1 b

theorem DecodeUplink_cons (c t : Nat) (r : List Nat) :
    DecodeUplink (c :: t :: r) =
      match decodeUnit c t r with
      | (.error e, r2) => some ⟨[], some e, r2⟩
      | (.ok ev, r2) => (DecodeUplink r2).map (Decoded.deliver ev) := by
  have hl := decodeUnit_length c t r
  unfold DecodeUplink
  rw [uplinkLoop_cons]
  rcases hd : decodeUnit c t r with ⟨res, r2⟩
  rw [hd] at hl
  simp only at hl
  cases res with
  | error e => rfl
  | ok ev =>
    simp only
    rw [uplinkLoop_fuel r2.length r2 _ (r2.length + 1) (le_refl _) (by simp; omega) (by omega)]


theorem int16_beUint16_putInt16 (n : Int) :
    int16 (beUint16 (putInt16 n)) = (n + 32768) % 65536 - 32768 := by
  simp only [int16, beUint16, putInt16, putUint16, List.getD_cons_zero, List.getD_cons_succ]
  split <;> omega

theorem readInt16_putInt16 (n : Int) (r : List Nat) :
    readInt16 (putInt16 n ++ r) = (.ok ((n + 32768) % 65536 - 32768), r) := by
  rw [← int16_beUint16_putInt16]
  simp [readInt16, readFull, putInt16, putUint16]

theorem beUint16_putUint16 (v : Nat) : beUint16 (putUint16 v) = v % 65536 := by
  simp only [beUint16, putUint16, List.getD_cons_zero, List.getD_cons_succ]
  omega

theorem readUint16_putUint16 (v : Nat) (r : List Nat) :
    readUint16 (putUint16 v ++ r) = (.ok (v % 65536), r) := by
  rw [← beUint16_putUint16]
  simp [readUint16, readFull, putUint16]

theorem gpsField_bytes (n : Int) :
    gpsField [byte (n >>> (16 : Nat)), byte (n >>> (8 : Nat)), byte n] =
      (n + 8388608) % 16777216 - 8388608 := by
  simp only [gpsField, int32, beUint32, byte, Int.shiftRight_eq_div_pow, List.cons_append,
    List.nil_append, List.getD_cons_zero, List.getD_cons_succ]
  norm_num
  split <;> omega

/-! ## The downlink loops -/

theorem int16_beUint16 (hi lo : Nat) (h1 : hi < 256) (h2 : lo < 256) :
    int16 (beUint16 [hi, lo]) = signed16 hi lo := by
  simp only [int16, beUint16, signed16, List.getD_cons_zero, List.getD_cons_succ]
  split <;> split <;> omega

theorem readInt16_length (r : List Nat) : (readInt16 r).2.length ≤ r.length := by
  rcases r with _ | ⟨a, _ | ⟨b, r⟩⟩
  · simp [readInt16, readFull]
  · simp [readInt16, readFull]
  · simp only [readInt16, readFull, List.length_cons]
    simp only [show 2 ≤ r.length + 1 + 1 by omega, if_true, List.drop]
    omega

theorem downlinkLoop_nil (fuel : Nat) : downlinkLoop (fuel + 1) [] = some ⟨[], none, []⟩ := by
  simp [downlinkLoop, readFull]

theorem downlinkLoop_cons (fuel c : Nat) (r : List Nat) :
    downlinkLoop (fuel + 1) (c :: r) =
      if c = 0xFF then some ⟨[], none, r⟩
      else
        match readInt16 r with
        | (.error e, r2) => some ⟨[], some e, r2⟩
        | (.ok val, r2) => (downlinkLoop fuel r2).map (Decoded.deliver ⟨c, (val : ℚ) / 100⟩) := by
  simp [downlinkLoop, readFull]

theorem downlinkLoop_fuel (n : Nat) : ∀ (r : List Nat) (f1 f2 : Nat), r.length ≤ n →
    r.length < f1 → r.length < f2 → downlinkLoop f1 r = downlinkLoop f2 r := by
  induction n with
  | zero =>
    intro r f1 f2 hn h1 h2
    have hr : r = [] := List.length_eq_zero.mp (by omega)
    subst hr
    obtain ⟨g1, rfl⟩ : ∃ g, f1 = g + 1 := ⟨f1 - 1, by omega⟩
    obtain ⟨g2, rfl⟩ : ∃ g, f2 = g + 1 := ⟨f2 - 1, by omega⟩
    rw [downlinkLoop_nil, downlinkLoop_nil]
  | succ n ih =>
    intro r f1 f2 hn h1 h2
    obtain ⟨g1, rfl⟩ : ∃ g, f1 = g + 1 := ⟨f1 - 1, by omega⟩
    obtain ⟨g2, rfl⟩ : ∃ g, f2 = g + 1 := ⟨f2 - 1, by omega⟩
    rcases r with _ | ⟨c, r⟩
    · rw [downlinkLoop_nil, downlinkLoop_nil]
    · have hl := readInt16_length r
      simp only [List.length_cons] at hn h1 h2
      rw [downlinkLoop_cons, downlinkLoop_cons]
      split
      · rfl
      · rcases hd : readInt16 r with ⟨res, r2⟩
        rw [hd] at hl
        simp only at hl
        cases res with
        | error e => rfl
        | ok val =>
          simp only
          rw [ih r2 g1 g2 (by omega) (by omega) (by omega)]

theorem DecodeDownlink_nil : DecodeDownlink [] = some ⟨[], none, []⟩ :=
  downlinkLoop_nil 0

theorem DecodeDownlink_cons (c : Nat) (r : List Nat) :
    DecodeDownlink (c :: r) =
      if c = 0xFF then some ⟨[], none, r⟩
      else
        match readInt16 r with
        | (.error e, r2) => some ⟨[], some e, r2⟩
        | (.ok val, r2) => (DecodeDownlink r2).map (Decoded.deliver ⟨c, (val : ℚ) / 100⟩) := by
  have hl := readInt16_length r
  unfold DecodeDownlink
  rw [downlinkLoop_cons]
  split
  · rfl
  · rcases hd : readInt16 r with ⟨res, r2⟩
    rw [hd] at hl
    simp only at hl
    cases res with
    | error e => rfl
    | ok val =>
      simp only
      rw [downlinkLoop_fuel r2.length r2 _ (r2.length + 1) (le_refl _) (by simp; omega) (by omega)]

theorem DecodeDownlink_unit (c hi lo : Nat) (r : List Nat) (hc : c ≠ 0xFF) :
    DecodeDownlink (c :: hi :: lo :: r) =
      (DecodeDownlink r).map (Decoded.deliver ⟨c, (int16 (beUint16 [hi, lo]) : ℚ) / 100⟩) := by
  rw [DecodeDownlink_cons, if_neg hc]
  simp [readInt16, readFull]

theorem older_downlinkLoop_nil (fuel : Nat) :
    older.downlinkLoop (fuel + 1) [] = some ⟨[], none, []⟩ := by
  simp [older.downlinkLoop, readFull]

theorem older_downlinkLoop_cons (fuel c : Nat) (r : List Nat) :
    older.downlinkLoop (fuel + 1) (c :: r) =
      match readInt16 r with
      | (.error e, r2) => some ⟨[], some e, r2⟩
      | (.ok val, r2) =>
        (older.downlinkLoop fuel r2).map (Decoded.deliver ⟨c, f32div (val : ℚ) 100⟩) := by
  simp [older.downlinkLoop, readFull]

theorem older_downlinkLoop_fuel (n : Nat) : ∀ (r : List Nat) (f1 f2 : Nat), r.length ≤ n →
    r.length < f1 → r.length < f2 → older.downlinkLoop f1 r = older.downlinkLoop f2 r := by
  induction n with
  | zero =>
    intro r f1 f2 hn h1 h2
    have hr : r = [] := List.length_eq_zero.mp (by omega)
    subst hr
    obtain ⟨g1, rfl⟩ : ∃ g, f1 = g + 1 := ⟨f1 - 1, by omega⟩
    obtain ⟨g2, rfl⟩ : ∃ g, f2 = g + 1 := ⟨f2 - 1, by omega⟩
    rw [older_downlinkLoop_nil, older_downlinkLoop_nil]
  | succ n ih =>
    intro r f1 f2 hn h1 h2
    obtain ⟨g1, rfl⟩ : ∃ g, f1 = g + 1 := ⟨f1 - 1, by omega⟩
    obtain ⟨g2, rfl⟩ : ∃ g, f2 = g + 1 := ⟨f2 - 1, by omega⟩
    rcases r with _ | ⟨c, r⟩
    · rw [older_downlinkLoop_nil, older_downlinkLoop_nil]
    · have hl := readInt16_length r
      simp only [List.length_cons] at hn h1 h2
      rw [older_downlinkLoop_cons, older_downlinkLoop_cons]
      rcases hd : readInt16 r with ⟨res, r2⟩
      rw [hd] at hl
      simp only at hl
      cases res with
      | error e => rfl
      | ok val =>
        simp only
        rw [ih r2 g1 g2 (by omega) (by omega) (by omega)]

theorem older_DecodeDownlink_nil : older.DecodeDownlink [] = some ⟨[], none, []⟩ :=
  older_downlinkLoop_nil 0

theorem older_DecodeDownlink_cons (c : Nat) (r : List Nat) :
    older.DecodeDownlink (c :: r) =
      match readInt16 r with
      | (.error e, r2) => some ⟨[], some e, r2⟩
      | (.ok val, r2) =>
        (older.DecodeDownlink r2).map (Decoded.deliver ⟨c, f32div (val : ℚ) 100⟩) := by
  have hl := readInt16_length r
  unfold older.DecodeDownlink
  rw [older_downlinkLoop_cons]
  rcases hd : readInt16 r with ⟨res, r2⟩
  rw [hd] at hl
  simp only at hl
  cases res with
  | error e => rfl
  | ok val =>
    simp only
    rw [older_downlinkLoop_fuel r2.length r2 _ (r2.length + 1) (le_refl _) (by simp; omega)
      (by omega)]

theorem older_DecodeDownlink_unit (c hi lo : Nat) (r : List Nat) :
    older.DecodeDownlink (c :: hi :: lo :: r) =
      (older.DecodeDownlink r).map
        (Decoded.deliver ⟨c, f32div (int16 (beUint16 [hi, lo]) : ℚ) 100⟩) := by
  rw [older_DecodeDownlink_cons]
  simp [readInt16, readFull]

/-! ## The loops never run out of fuel -/

theorem uplinkLoop_total (n : Nat) : ∀ (r : List Nat) (fuel : Nat), r.length ≤ n →
    r.length < fuel → ∃ d, uplinkLoop fuel r = some d := by
  induction n with
  | zero =>
    intro r fuel hn h
    have hr : r = [] := List.length_eq_zero.mp (by omega)
    subst hr
    obtain ⟨g, rfl⟩ : ∃ g, fuel = g + 1 := ⟨fuel - 1, by omega⟩
    exact ⟨_, uplinkLoop_nil g⟩
  | succ n ih =>
    intro r fuel hn h
    obtain ⟨g, rfl⟩ : ∃ g, fuel = g + 1 := ⟨fuel - 1, by omega⟩
    rcases r with _ | ⟨c, _ | ⟨t, r⟩⟩
    · exact ⟨_, uplinkLoop_nil g⟩
    · exact ⟨_, uplinkLoop_single g c⟩
    · have hl := decodeUnit_length c t r
      simp only [List.length_cons] at hn h
      rw [uplinkLoop_cons]
      rcases hd : decodeUnit c t r with ⟨res, r2⟩
      rw [hd] at hl
      simp only at hl
      cases res with
      | error e => exact ⟨_, rfl⟩
      | ok ev =>
        obtain ⟨d, hd2⟩ := ih r2 g (by omega) (by omega)
        exact ⟨Decoded.deliver ev d, by simp only [hd2, Option.map_some']⟩

theorem DecodeUplink_total (r : List Nat) : ∃ d, DecodeUplink r = some d :=
  uplinkLoop_total r.length r (r.length + 1) (le_refl _) (by omega)

theorem downlinkLoop_total (n : Nat) : ∀ (r : List Nat) (fuel : Nat), r.length ≤ n →
    r.length < fuel → ∃ d, downlinkLoop fuel r = some d := by
  induction n with
  | zero =>
    intro r fuel hn h
    have hr : r = [] := List.length_eq_zero.mp (by omega)
    subst hr
    obtain ⟨g, rfl⟩ : ∃ g, fuel = g + 1 := ⟨fuel - 1, by omega⟩
    exact ⟨_, downlinkLoop_nil g⟩
  | succ n ih =>
    intro r fuel hn h
    obtain ⟨g, rfl⟩ : ∃ g, fuel = g + 1 := ⟨fuel - 1, by omega⟩
    rcases r with _ | ⟨c, r⟩
    · exact ⟨_, downlinkLoop_nil g⟩
    · have hl := readInt16_length r
      simp only [List.length_cons] at hn h
      rw [downlinkLoop_cons]
      split
      · exact ⟨_, rfl⟩
      · rcases hd : readInt16 r with ⟨res, r2⟩
        rw [hd] at hl
        simp only at hl
        cases res with
        | error e => exact ⟨_, rfl⟩
        | ok val =>
          obtain ⟨d, hd2⟩ := ih r2 g (by omega) (by omega)
          exact ⟨Decoded.deliver ⟨c, (val : ℚ) / 100⟩ d, by simp only [hd2, Option.map_some']⟩

theorem DecodeDownlink_total (r : List Nat) : ∃ d, DecodeDownlink r = some d :=
  downlinkLoop_total r.length r (r.length + 1) (le_refl _) (by omega)

theorem older_downlinkLoop_total (n : Nat) : ∀ (r : List Nat) (fuel : Nat), r.length ≤ n →
    r.length < fuel → ∃ d, older.downlinkLoop fuel r = some d := by
  induction n with
  | zero =>
    intro r fuel hn h
    have hr : r = [] := List.length_eq_zero.mp (by omega)
    subst hr
    obtain ⟨g, rfl⟩ : ∃ g, fuel = g + 1 := ⟨fuel - 1, by omega⟩
    exact ⟨_, older_downlinkLoop_nil g⟩
  | succ n ih =>
    intro r fuel hn h
    obtain ⟨g, rfl⟩ : ∃ g, fuel = g + 1 := ⟨fuel - 1, by omega⟩
    rcases r with _ | ⟨c, r⟩
    · exact ⟨_, older_downlinkLoop_nil g⟩
    · have hl := readInt16_length r
      simp only [List.length_cons] at hn h
      rw [older_downlinkLoop_cons]
      rcases hd : readInt16 r with ⟨res, r2⟩
      rw [hd] at hl
      simp only at hl
      cases res with
      | error e => exact ⟨_, rfl⟩
      | ok val =>
        obtain ⟨d, hd2⟩ := ih r2 g (by omega) (by omega)
        exact ⟨Decoded.deliver ⟨c, f32div (val : ℚ) 100⟩ d, by simp only [hd2, Option.map_some']⟩

theorem older_DecodeDownlink_total (r : List Nat) : ∃ d, older.DecodeDownlink r = some d :=
  older_downlinkLoop_total r.length r (r.length + 1) (le_refl _) (by omega)

theorem older_uplinkLoop_nil (fuel : Nat) :
    older.uplinkLoop (fuel + 1) [] = some ⟨[], none, []⟩ := by
  simp [older.uplinkLoop, readFull]

theorem older_uplinkLoop_single (fuel b : Nat) :
    older.uplinkLoop (fuel + 1) [b] = some ⟨[], some .ErrUnexpectedEOF, []⟩ := by
  simp [older.uplinkLoop, readFull]

theorem older_uplinkLoop_cons (fuel c t : Nat) (r : List Nat) :
    older.uplinkLoop (fuel + 1) (c :: t :: r) =
      match older.decodeUnit c t r with
      | (.error e, r2) => some ⟨[], some e, r2⟩
      | (.ok ev, r2) => (older.uplinkLoop fuel r2).map (Decoded.deliver ev) := by
  simp [older.uplinkLoop, readFull]

/-! ## Quantization -/

theorem truncate_abs_sub_lt (x : ℚ) : |(truncate x : ℚ) - x| < 1 := by
  unfold truncate
  split_ifs with h
  · have h1 := Int.floor_le x
    have h2 := Int.lt_floor_add_one x
    rw [abs_lt]; constructor <;> linarith
  · have h1 := Int.le_ceil x
    have h2 := Int.ceil_lt_add_one x
    rw [abs_lt]; constructor <;> linarith

theorem truncate_eq (x : ℚ) (n : Int)
    (h : (0 ≤ x ∧ (n : ℚ) ≤ x ∧ x < n + 1) ∨ (x < 0 ∧ (n : ℚ) - 1 < x ∧ x ≤ n)) :
    truncate x = n := by
  unfold truncate
  rcases h with ⟨h0, h1, h2⟩ | ⟨h0, h1, h2⟩
  · rw [if_pos h0, Int.floor_eq_iff]; exact ⟨h1, h2⟩
  · rw [if_neg (not_le.mpr h0), Int.ceil_eq_iff]; exact ⟨h1, h2⟩

theorem truncate_intCast (n : Int) : truncate (n : ℚ) = n := by
  unfold truncate
  split_ifs <;> simp

theorem Cvt64Fto32_of_fits {x : ℚ} (h : fits32 x) : Cvt64Fto32 x = truncate x := by
  unfold fits32 at h
  unfold Cvt64Fto32
  rw [if_pos h]

theorem floatToInt16_of_fits {x : ℚ} (h : fits16 x) : floatToInt16 x = truncate x := by
  unfold fits16 at h
  have h32 : fits32 x := ⟨by omega, by omega⟩
  unfold floatToInt16
  rw [Cvt64Fto32_of_fits h32]
  omega

theorem floatToUint8_of_fits {x : ℚ} (h : fitsU8 x) : (floatToUint8 x : Int) = truncate x := by
  unfold fitsU8 at h
  have h32 : fits32 x := ⟨by omega, by omega⟩
  unfold floatToUint8
  rw [Cvt64Fto32_of_fits h32]
  omega

theorem floatToInt32_of_fits {x : ℚ} (h : fits24 x) :
    (floatToInt32 x + 8388608) % 16777216 - 8388608 = truncate x := by
  unfold fits24 at h
  have h32 : fits32 x := ⟨by omega, by omega⟩
  unfold floatToInt32
  rw [Cvt64Fto32_of_fits h32]
  omega

theorem round64_two : round64 2 = 2 := by
  exact_mod_cast round64_intCast 2 (by norm_num)

theorem round64_ten : round64 10 = 10 := by
  exact_mod_cast round64_intCast 10 (by norm_num)

theorem round64_hundred : round64 100 = 100 := by
  exact_mod_cast round64_intCast 100 (by norm_num)

theorem round64_thousand : round64 1000 = 1000 := by
  exact_mod_cast round64_intCast 1000 (by norm_num)

theorem round64_tenThousand : round64 10000 = 10000 := by
  exact_mod_cast round64_intCast 10000 (by norm_num)

theorem round64_abs_sub_le (x : ℚ) : |round64 x - x| ≤ |x| / 2 ^ 53 + 1 / 2 ^ 200 := by
  have h := roundTo_abs_sub_le 53 (-1074) x
  have t : (2 : ℚ) ^ (-1074 : Int) / 2 ≤ 1 / 2 ^ 200 := by
    have h1 : (2 : ℚ) ^ (-1074 : Int) ≤ 2 ^ (-200 : Int) :=
      zpow_le_zpow_right₀ (by norm_num) (by norm_num)
    have h2 : (2 : ℚ) ^ (-200 : Int) = 1 / 2 ^ 200 := by
      rw [zpow_neg, one_div]
      norm_cast
    have h3 : (0 : ℚ) < 2 ^ (-1074 : Int) := two_zpow_pos _
    linarith
  unfold round64
  linarith

/-- The value decoded from the unit the encoder writes for `v`, as a
`float64`, is within one quantization step of `v`, up to the rounding of the
three `float64` operations on the way. -/
theorem quant_closer (s v : ℚ) (hs1 : 1 ≤ s) (hs2 : s ≤ 10000) (hs : round64 s = s)
    (hn : |truncate (f64mul v s)| ≤ 8388608) : closer (slack / s) v (quant s v) := by
  have hs0 : (0 : ℚ) < s := by linarith
  have hp : f64mul v s = round64 (round64 v * s) := by unfold f64mul; rw [hs]
  obtain ⟨q, hq⟩ : ∃ q, q = round64 v * s := ⟨_, rfl⟩
  obtain ⟨n, hnq⟩ : ∃ n : Int, n = truncate (round64 q) := ⟨_, rfl⟩
  have hn2 : |(n : ℚ)| ≤ 8388608 := by
    rw [hp, ← hq, ← hnq] at hn
    exact_mod_cast hn
  have a := round64_abs_sub_le q
  have b : |(n : ℚ) - round64 q| < 1 := by rw [hnq]; exact truncate_abs_sub_lt _
  have c := round64_abs_sub_le ((n : ℚ) / s)
  have e200 : (1 : ℚ) / 2 ^ 200 ≤ 1 / 2 ^ 60 / 10000 := by norm_num
  -- the float64 product is below 2 ^ 24
  have hpb : |round64 q| ≤ 8388609 := by
    have := abs_sub_abs_le_abs_sub (round64 q) (n : ℚ)
    rw [abs_sub_comm] at this
    linarith
  have hqb : |q| ≤ 16777216 := by
    have h1 := abs_sub_abs_le_abs_sub q (round64 q)
    rw [abs_sub_comm] at h1
    by_contra hc
    have hc := not_le.mp hc
    have : |q| / 2 ^ 53 ≤ |q| / 2 := by
      apply div_le_div_of_nonneg_left (abs_nonneg q) (by norm_num) (by norm_num)
    linarith
  have a2 : |round64 q - q| ≤ 1 / 2 ^ 29 + 1 / 2 ^ 60 := by
    have : |q| / 2 ^ 53 ≤ 16777216 / 2 ^ 53 := div_le_div_of_nonneg_right hqb (by positivity)
    have e : (16777216 : ℚ) / 2 ^ 53 = 1 / 2 ^ 29 := by norm_num
    linarith
  have hw : |(n : ℚ) / s| ≤ 8388608 / s := by
    rw [abs_div, abs_of_pos hs0]
    exact div_le_div_of_nonneg_right hn2 hs0.le
  have c2 : |round64 ((n : ℚ) / s) - (n : ℚ) / s| ≤ (1 / 2 ^ 30 + 1 / 2 ^ 60) / s := by
    have h1 : |(n : ℚ) / s| / 2 ^ 53 ≤ 8388608 / s / 2 ^ 53 :=
      div_le_div_of_nonneg_right hw (by positivity)
    have e : (8388608 : ℚ) / s / 2 ^ 53 = 1 / 2 ^ 30 / s := by field_simp; ring
    have h2 : (1 : ℚ) / 2 ^ 60 / 10000 ≤ 1 / 2 ^ 60 / s :=
      div_le_div_of_nonneg_left (by positivity) hs0 hs2
    rw [add_div]
    linarith
  have hv : round64 v = q / s := by rw [hq]; field_simp
  have key : round64 ((n : ℚ) / s) - round64 v =
      (round64 ((n : ℚ) / s) - (n : ℚ) / s) + (((n : ℚ) - round64 q) + (round64 q - q)) / s := by
    rw [hv]; field_simp
  have d : |(((n : ℚ) - round64 q) + (round64 q - q)) / s| < (1 + (1 / 2 ^ 29 + 1 / 2 ^ 60)) / s := by
    rw [abs_div, abs_of_pos hs0]
    apply div_lt_div_of_pos_right _ hs0
    have := abs_add ((n : ℚ) - round64 q) (round64 q - q)
    linarith
  unfold closer quant
  rw [hp, ← hq, ← hnq, key]
  have t := abs_add (round64 ((n : ℚ) / s) - (n : ℚ) / s)
    ((((n : ℚ) - round64 q) + (round64 q - q)) / s)
  have fin : (1 / 2 ^ 30 + 1 / 2 ^ 60) / s + (1 + (1 / 2 ^ 29 + 1 / 2 ^ 60)) / s < slack / s := by
    rw [← add_div]
    apply div_lt_div_of_pos_right _ hs0
    unfold slack
    norm_num
  linarith
theorem echo_of_Fits (call : UplinkEvent) (h : Fits call) : echo call = quantize call := by
  cases call with
  | DigitalInput c v => rfl
  | DigitalOutput c v => rfl
  | Presence c v => rfl
  | Luminosity c v =>
    simp only [Fits] at h
    simp only [echo, quantize, Nat.mod_eq_of_lt h]
  | AnalogInput c v =>
    simp only [Fits] at h
    simp only [echo, quantize, quant, floatToInt16_of_fits h]
  | AnalogOutput c v =>
    simp only [Fits] at h
    simp only [echo, quantize, quant, floatToInt16_of_fits h]
  | Temperature c v =>
    simp only [Fits] at h
    simp only [echo, quantize, quant, floatToInt16_of_fits h]
  | BarometricPressure c v =>
    simp only [Fits] at h
    simp only [echo, quantize, quant, floatToInt16_of_fits h]
  | RelativeHumidity c v =>
    simp only [Fits] at h
    have e : ((floatToUint8 (f64mul v 2) : Nat) : ℚ) = (truncate (f64mul v 2) : ℚ) := by
      exact_mod_cast floatToUint8_of_fits h
    simp only [echo, quantize, quant, e]
  | Accelerometer c x y z =>
    simp only [Fits] at h
    simp only [echo, quantize, quant, floatToInt16_of_fits h.1, floatToInt16_of_fits h.2.1,
      floatToInt16_of_fits h.2.2]
  | Gyrometer c x y z =>
    simp only [Fits] at h
    simp only [echo, quantize, quant, floatToInt16_of_fits h.1, floatToInt16_of_fits h.2.1,
      floatToInt16_of_fits h.2.2]
  | GPS c la lo al =>
    simp only [Fits] at h
    simp only [echo, quantize, quant, floatToInt32_of_fits h.1, floatToInt32_of_fits h.2.1,
      floatToInt32_of_fits h.2.2]

theorem abs_truncate_of_fits16 {x : ℚ} (h : fits16 x) : |truncate x| ≤ 8388608 := by
  unfold fits16 at h
  exact abs_le.mpr ⟨by omega, by omega⟩

theorem abs_truncate_of_fitsU8 {x : ℚ} (h : fitsU8 x) : |truncate x| ≤ 8388608 := by
  unfold fitsU8 at h
  exact abs_le.mpr ⟨by omega, by omega⟩

theorem abs_truncate_of_fits24 {x : ℚ} (h : fits24 x) : |truncate x| ≤ 8388608 := by
  unfold fits24 at h
  exact abs_le.mpr ⟨by omega, by omega⟩

theorem WithinBy_quantize (call : UplinkEvent) (h : Fits call) :
    WithinBy slack call (quantize call) := by
  have q2 := fun v => quant_closer 2 v (by norm_num) (by norm_num) round64_two
  have q10 := fun v => quant_closer 10 v (by norm_num) (by norm_num) round64_ten
  have q100 := fun v => quant_closer 100 v (by norm_num) (by norm_num) round64_hundred
  have q1000 := fun v => quant_closer 1000 v (by norm_num) (by norm_num) round64_thousand
  have q10000 := fun v => quant_closer 10000 v (by norm_num) (by norm_num) round64_tenThousand
  cases call with
  | DigitalInput c v => exact ⟨rfl, rfl⟩
  | DigitalOutput c v => exact ⟨rfl, rfl⟩
  | Presence c v => exact ⟨rfl, rfl⟩
  | Luminosity c v => exact ⟨rfl, rfl⟩
  | AnalogInput c v => exact ⟨rfl, q100 v (abs_truncate_of_fits16 h)⟩
  | AnalogOutput c v => exact ⟨rfl, q100 v (abs_truncate_of_fits16 h)⟩
  | Temperature c v => exact ⟨rfl, q10 v (abs_truncate_of_fits16 h)⟩
  | BarometricPressure c v => exact ⟨rfl, q10 v (abs_truncate_of_fits16 h)⟩
  | RelativeHumidity c v => exact ⟨rfl, q2 v (abs_truncate_of_fitsU8 h)⟩
  | Accelerometer c x y z =>
    exact ⟨rfl, q1000 x (abs_truncate_of_fits16 h.1), q1000 y (abs_truncate_of_fits16 h.2.1),
      q1000 z (abs_truncate_of_fits16 h.2.2)⟩
  | Gyrometer c x y z =>
    exact ⟨rfl, q100 x (abs_truncate_of_fits16 h.1), q100 y (abs_truncate_of_fits16 h.2.1),
      q100 z (abs_truncate_of_fits16 h.2.2)⟩
  | GPS c la lo al =>
    exact ⟨rfl, q10000 la (abs_truncate_of_fits24 h.1), q10000 lo (abs_truncate_of_fits24 h.2.1),
      q100 al (abs_truncate_of_fits24 h.2.2)⟩

/-! ## One unit written by the encoder, read back by the decoder -/

theorem Add_Bytes (e : encoder) (call : UplinkEvent) :
    (e.Add call).Bytes = e.Bytes ++ (NewEncoder.Add call).Bytes := by
  cases call <;>
    simp [encoder.Add, encoder.AddDigitalInput, encoder.AddDigitalOutput, encoder.AddAnalogInput,
      encoder.AddAnalogOutput, encoder.AddLuminosity, encoder.AddPresence, encoder.AddTemperature,
      encoder.AddRelativeHumidity, encoder.AddAccelerometer, encoder.AddBarometricPressure,
      encoder.AddGyrometer, encoder.AddGPS, encoder.WriteByte, encoder.WriteInt16,
      encoder.WriteUint16, encoder.Bytes, NewEncoder]

theorem floatToInt16_wrap (x : ℚ) :
    (floatToInt16 x + 32768) % 65536 - 32768 = floatToInt16 x := by
  unfold floatToInt16; omega

theorem decodeUnit_Add (call : UplinkEvent) (r : List Nat) :
    ∃ c t p, (NewEncoder.Add call).Bytes = c :: t :: p ∧
      decodeUnit c t (p ++ r) = (.ok (echo call), r) := by
  cases call with
  | DigitalInput c v =>
    exact ⟨c, DigitalInput, [v], rfl, by
      simp [decodeUnit, decodeDigitalInput, readUint8, readFull, echo]⟩
  | DigitalOutput c v =>
    exact ⟨c, DigitalOutput, [v], rfl, by
      simp [decodeUnit, decodeDigitalOutput, readUint8, readFull, echo, DigitalInput,
        DigitalOutput]⟩
  | AnalogInput c v =>
    exact ⟨c, AnalogInput, putInt16 (floatToInt16 (f64mul v 100)), rfl, by
      simp [decodeUnit, decodeAnalogInput, readInt16_putInt16, floatToInt16_wrap, echo,
        DigitalInput, DigitalOutput, AnalogInput]⟩
  | AnalogOutput c v =>
    exact ⟨c, AnalogOutput, putInt16 (floatToInt16 (f64mul v 100)), rfl, by
      simp [decodeUnit, decodeAnalogOutput, readInt16_putInt16, floatToInt16_wrap, echo,
        DigitalInput, DigitalOutput, AnalogInput, AnalogOutput]⟩
  | Luminosity c v =>
    exact ⟨c, Luminosity, putUint16 v, rfl, by
      simp [decodeUnit, decodeLuminosity, readUint16_putUint16, echo,
        DigitalInput, DigitalOutput, AnalogInput, AnalogOutput, Luminosity]⟩
  | Presence c v =>
    exact ⟨c, Presence, [v], rfl, by
      simp [decodeUnit, decodePresence, readUint8, readFull, echo,
        DigitalInput, DigitalOutput, AnalogInput, AnalogOutput, Luminosity, Presence]⟩
  | Temperature c v =>
    exact ⟨c, Temperature, putInt16 (floatToInt16 (f64mul v 10)), rfl, by
      simp [decodeUnit, decodeTemperature, readInt16_putInt16, floatToInt16_wrap, echo,
        DigitalInput, DigitalOutput, AnalogInput, AnalogOutput, Luminosity, Presence,
        Temperature]⟩
  | RelativeHumidity c v =>
    exact ⟨c, RelativeHumidity, [floatToUint8 (f64mul v 2)], rfl, by
      simp [decodeUnit, decodeRelativeHumidity, readUint8, readFull, echo,
        DigitalInput, DigitalOutput, AnalogInput, AnalogOutput, Luminosity, Presence,
        Temperature, RelativeHumidity]⟩
  | Accelerometer c x y z =>
    exact ⟨c, Accelerometer, (putInt16 (floatToInt16 (f64mul x 1000)) ++
      putInt16 (floatToInt16 (f64mul y 1000))) ++ putInt16 (floatToInt16 (f64mul z 1000)), rfl, by
      simp [decodeUnit, decodeAccelerometer, readInt16_putInt16, floatToInt16_wrap, echo,
        DigitalInput, DigitalOutput, AnalogInput, AnalogOutput, Luminosity, Presence,
        Temperature, RelativeHumidity, Accelerometer]⟩
  | BarometricPressure c v =>
    exact ⟨c, BarometricPressure, putInt16 (floatToInt16 (f64mul v 10)), rfl, by
      simp [decodeUnit, decodeBarometricPressure, readInt16_putInt16, floatToInt16_wrap, echo,
        DigitalInput, DigitalOutput, AnalogInput, AnalogOutput, Luminosity, Presence,
        Temperature, RelativeHumidity, Accelerometer, BarometricPressure]⟩
  | Gyrometer c x y z =>
    exact ⟨c, Gyrometer, (putInt16 (floatToInt16 (f64mul x 100)) ++
      putInt16 (floatToInt16 (f64mul y 100))) ++ putInt16 (floatToInt16 (f64mul z 100)), rfl, by
      simp [decodeUnit, decodeGyrometer, readInt16_putInt16, floatToInt16_wrap, echo,
        DigitalInput, DigitalOutput, AnalogInput, AnalogOutput, Luminosity, Presence,
        Temperature, RelativeHumidity, Accelerometer, BarometricPressure, Gyrometer]⟩
  | GPS c la lo al =>
    refine ⟨c, GPS, _, rfl, ?_⟩
    simp [decodeUnit, decodeGPS, readFull, gpsField_bytes, echo,
        DigitalInput, DigitalOutput, AnalogInput, AnalogOutput, Luminosity, Presence,
        Temperature, RelativeHumidity, Accelerometer, BarometricPressure, Gyrometer, GPS]

theorem DecodeUplink_Add (call : UplinkEvent) (r : List Nat) :
    DecodeUplink ((NewEncoder.Add call).Bytes ++ r) =
      (DecodeUplink r).map (Decoded.deliver (echo call)) := by
  obtain ⟨c, t, p, hb, hd⟩ := decodeUnit_Add call r
  rw [hb, List.cons_append, List.cons_append, DecodeUplink_cons, hd]

theorem encodeAll_cons (call : UplinkEvent) (calls : List UplinkEvent) :
    (encodeAll (call :: calls)).Bytes = (NewEncoder.Add call).Bytes ++ (encodeAll calls).Bytes := by
  have key : ∀ (cs : List UplinkEvent) (e : encoder),
      (cs.foldl encoder.Add e).Bytes = e.Bytes ++ (cs.foldl encoder.Add NewEncoder).Bytes := by
    intro cs
    induction cs with
    | nil => intro e; simp [encoder.Bytes, NewEncoder]
    | cons a cs ih =>
      intro e
      rw [List.foldl_cons, List.foldl_cons, ih (e.Add a), ih (NewEncoder.Add a), Add_Bytes e a,
        List.append_assoc]
  exact key calls (NewEncoder.Add call)

theorem DecodeUplink_encodeAll (calls : List UplinkEvent) :
    DecodeUplink (encodeAll calls).Bytes = some ⟨calls.map echo, none, []⟩ := by
  induction calls with
  | nil => exact DecodeUplink_nil
  | cons a cs ih =>
    rw [encodeAll_cons, DecodeUplink_Add, ih]
    rfl
/-! ## Range conditions in terms of the physical value -/

theorem fits16_of_abs_lt {x : ℚ} (h : |x| < 32768) : fits16 x := by
  have t := truncate_abs_sub_lt x
  rw [abs_lt] at h t
  unfold fits16
  constructor
  · have : (-32769 : ℚ) < (truncate x : ℚ) := by linarith
    have : (-32769 : Int) < truncate x := by exact_mod_cast this
    omega
  · by_contra hc
    have h1 : (32768 : Int) ≤ truncate x := by omega
    have h2 : (32768 : ℚ) ≤ (truncate x : ℚ) := by exact_mod_cast h1
    unfold truncate at h2
    split_ifs at h2 with h0
    · have := Int.floor_le x
      linarith
    · have h3 := not_le.mp h0
      have h4 := Int.ceil_lt_add_one x
      linarith

theorem DecodeUplink_Add_single (call : UplinkEvent) :
    DecodeUplink (NewEncoder.Add call).Bytes = some ⟨[echo call], none, []⟩ := by
  have h := DecodeUplink_Add call []
  rw [List.append_nil, DecodeUplink_nil] at h
  exact h

/-! ## The `float64` products of the examples -/

theorem round64_example_analog : round64 (-54.5 : ℚ) = -109 / 2 := by
  rw [round64_eq_of (-54.5) 5 (-7670193115365376) (by norm_num) (by norm_num [le_abs])
    (by norm_num [abs_lt]) (by norm_num [abs_lt])]
  norm_num

theorem f64mul_example_analog : f64mul (-54.5) 100 = (-5450) := by
  unfold f64mul
  rw [round64_example_analog, round64_hundred,
    round64_eq_of (-109 / 2 * 100) 12 (-5992338371379200)
      (by norm_num) (by norm_num [le_abs]) (by norm_num [abs_lt]) (by norm_num [abs_lt])]
  norm_num

theorem trunc_example_analog : truncate (f64mul (-54.5) 100) = -5450 := by
  rw [f64mul_example_analog]
  exact truncate_eq _ _ (Or.inr (by norm_num))

theorem round64_example_port : round64 (54.5 : ℚ) = 109 / 2 := by
  rw [round64_eq_of (54.5) 5 7670193115365376 (by norm_num) (by norm_num [le_abs])
    (by norm_num [abs_lt]) (by norm_num [abs_lt])]
  norm_num

theorem f64mul_example_port : f64mul (54.5) 100 = 5450 := by
  unfold f64mul
  rw [round64_example_port, round64_hundred,
    round64_eq_of (109 / 2 * 100) 12 5992338371379200
      (by norm_num) (by norm_num [le_abs]) (by norm_num [abs_lt]) (by norm_num [abs_lt])]
  norm_num

theorem trunc_example_port : truncate (f64mul (54.5) 100) = 5450 := by
  rw [f64mul_example_port]
  exact truncate_eq _ _ (Or.inl (by norm_num))

theorem round64_example_temperature : round64 (-15.65 : ℚ) = -8810166771043533 / 562949953421312 := by
  rw [round64_eq_of (-15.65) 3 (-8810166771043533) (by norm_num) (by norm_num [le_abs])
    (by norm_num [abs_lt]) (by norm_num [abs_lt])]
  norm_num

theorem f64mul_example_temperature : f64mul (-15.65) 10 = -313 / 2 := by
  unfold f64mul
  rw [round64_example_temperature, round64_ten,
    round64_eq_of (-8810166771043533 / 562949953421312 * 10) 7 (-5506354231902208)
      (by norm_num) (by norm_num [le_abs]) (by norm_num [abs_lt]) (by norm_num [abs_lt])]
  norm_num

theorem trunc_example_temperature : truncate (f64mul (-15.65) 10) = -156 := by
  rw [f64mul_example_temperature]
  exact truncate_eq _ _ (Or.inr (by norm_num))

theorem round64_example_humidity : round64 (49.65 : ℚ) = 6987616296842035 / 140737488355328 := by
  rw [round64_eq_of (49.65) 5 6987616296842035 (by norm_num) (by norm_num [le_abs])
    (by norm_num [abs_lt]) (by norm_num [abs_lt])]
  norm_num

theorem f64mul_example_humidity : f64mul (49.65) 2 = 6987616296842035 / 70368744177664 := by
  unfold f64mul
  rw [round64_example_humidity, round64_two,
    round64_eq_of (6987616296842035 / 140737488355328 * 2) 6 6987616296842035
      (by norm_num) (by norm_num [le_abs]) (by norm_num [abs_lt]) (by norm_num [abs_lt])]
  norm_num

theorem trunc_example_humidity : truncate (f64mul (49.65) 2) = 99 := by
  rw [f64mul_example_humidity]
  exact truncate_eq _ _ (Or.inl (by norm_num))

theorem round64_example_x : round64 (-0.424 : ℚ) = -7638104968020361 / 18014398509481984 := by
  rw [round64_eq_of (-0.424) (-2) (-7638104968020361) (by norm_num) (by norm_num [le_abs])
    (by norm_num [abs_lt]) (by norm_num [abs_lt])]
  norm_num

theorem f64mul_example_x : f64mul (-0.424) 1000 = (-424) := by
  unfold f64mul
  rw [round64_example_x, round64_thousand,
    round64_eq_of (-7638104968020361 / 18014398509481984 * 1000) 8 (-7459086882832384)
      (by norm_num) (by norm_num [le_abs]) (by norm_num [abs_lt]) (by norm_num [abs_lt])]
  norm_num

theorem trunc_example_x : truncate (f64mul (-0.424) 1000) = -424 := by
  rw [f64mul_example_x]
  exact truncate_eq _ _ (Or.inr (by norm_num))

theorem round64_example_y : round64 (0.015 : ℚ) = 1080863910568919 / 72057594037927936 := by
  rw [round64_eq_of (0.015) (-7) 8646911284551352 (by norm_num) (by norm_num [le_abs])
    (by norm_num [abs_lt]) (by norm_num [abs_lt])]
  norm_num

theorem f64mul_example_y : f64mul (0.015) 1000 = 15 := by
  unfold f64mul
  rw [round64_example_y, round64_thousand,
    round64_eq_of (1080863910568919 / 72057594037927936 * 1000) 3 8444249301319680
      (by norm_num) (by norm_num [le_abs]) (by norm_num [abs_lt]) (by norm_num [abs_lt])]
  norm_num

theorem trunc_example_y : truncate (f64mul (0.015) 1000) = 15 := by
  rw [f64mul_example_y]
  exact truncate_eq _ _ (Or.inl (by norm_num))

theorem round64_example_z : round64 (1.666 : ℚ) = 3751498489599623 / 2251799813685248 := by
  rw [round64_eq_of (1.666) 0 7502996979199246 (by norm_num) (by norm_num [le_abs])
    (by norm_num [abs_lt]) (by norm_num [abs_lt])]
  norm_num

theorem f64mul_example_z : f64mul (1.666) 1000 = 1666 := by
  unfold f64mul
  rw [round64_example_z, round64_thousand,
    round64_eq_of (3751498489599623 / 2251799813685248 * 1000) 10 7327145487499264
      (by norm_num) (by norm_num [le_abs]) (by norm_num [abs_lt]) (by norm_num [abs_lt])]
  norm_num

theorem trunc_example_z : truncate (f64mul (1.666) 1000) = 1666 := by
  rw [f64mul_example_z]
  exact truncate_eq _ _ (Or.inl (by norm_num))

theorem round64_gyro_x : round64 (3.55 : ℚ) = 3996944669291315 / 1125899906842624 := by
  rw [round64_eq_of (3.55) 1 7993889338582630 (by norm_num) (by norm_num [le_abs])
    (by norm_num [abs_lt]) (by norm_num [abs_lt])]
  norm_num

theorem f64mul_gyro_x : f64mul (3.55) 100 = 355 := by
  unfold f64mul
  rw [round64_gyro_x, round64_hundred,
    round64_eq_of (3996944669291315 / 1125899906842624 * 100) 8 6245226045767680
      (by norm_num) (by norm_num [le_abs]) (by norm_num [abs_lt]) (by norm_num [abs_lt])]
  norm_num

theorem trunc_gyro_x : truncate (f64mul (3.55) 100) = 355 := by
  rw [f64mul_gyro_x]
  exact truncate_eq _ _ (Or.inl (by norm_num))

theorem round64_gyro_y : round64 (5.61 : ℚ) = 6316298477387121 / 1125899906842624 := by
  rw [round64_eq_of (5.61) 2 6316298477387121 (by norm_num) (by norm_num [le_abs])
    (by norm_num [abs_lt]) (by norm_num [abs_lt])]
  norm_num

theorem f64mul_gyro_y : f64mul (5.61) 100 = 561 := by
  unfold f64mul
  rw [round64_gyro_y, round64_hundred,
    round64_eq_of (6316298477387121 / 1125899906842624 * 100) 9 4934608185458688
      (by norm_num) (by norm_num [le_abs]) (by norm_num [abs_lt]) (by norm_num [abs_lt])]
  norm_num

theorem trunc_gyro_y : truncate (f64mul (5.61) 100) = 561 := by
  rw [f64mul_gyro_y]
  exact truncate_eq _ _ (Or.inl (by norm_num))

theorem round64_gyro_z : round64 (-4.10 : ℚ) = -2308094809027379 / 562949953421312 := by
  rw [round64_eq_of (-4.10) 2 (-4616189618054758) (by norm_num) (by norm_num [le_abs])
    (by norm_num [abs_lt]) (by norm_num [abs_lt])]
  norm_num

theorem f64mul_gyro_z : f64mul (-4.10) 100 = -7212796278210559 / 17592186044416 := by
  unfold f64mul
  rw [round64_gyro_z, round64_hundred,
    round64_eq_of (-2308094809027379 / 562949953421312 * 100) 8 (-7212796278210559)
      (by norm_num) (by norm_num [le_abs]) (by norm_num [abs_lt]) (by norm_num [abs_lt])]
  norm_num

theorem trunc_gyro_z : truncate (f64mul (-4.10) 100) = -409 := by
  rw [f64mul_gyro_z]
  exact truncate_eq _ _ (Or.inr (by norm_num))

theorem round64_gps_lat : round64 (52.3655 : ℚ) = 460611809154433 / 8796093022208 := by
  rw [round64_eq_of (52.3655) 5 7369788946470928 (by norm_num) (by norm_num [le_abs])
    (by norm_num [abs_lt]) (by norm_num [abs_lt])]
  norm_num

theorem f64mul_gps_lat : f64mul (52.3655) 10000 = 523655 := by
  unfold f64mul
  rw [round64_gps_lat, round64_tenThousand,
    round64_eq_of (460611809154433 / 8796093022208 * 10000) 18 8996324397547520
      (by norm_num) (by norm_num [le_abs]) (by norm_num [abs_lt]) (by norm_num [abs_lt])]
  norm_num

theorem trunc_gps_lat : truncate (f64mul (52.3655) 10000) = 523655 := by
  rw [f64mul_gps_lat]
  exact truncate_eq _ _ (Or.inl (by norm_num))

theorem round64_gps_lon : round64 (4.8885 : ℚ) = 5503961694600167 / 1125899906842624 := by
  rw [round64_eq_of (4.8885) 2 5503961694600167 (by norm_num) (by norm_num [le_abs])
    (by norm_num [abs_lt]) (by norm_num [abs_lt])]
  norm_num

theorem f64mul_gps_lon : f64mul (4.8885) 10000 = 6718703240478719 / 137438953472 := by
  unfold f64mul
  rw [round64_gps_lon, round64_tenThousand,
    round64_eq_of (5503961694600167 / 1125899906842624 * 10000) 15 6718703240478719
      (by norm_num) (by norm_num [le_abs]) (by norm_num [abs_lt]) (by norm_num [abs_lt])]
  norm_num

theorem trunc_gps_lon : truncate (f64mul (4.8885) 10000) = 48884 := by
  rw [f64mul_gps_lon]
  exact truncate_eq _ _ (Or.inl (by norm_num))

theorem round64_gps_alt : round64 (21.54 : ℚ) = 3031485499173765 / 140737488355328 := by
  rw [round64_eq_of (21.54) 4 6062970998347530 (by norm_num) (by norm_num [le_abs])
    (by norm_num [abs_lt]) (by norm_num [abs_lt])]
  norm_num

theorem f64mul_gps_alt : f64mul (21.54) 100 = 2154 := by
  unfold f64mul
  rw [round64_gps_alt, round64_hundred,
    round64_eq_of (3031485499173765 / 140737488355328 * 100) 11 4736696092459008
      (by norm_num) (by norm_num [le_abs]) (by norm_num [abs_lt]) (by norm_num [abs_lt])]
  norm_num

theorem trunc_gps_alt : truncate (f64mul (21.54) 100) = 2154 := by
  rw [f64mul_gps_alt]
  exact truncate_eq _ _ (Or.inl (by norm_num))

theorem round64_analog_115 : round64 (1.15 : ℚ) = 2589569785738035 / 2251799813685248 := by
  rw [round64_eq_of (1.15) 0 5179139571476070 (by norm_num) (by norm_num [le_abs])
    (by norm_num [abs_lt]) (by norm_num [abs_lt])]
  norm_num

theorem f64mul_analog_115 : f64mul (1.15) 100 = 8092405580431359 / 70368744177664 := by
  unfold f64mul
  rw [round64_analog_115, round64_hundred,
    round64_eq_of (2589569785738035 / 2251799813685248 * 100) 6 8092405580431359
      (by norm_num) (by norm_num [le_abs]) (by norm_num [abs_lt]) (by norm_num [abs_lt])]
  norm_num

theorem trunc_analog_115 : truncate (f64mul (1.15) 100) = 114 := by
  rw [f64mul_analog_115]
  exact truncate_eq _ _ (Or.inl (by norm_num))

theorem round64_analog_019 : round64 (0.019 : ℚ) = 5476377146882523 / 288230376151711744 := by
  rw [round64_eq_of (0.019) (-6) 5476377146882523 (by norm_num) (by norm_num [le_abs])
    (by norm_num [abs_lt]) (by norm_num [abs_lt])]
  norm_num

theorem f64mul_analog_019 : f64mul (0.019) 100 = 4278419646001971 / 2251799813685248 := by
  unfold f64mul
  rw [round64_analog_019, round64_hundred,
    round64_eq_of (5476377146882523 / 288230376151711744 * 100) 0 8556839292003942
      (by norm_num) (by norm_num [le_abs]) (by norm_num [abs_lt]) (by norm_num [abs_lt])]
  norm_num

theorem trunc_analog_019 : truncate (f64mul (0.019) 100) = 1 := by
  rw [f64mul_analog_019]
  exact truncate_eq _ _ (Or.inl (by norm_num))

theorem round64_temp_4000 : round64 (4000 : ℚ) = 4000 := by
  rw [round64_eq_of (4000) 11 8796093022208000 (by norm_num) (by norm_num [le_abs])
    (by norm_num [abs_lt]) (by norm_num [abs_lt])]
  norm_num

theorem f64mul_temp_4000 : f64mul (4000) 10 = 40000 := by
  unfold f64mul
  rw [round64_temp_4000, round64_ten,
    round64_eq_of (4000 * 10) 15 5497558138880000
      (by norm_num) (by norm_num [le_abs]) (by norm_num [abs_lt]) (by norm_num [abs_lt])]
  norm_num

theorem trunc_temp_4000 : truncate (f64mul (4000) 10) = 40000 := by
  rw [f64mul_temp_4000]
  exact truncate_eq _ _ (Or.inl (by norm_num))

theorem round64_temp_3e8 : round64 (300000000 : ℚ) = 300000000 := by
  rw [round64_eq_of (300000000) 28 5033164800000000 (by norm_num) (by norm_num [le_abs])
    (by norm_num [abs_lt]) (by norm_num [abs_lt])]
  norm_num

theorem f64mul_temp_3e8 : f64mul (300000000) 10 = 3000000000 := by
  unfold f64mul
  rw [round64_temp_3e8, round64_ten,
    round64_eq_of (300000000 * 10) 31 6291456000000000
      (by norm_num) (by norm_num [le_abs]) (by norm_num [abs_lt]) (by norm_num [abs_lt])]
  norm_num

theorem trunc_temp_3e8 : truncate (f64mul (300000000) 10) = 3000000000 := by
  rw [f64mul_temp_3e8]
  exact truncate_eq _ _ (Or.inl (by norm_num))

theorem round64_port_one : round64 (1 : ℚ) = 1 := by
  rw [round64_eq_of (1) 0 4503599627370496 (by norm_num) (by norm_num [le_abs])
    (by norm_num [abs_lt]) (by norm_num [abs_lt])]
  norm_num

theorem f64mul_port_one : f64mul (1) 100 = 100 := by
  unfold f64mul
  rw [round64_port_one, round64_hundred,
    round64_eq_of (1 * 100) 6 7036874417766400
      (by norm_num) (by norm_num [le_abs]) (by norm_num [abs_lt]) (by norm_num [abs_lt])]
  norm_num

theorem trunc_port_one : truncate (f64mul (1) 100) = 100 := by
  rw [f64mul_port_one]
  exact truncate_eq _ _ (Or.inl (by norm_num))

theorem round64_gps_900 : round64 (900 : ℚ) = 900 := by
  rw [round64_eq_of (900) 9 7916483719987200 (by norm_num) (by norm_num [le_abs])
    (by norm_num [abs_lt]) (by norm_num [abs_lt])]
  norm_num

theorem f64mul_gps_900 : f64mul (900) 10000 = 9000000 := by
  unfold f64mul
  rw [round64_gps_900, round64_tenThousand,
    round64_eq_of (900 * 10000) 23 4831838208000000
      (by norm_num) (by norm_num [le_abs]) (by norm_num [abs_lt]) (by norm_num [abs_lt])]
  norm_num

theorem trunc_gps_900 : truncate (f64mul (900) 10000) = 9000000 := by
  rw [f64mul_gps_900]
  exact truncate_eq _ _ (Or.inl (by norm_num))

theorem round64_temp_1875 : round64 (0.1875 : ℚ) = 3 / 16 := by
  rw [round64_eq_of (0.1875) (-3) 6755399441055744 (by norm_num) (by norm_num [le_abs])
    (by norm_num [abs_lt]) (by norm_num [abs_lt])]
  norm_num

theorem f64mul_temp_1875 : f64mul (0.1875) 10 = 15 / 8 := by
  unfold f64mul
  rw [round64_temp_1875, round64_ten,
    round64_eq_of (3 / 16 * 10) 0 8444249301319680
      (by norm_num) (by norm_num [le_abs]) (by norm_num [abs_lt]) (by norm_num [abs_lt])]
  norm_num

theorem trunc_temp_1875 : truncate (f64mul (0.1875) 10) = 1 := by
  rw [f64mul_temp_1875]
  exact truncate_eq _ _ (Or.inl (by norm_num))

/-! ## The claims -/

theorem round64_analog_114 : round64 (1.14 : ℚ) = 5134103575202365 / 4503599627370496 := by
  rw [round64_eq_of (1.14) 0 5134103575202365 (by norm_num) (by norm_num [le_abs])
    (by norm_num [abs_lt]) (by norm_num [abs_lt])]
  norm_num

theorem quantize_analog_115 : quantize (.AnalogInput 3 1.15) = .AnalogInput 3 1.14 := by
  simp only [quantize, quant, trunc_analog_115]
  norm_num

theorem Fits_analog_115 : Fits (.AnalogInput 3 1.15) := by
  simp only [Fits, fits16, trunc_analog_115]; decide

/-- C1 (as stated, refuted). `AddAnalogInput(3, 1.15)` is in range and its
unit decodes, with no error, to `AnalogInput(3, 1.14)`: the `float64` product
`1.15 * 100` is `114.99999999999999` and is written as raw 114. The two
`float64` values are `0.0100000000000000089` apart, which is not smaller than
the step 0.01. -/
theorem uplink_round_trip_refuted :
    Fits (.AnalogInput 3 1.15) ∧
    DecodeUplink (NewEncoder.Add (.AnalogInput 3 1.15)).Bytes =
      some ⟨[.AnalogInput 3 1.14], none, []⟩ ∧
    round64 1.15 - round64 1.14 = 45035996273705 / 4503599627370496 ∧
    ¬ Within (.AnalogInput 3 1.15) (.AnalogInput 3 1.14) ∧
    ¬ ∃ ev, DecodeUplink (NewEncoder.Add (.AnalogInput 3 1.15)).Bytes =
      some ⟨[ev], none, []⟩ ∧ Within (.AnalogInput 3 1.15) ev := by
  have hd : DecodeUplink (NewEncoder.Add (.AnalogInput 3 1.15)).Bytes =
      some ⟨[.AnalogInput 3 1.14], none, []⟩ := by
    rw [DecodeUplink_Add_single, echo_of_Fits _ Fits_analog_115, quantize_analog_115]
  have hdiff : round64 1.15 - round64 1.14 = 45035996273705 / 4503599627370496 := by
    rw [round64_analog_115, round64_analog_114]
    norm_num
  have hw : ¬ Within (.AnalogInput 3 1.15) (.AnalogInput 3 1.14) := by
    intro h
    have h2 : |round64 1.14 - round64 1.15| < 1 / 100 := h.2
    rw [abs_sub_comm, hdiff] at h2
    norm_num [abs_lt] at h2
  refine ⟨Fits_analog_115, hd, hdiff, hw, ?_⟩
  rintro ⟨ev, he, hev⟩
  rw [hd] at he
  simp only [Option.some.injEq, Decoded.mk.injEq, List.cons.injEq, and_true, true_and] at he
  rw [← he] at hev
  exact hw hev

/-- C1 (amended). Round trip: for every uplink type, channel and value whose
scaled integer (the `float64` product of the value and the scale, fraction
discarded) fits the field, decoding the bytes the matching `Add...` call
writes on a fresh encoder returns no error, consumes all bytes, and delivers
exactly one event, of the same method and channel, whose values differ from
the encoded ones by less than the quantization step of the type times
`1 + 2^-27`, the allowance for the rounding of the `float64` arithmetic (and
are equal for digital input/output, luminosity and presence). -/
theorem uplink_round_trip (call : UplinkEvent) (h : Fits call) :
    ∃ ev, DecodeUplink (NewEncoder.Add call).Bytes = some ⟨[ev], none, []⟩ ∧
      WithinBy slack call ev := by
  refine ⟨quantize call, ?_, WithinBy_quantize call h⟩
  rw [DecodeUplink_Add_single, echo_of_Fits call h]

theorem uplink_round_trip_witness :
    Fits (.Temperature 7 (-15.65)) ∧
      ∃ ev, DecodeUplink (NewEncoder.Add (.Temperature 7 (-15.65))).Bytes =
        some ⟨[ev], none, []⟩ ∧ WithinBy slack (.Temperature 7 (-15.65)) ev :=
  have hf : Fits (.Temperature 7 (-15.65)) := by
    simp only [Fits, fits16, trunc_example_temperature]; decide
  ⟨hf, uplink_round_trip _ hf⟩

theorem quantize_temperature_example :
    quantize (.Temperature 7 (-15.65)) = .Temperature 7 (-15.6) := by
  simp only [quantize, quant, trunc_example_temperature]
  norm_num

theorem quantize_gyrometer_example :
    quantize (.Gyrometer 11 3.55 5.61 (-4.10)) = .Gyrometer 11 3.55 5.61 (-4.09) := by
  simp only [quantize, quant, trunc_gyro_x, trunc_gyro_y, trunc_gyro_z]
  norm_num

theorem Fits_gyrometer_example : Fits (.Gyrometer 11 3.55 5.61 (-4.10)) := by
  simp only [Fits, fits16, trunc_gyro_x, trunc_gyro_y, trunc_gyro_z]; decide

/-- C2 (the code at the failing input). Multi-unit frame: for every finite
sequence of in-range `Add...` calls on a fresh encoder, decoding `Bytes()`
returns no error and delivers exactly one event per call, in call order, of
the matching type and channel, and `AddDigitalInput(1, 255)` then
`AddTemperature(7, -15.65)` decodes to `DigitalInput(1, 255)` followed by
`Temperature(7, -15.6)`, as the claim says. The value delivered is the
truncated `float64` product over the scale, which is not always
`trunc(v * scale) / scale`: the call `AddGyrometer(11, 3.55, 5.61, -4.10)` of
`TestEncode` decodes to `Gyrometer(11, 3.55, 5.61, -4.09)`, where
`trunc(-4.10 * 100) / 100` is `-4.10`. -/
theorem multi_unit_frame :
    (∀ calls : List UplinkEvent, (∀ call ∈ calls, Fits call) →
      DecodeUplink (encodeAll calls).Bytes = some ⟨calls.map quantize, none, []⟩) ∧
    DecodeUplink ((NewEncoder.AddDigitalInput 1 255).AddTemperature 7 (-15.65)).Bytes =
      some ⟨[.DigitalInput 1 255, .Temperature 7 (-15.6)], none, []⟩ ∧
    DecodeUplink (NewEncoder.AddGyrometer 11 3.55 5.61 (-4.10)).Bytes =
      some ⟨[.Gyrometer 11 3.55 5.61 (-4.09)], none, []⟩ ∧
    ((truncate ((-4.10 : ℚ) * 100) : ℚ) / 100 = -4.10 ∧ (-4.09 : ℚ) ≠ -4.10) := by
  have general : ∀ calls : List UplinkEvent, (∀ call ∈ calls, Fits call) →
      DecodeUplink (encodeAll calls).Bytes = some ⟨calls.map quantize, none, []⟩ := by
    intro calls hf
    rw [DecodeUplink_encodeAll]
    have e : calls.map echo = calls.map quantize :=
      List.map_congr_left (fun call hc => echo_of_Fits call (hf call hc))
    rw [e]
  refine ⟨general, ?_, ?_, ?_, by norm_num⟩
  · have hf : ∀ call ∈ [UplinkEvent.DigitalInput 1 255, UplinkEvent.Temperature 7 (-15.65)],
        Fits call := by
      intro call hc
      simp only [List.mem_cons, List.mem_singleton, List.mem_nil_iff, or_false] at hc
      rcases hc with rfl | rfl
      · trivial
      · simp only [Fits, fits16, trunc_example_temperature]; decide
    have := general _ hf
    simp only [List.map, quantize_temperature_example] at this
    exact this
  · have h := DecodeUplink_Add_single (.Gyrometer 11 3.55 5.61 (-4.10))
    rw [echo_of_Fits _ Fits_gyrometer_example, quantize_gyrometer_example] at h
    exact h
  · have h : truncate ((-4.10 : ℚ) * 100) = -410 := truncate_eq _ _ (Or.inr (by norm_num))
    rw [h]
    norm_num

theorem multi_unit_frame_witness :
    (∀ call ∈ [UplinkEvent.Luminosity 5 500, UplinkEvent.Presence 6 50], Fits call) ∧
      DecodeUplink (encodeAll [.Luminosity 5 500, .Presence 6 50]).Bytes =
        some ⟨[.Luminosity 5 500, .Presence 6 50], none, []⟩ :=
  have hf : ∀ call ∈ [UplinkEvent.Luminosity 5 500, UplinkEvent.Presence 6 50], Fits call := by
    intro call hc
    simp only [List.mem_cons, List.mem_singleton, List.mem_nil_iff, or_false] at hc
    rcases hc with rfl | rfl
    · show (500 : Nat) < 65536
      decide
    · trivial
  ⟨hf, multi_unit_frame.1 _ hf⟩

theorem gpsField_eq_signed24 (b0 b1 b2 : Nat) : gpsField [b0, b1, b2] = signed24 b0 b1 b2 := by
  simp only [gpsField, int32, beUint32, signed24, Int.shiftRight_eq_div_pow, List.cons_append,
    List.nil_append, List.getD_cons_zero, List.getD_cons_succ]
  norm_num
  split <;> omega

theorem decodeGPS_nine (c b0 b1 b2 b3 b4 b5 b6 b7 b8 : Nat) (r : List Nat) :
    decodeGPS c (b0 :: b1 :: b2 :: b3 :: b4 :: b5 :: b6 :: b7 :: b8 :: r) =
      (.ok (.GPS c ((signed24 b0 b1 b2 : ℚ) / 10000) ((signed24 b3 b4 b5 : ℚ) / 10000)
        ((signed24 b6 b7 b8 : ℚ) / 100)), r) := by
  simp [decodeGPS, readFull, gpsField_eq_signed24]

/-- C3 (as stated, refuted). The latitude field `{0x00, 0xFC, 0x99}` is not
-879: the decoder reads it as +64665 and delivers latitude 6.4665, not
-0.0879. -/
theorem gps_example_refuted :
    gpsField [0x00, 0xFC, 0x99] = 64665 ∧
      decodeGPS 1 [0x00, 0xFC, 0x99, 0, 0, 0, 0, 0, 0] = (.ok (.GPS 1 6.4665 0 0), []) ∧
      decodeGPS 1 [0x00, 0xFC, 0x99, 0, 0, 0, 0, 0, 0] ≠ (.ok (.GPS 1 (-0.0879) 0 0), []) := by
  have h1 : gpsField [0x00, 0xFC, 0x99] = 64665 := by decide
  have h2 : signed24 0x00 0xFC 0x99 = 64665 := by decide
  have h0 : signed24 0 0 0 = 0 := by decide
  have h3 : decodeGPS 1 [0x00, 0xFC, 0x99, 0, 0, 0, 0, 0, 0] = (.ok (.GPS 1 6.4665 0 0), []) := by
    rw [decodeGPS_nine, h2, h0]
    norm_num
  refine ⟨h1, h3, ?_⟩
  rw [h3]
  intro h
  simp only [Prod.mk.injEq, Except.ok.injEq, UplinkEvent.GPS.injEq, and_true, true_and] at h
  norm_num at h

/-- C3 (amended). The 3-byte latitude field `{0x00, 0xFC, 0x99}` is +64665 in
24-bit two's complement and decodes to latitude 6.4665; the field that
represents -879 is `{0xFF, 0xFC, 0x91}`, and it decodes to latitude -0.0879
after the /10000 scale, whatever the channel, the other two fields and the
bytes after the unit. -/
theorem gps_sign_extension_example (c b3 b4 b5 b6 b7 b8 : Nat) (r : List Nat) :
    signed24 0x00 0xFC 0x99 = 64665 ∧ signed24 0xFF 0xFC 0x91 = -879 ∧
    (∃ lo al, decodeGPS c (0x00 :: 0xFC :: 0x99 :: b3 :: b4 :: b5 :: b6 :: b7 :: b8 :: r) =
      (.ok (.GPS c 6.4665 lo al), r)) ∧
    (∃ lo al, decodeGPS c (0xFF :: 0xFC :: 0x91 :: b3 :: b4 :: b5 :: b6 :: b7 :: b8 :: r) =
      (.ok (.GPS c (-0.0879) lo al), r)) := by
  have h1 : signed24 0x00 0xFC 0x99 = 64665 := by decide
  have h2 : signed24 0xFF 0xFC 0x91 = -879 := by decide
  refine ⟨h1, h2, ⟨(signed24 b3 b4 b5 : ℚ) / 10000, (signed24 b6 b7 b8 : ℚ) / 100, ?_⟩,
    ⟨(signed24 b3 b4 b5 : ℚ) / 10000, (signed24 b6 b7 b8 : ℚ) / 100, ?_⟩⟩
  · rw [decodeGPS_nine, h1]
    norm_num
  · rw [decodeGPS_nine, h2]
    norm_num

/-- C4. GPS decode sign-extends: for every 9-byte GPS payload, each 3-byte
field `b0 b1 b2` is read as the 24-bit big-endian two's-complement integer
`n = ((b0*65536 + b1*256 + b2 + 2^23) mod 2^24) - 2^23`, which lies in
`[-2^23, 2^23)`; the callback receives `(channel, n_lat/10000, n_lon/10000,
n_alt/100)`, and a field whose first byte is at least `0x80` decodes to a
negative value. -/
theorem gps_decode_sign_extends (c b0 b1 b2 b3 b4 b5 b6 b7 b8 : Nat) (r : List Nat)
    (h0 : b0 < 256) (h1 : b1 < 256) (h2 : b2 < 256) (h3 : b3 < 256) (h4 : b4 < 256)
    (h5 : b5 < 256) (h6 : b6 < 256) (h7 : b7 < 256) (h8 : b8 < 256) :
    decodeGPS c (b0 :: b1 :: b2 :: b3 :: b4 :: b5 :: b6 :: b7 :: b8 :: r) =
      (.ok (.GPS c ((signed24 b0 b1 b2 : ℚ) / 10000) ((signed24 b3 b4 b5 : ℚ) / 10000)
        ((signed24 b6 b7 b8 : ℚ) / 100)), r) ∧
    (-8388608 ≤ signed24 b0 b1 b2 ∧ signed24 b0 b1 b2 < 8388608) ∧
    (-8388608 ≤ signed24 b3 b4 b5 ∧ signed24 b3 b4 b5 < 8388608) ∧
    (-8388608 ≤ signed24 b6 b7 b8 ∧ signed24 b6 b7 b8 < 8388608) ∧
    (0x80 ≤ b0 → (signed24 b0 b1 b2 : ℚ) / 10000 < 0) ∧
    (0x80 ≤ b3 → (signed24 b3 b4 b5 : ℚ) / 10000 < 0) ∧
    (0x80 ≤ b6 → (signed24 b6 b7 b8 : ℚ) / 100 < 0) := by
  have neg : ∀ x y z : Nat, x < 256 → y < 256 → z < 256 → 0x80 ≤ x →
      ((signed24 x y z : Int) : ℚ) < 0 := by
    intro x y z hx hy hz hx2
    have : signed24 x y z < 0 := by unfold signed24; omega
    exact_mod_cast this
  refine ⟨decodeGPS_nine .., ?_, ?_, ?_, ?_, ?_, ?_⟩
  · unfold signed24; omega
  · unfold signed24; omega
  · unfold signed24; omega
  · intro h; exact div_neg_of_neg_of_pos (neg b0 b1 b2 h0 h1 h2 h) (by norm_num)
  · intro h; exact div_neg_of_neg_of_pos (neg b3 b4 b5 h3 h4 h5 h) (by norm_num)
  · intro h; exact div_neg_of_neg_of_pos (neg b6 b7 b8 h6 h7 h8 h) (by norm_num)

theorem gps_decode_sign_extends_witness :
    decodeGPS 12 [0xFF, 0xFC, 0x91, 0, 190, 245, 0, 8, 106] =
      (.ok (.GPS 12 ((signed24 0xFF 0xFC 0x91 : ℚ) / 10000) ((signed24 0 190 245 : ℚ) / 10000)
        ((signed24 0 8 106 : ℚ) / 100)), []) ∧
    (0x80 ≤ 0xFF → (signed24 0xFF 0xFC 0x91 : ℚ) / 10000 < 0) :=
  have h := gps_decode_sign_extends 12 0xFF 0xFC 0x91 0 190 245 0 8 106 []
    (by decide) (by decide) (by decide) (by decide) (by decide) (by decide) (by decide)
    (by decide) (by decide)
  ⟨h.1, h.2.2.2.2.1⟩

theorem decodeUnit_registered_cases (c t : Nat) (r : List Nat) (h : registered t) :
    (∃ ev, decodeUnit c t r = (.ok ev, r.drop (payloadWidth t)) ∧ payloadWidth t ≤ r.length) ∨
    ((decodeUnit c t r = (.error .EOF, []) ∨ decodeUnit c t r = (.error .ErrUnexpectedEOF, [])) ∧
      r.length < payloadWidth t) := by
  by_cases hw : payloadWidth t ≤ r.length
  · left
    obtain ⟨ev, hev⟩ := decodeUnit_append c t (r.take (payloadWidth t)) h (by simp [hw])
    have := hev (r.drop (payloadWidth t))
    rw [List.take_append_drop] at this
    exact ⟨ev, this, hw⟩
  · right
    refine ⟨?_, by omega⟩
    rw [decodeUnit_short c t r h (by omega)]
    split
    · exact Or.inl rfl
    · exact Or.inr rfl

/-- C5. Unknown type: on a stream that starts with a complete header `(c, t)`,
`DecodeUplink` fails with `ErrInvalidChannelType` before any callback if and
only if `t` is not one of the twelve registered tags; in that case no callback
is invoked and exactly the two header bytes have been consumed, whatever bytes
follow (the stream `{1, 255, 255}` leaves `{255}` unread). -/
theorem unknown_type (c t : Nat) (rest : List Nat) :
    ((∃ left, DecodeUplink (c :: t :: rest) = some ⟨[], some .ErrInvalidChannelType, left⟩) ↔
      t ∉ [0, 1, 2, 3, 101, 102, 103, 104, 113, 115, 134, 136]) ∧
    (t ∉ [0, 1, 2, 3, 101, 102, 103, 104, 113, 115, 134, 136] →
      DecodeUplink (c :: t :: rest) = some ⟨[], some .ErrInvalidChannelType, rest⟩) ∧
    DecodeUplink [1, 255, 255] = some ⟨[], some .ErrInvalidChannelType, [255]⟩ := by
  have key : ∀ (c t : Nat) (rest : List Nat),
      t ∉ [0, 1, 2, 3, 101, 102, 103, 104, 113, 115, 134, 136] →
      DecodeUplink (c :: t :: rest) = some ⟨[], some .ErrInvalidChannelType, rest⟩ := by
    intro c t rest h
    have hr : ¬ registered t := h
    rw [DecodeUplink_cons, decodeUnit_unregistered c t rest hr]
  refine ⟨⟨?_, fun h => ⟨rest, key c t rest h⟩⟩, key c t rest, key 1 255 [255] (by decide)⟩
  rintro ⟨left, hl⟩ hreg
  have hr : registered t := hreg
  rw [DecodeUplink_cons] at hl
  rcases decodeUnit_registered_cases c t rest hr with ⟨ev, he, _⟩ | ⟨he | he, _⟩
  · rw [he] at hl
    simp only at hl
    cases hd : DecodeUplink (List.drop (payloadWidth t) rest) with
    | none => rw [hd] at hl; simp at hl
    | some d => rw [hd] at hl; simp [Decoded.deliver] at hl
  · rw [he] at hl; simp at hl
  · rw [he] at hl; simp at hl

/-- A registered header followed by fewer payload bytes than its type needs:
no callback, the source drained, and the error of the read that ran short,
`io.EOF` when that read got no byte and `io.ErrUnexpectedEOF` otherwise. -/
theorem DecodeUplink_short (c t : Nat) (p : List Nat) (ht : registered t)
    (hp : p.length < payloadWidth t) :
    DecodeUplink (c :: t :: p) =
      some ⟨[], some (if p.length % readWidth t = 0 then .EOF else .ErrUnexpectedEOF), []⟩ := by
  rw [DecodeUplink_cons, decodeUnit_short c t p ht hp]

/-- C6 (the code at the failing inputs). Uplink truncation: a GPS header
followed by 5 of its 9 payload bytes fails with `io.ErrUnexpectedEOF` and no
callback, as the claim says; but a registered header followed by no payload
byte at all (`k = 0`), and an accelerometer header followed by exactly one
whole 2-byte field (`k = 2`), fail with `io.EOF` instead, still with no
callback. -/
theorem uplink_truncation_missing_payload :
    DecodeUplink [12, GPS, 7, 253, 135, 0, 190] = some ⟨[], some .ErrUnexpectedEOF, []⟩ ∧
    (registered DigitalInput ∧ 0 < payloadWidth DigitalInput ∧
      DecodeUplink [1, DigitalInput] = some ⟨[], some .EOF, []⟩) ∧
    (registered Accelerometer ∧ 2 < payloadWidth Accelerometer ∧
      DecodeUplink [9, Accelerometer, 254, 88] = some ⟨[], some .EOF, []⟩) :=
  ⟨DecodeUplink_short 12 GPS [7, 253, 135, 0, 190] (by decide) (by decide),
    ⟨by decide, by decide, DecodeUplink_short 1 DigitalInput [] (by decide) (by decide)⟩,
    ⟨by decide, by decide,
      DecodeUplink_short 9 Accelerometer [254, 88] (by decide) (by decide)⟩⟩

theorem map_deliver_after {ε : Type} (ev : ε) (evs : List ε) (o : Option (Decoded ε)) :
    (o.map (Decoded.after evs)).map (Decoded.deliver ev) = o.map (Decoded.after (ev :: evs)) := by
  cases o <;> rfl

theorem map_after_nil {ε : Type} (o : Option (Decoded ε)) : o.map (Decoded.after []) = o := by
  cases o <;> rfl

theorem DecodeUplink_frame_append (s : List Nat) (h : IsFrame s) :
    ∃ evs, ∀ s2, DecodeUplink (s ++ s2) = (DecodeUplink s2).map (Decoded.after evs) := by
  obtain ⟨units, hu, rfl⟩ := h
  induction units with
  | nil => exact ⟨[], fun s2 => by rw [map_after_nil]; rfl⟩
  | cons u us ih =>
    obtain ⟨evs, hevs⟩ := ih (fun v hv => hu v (List.mem_cons_of_mem _ hv))
    obtain ⟨c, t, p, rfl, ht, hp⟩ := hu u (List.mem_cons_self _ _)
    obtain ⟨ev, hev⟩ := decodeUnit_append c t p ht hp
    refine ⟨ev :: evs, fun s2 => ?_⟩
    simp only [concatUnits, List.cons_append, List.append_assoc]
    rw [DecodeUplink_cons, hev]
    simp only
    rw [hevs s2, map_deliver_after]

theorem IsFrame_of_success (n : Nat) : ∀ (s : List Nat), s.length ≤ n →
    ∀ d, DecodeUplink s = some d → d.err = none → IsFrame s := by
  induction n with
  | zero =>
    intro s hs d _ _
    have : s = [] := List.length_eq_zero.mp (by omega)
    subst this
    exact ⟨[], by simp, rfl⟩
  | succ n ih =>
    intro s hs d hd he
    rcases s with _ | ⟨c, _ | ⟨t, r⟩⟩
    · exact ⟨[], by simp, rfl⟩
    · rw [DecodeUplink_single] at hd
      cases hd
      cases he
    · rw [DecodeUplink_cons] at hd
      by_cases ht : registered t
      · rcases decodeUnit_registered_cases c t r ht with ⟨ev, hev, hw⟩ | ⟨hev | hev, _⟩
        · rw [hev] at hd
          simp only at hd
          cases hd2 : DecodeUplink (List.drop (payloadWidth t) r) with
          | none => rw [hd2] at hd; cases hd
          | some d2 =>
            rw [hd2] at hd
            simp only [Option.map_some', Option.some.injEq] at hd
            subst hd
            have hfr : IsFrame (List.drop (payloadWidth t) r) :=
              ih _ (by simp only [List.length_cons, List.length_drop] at hs ⊢; omega) d2 hd2 he
            obtain ⟨units, hu, hcat⟩ := hfr
            refine ⟨(c :: t :: r.take (payloadWidth t)) :: units, ?_, ?_⟩
            · intro u hmem
              rcases List.mem_cons.mp hmem with rfl | hmem
              · exact ⟨c, t, r.take (payloadWidth t), rfl, ht, by simp [hw]⟩
              · exact hu u hmem
            · simp only [concatUnits, List.cons_append]
              rw [← hcat, List.take_append_drop]
        · rw [hev] at hd; cases hd; cases he
        · rw [hev] at hd; cases hd; cases he
      · rw [decodeUnit_unregistered c t r ht] at hd
        cases hd
        cases he

/-- C7. `DecodeUplink` returns success (`nil`) if and only if the byte stream
is a concatenation of zero or more complete Data Units, each with a registered
type tag and its full fixed-width payload; the empty stream succeeds with no
callback, and a stream of complete units followed by exactly one more byte
fails with `io.ErrUnexpectedEOF`. -/
theorem uplink_success_iff_frame (s : List Nat) :
    ((∃ d, DecodeUplink s = some d ∧ d.err = none) ↔ IsFrame s) ∧
    DecodeUplink [] = some ⟨[], none, []⟩ ∧
    (IsFrame s → ∀ b, ∃ evs, DecodeUplink (s ++ [b]) = some ⟨evs, some .ErrUnexpectedEOF, []⟩) := by
  refine ⟨⟨?_, ?_⟩, DecodeUplink_nil, ?_⟩
  · rintro ⟨d, hd, he⟩
    exact IsFrame_of_success s.length s (le_refl _) d hd he
  · intro h
    obtain ⟨evs, hevs⟩ := DecodeUplink_frame_append s h
    have := hevs []
    rw [List.append_nil, DecodeUplink_nil] at this
    exact ⟨_, this, rfl⟩
  · intro h b
    obtain ⟨evs, hevs⟩ := DecodeUplink_frame_append s h
    refine ⟨evs, ?_⟩
    rw [hevs [b], DecodeUplink_single]
    simp [Decoded.after]

theorem uplink_success_iff_frame_witness :
    IsFrame [1, 0, 255, 7, 103, 255, 100] ∧
      ∃ evs, DecodeUplink ([1, 0, 255, 7, 103, 255, 100] ++ [9]) =
        some ⟨evs, some .ErrUnexpectedEOF, []⟩ :=
  have h : IsFrame [1, 0, 255, 7, 103, 255, 100] :=
    ⟨[[1, 0, 255], [7, 103, 255, 100]], by
      intro u hu
      simp only [List.mem_cons, List.mem_singleton, List.mem_nil_iff, or_false] at hu
      rcases hu with rfl | rfl
      · exact ⟨1, 0, [255], rfl, by decide, by decide⟩
      · exact ⟨7, 103, [255, 100], rfl, by decide, by decide⟩, rfl⟩
  ⟨h, (uplink_success_iff_frame _).2.2 h 9⟩

/-! ## One unit of each type at the head of the stream -/

theorem beUint16_pair (hi lo : Nat) : beUint16 [hi, lo] = hi * 256 + lo := rfl

theorem int16_pair (hi lo : Nat) (h1 : hi < 256) (h2 : lo < 256) :
    int16 (hi * 256 + lo) = signed16 hi lo := by
  simp only [int16, signed16]
  split <;> split <;> omega

theorem DecodeUplink_DigitalInput (c v : Nat) (r : List Nat) :
    DecodeUplink (c :: DigitalInput :: v :: r) =
      (DecodeUplink r).map (Decoded.deliver (.DigitalInput c v)) := by
  rw [DecodeUplink_cons]
  simp [decodeUnit, decodeDigitalInput, readUint8, readFull]

theorem DecodeUplink_DigitalOutput (c v : Nat) (r : List Nat) :
    DecodeUplink (c :: DigitalOutput :: v :: r) =
      (DecodeUplink r).map (Decoded.deliver (.DigitalOutput c v)) := by
  rw [DecodeUplink_cons]
  simp [decodeUnit, decodeDigitalOutput, readUint8, readFull, DigitalInput, DigitalOutput]

theorem DecodeUplink_AnalogInput (c hi lo : Nat) (r : List Nat) :
    DecodeUplink (c :: AnalogInput :: hi :: lo :: r) =
      (DecodeUplink r).map
        (Decoded.deliver (.AnalogInput c ((int16 (hi * 256 + lo) : ℚ) / 100))) := by
  rw [DecodeUplink_cons]
  simp [decodeUnit, decodeAnalogInput, readInt16, readFull, beUint16_pair, DigitalInput,
    DigitalOutput, AnalogInput]

theorem DecodeUplink_AnalogOutput (c hi lo : Nat) (r : List Nat) :
    DecodeUplink (c :: AnalogOutput :: hi :: lo :: r) =
      (DecodeUplink r).map
        (Decoded.deliver (.AnalogOutput c ((int16 (hi * 256 + lo) : ℚ) / 100))) := by
  rw [DecodeUplink_cons]
  simp [decodeUnit, decodeAnalogOutput, readInt16, readFull, beUint16_pair, DigitalInput,
    DigitalOutput, AnalogInput, AnalogOutput]

theorem DecodeUplink_Luminosity (c hi lo : Nat) (r : List Nat) :
    DecodeUplink (c :: Luminosity :: hi :: lo :: r) =
      (DecodeUplink r).map (Decoded.deliver (.Luminosity c (hi * 256 + lo))) := by
  rw [DecodeUplink_cons]
  simp [decodeUnit, decodeLuminosity, readUint16, readFull, beUint16_pair, DigitalInput,
    DigitalOutput, AnalogInput, AnalogOutput, Luminosity]

theorem DecodeUplink_Presence (c v : Nat) (r : List Nat) :
    DecodeUplink (c :: Presence :: v :: r) =
      (DecodeUplink r).map (Decoded.deliver (.Presence c v)) := by
  rw [DecodeUplink_cons]
  simp [decodeUnit, decodePresence, readUint8, readFull, DigitalInput, DigitalOutput,
    AnalogInput, AnalogOutput, Luminosity, Presence]

theorem DecodeUplink_Temperature (c hi lo : Nat) (r : List Nat) :
    DecodeUplink (c :: Temperature :: hi :: lo :: r) =
      (DecodeUplink r).map
        (Decoded.deliver (.Temperature c ((int16 (hi * 256 + lo) : ℚ) / 10))) := by
  rw [DecodeUplink_cons]
  simp [decodeUnit, decodeTemperature, readInt16, readFull, beUint16_pair, DigitalInput,
    DigitalOutput, AnalogInput, AnalogOutput, Luminosity, Presence, Temperature]

theorem DecodeUplink_RelativeHumidity (c v : Nat) (r : List Nat) :
    DecodeUplink (c :: RelativeHumidity :: v :: r) =
      (DecodeUplink r).map (Decoded.deliver (.RelativeHumidity c ((v : ℚ) / 2))) := by
  rw [DecodeUplink_cons]
  simp [decodeUnit, decodeRelativeHumidity, readUint8, readFull, DigitalInput, DigitalOutput,
    AnalogInput, AnalogOutput, Luminosity, Presence, Temperature, RelativeHumidity]

theorem DecodeUplink_Accelerometer (c x1 x0 y1 y0 z1 z0 : Nat) (r : List Nat) :
    DecodeUplink (c :: Accelerometer :: x1 :: x0 :: y1 :: y0 :: z1 :: z0 :: r) =
      (DecodeUplink r).map
        (Decoded.deliver (.Accelerometer c ((int16 (x1 * 256 + x0) : ℚ) / 1000)
          ((int16 (y1 * 256 + y0) : ℚ) / 1000) ((int16 (z1 * 256 + z0) : ℚ) / 1000))) := by
  rw [DecodeUplink_cons]
  simp [decodeUnit, decodeAccelerometer, readInt16, readFull, beUint16_pair, DigitalInput,
    DigitalOutput, AnalogInput, AnalogOutput, Luminosity, Presence, Temperature,
    RelativeHumidity, Accelerometer]

theorem DecodeUplink_BarometricPressure (c hi lo : Nat) (r : List Nat) :
    DecodeUplink (c :: BarometricPressure :: hi :: lo :: r) =
      (DecodeUplink r).map
        (Decoded.deliver (.BarometricPressure c ((int16 (hi * 256 + lo) : ℚ) / 10))) := by
  rw [DecodeUplink_cons]
  simp [decodeUnit, decodeBarometricPressure, readInt16, readFull, beUint16_pair, DigitalInput,
    DigitalOutput, AnalogInput, AnalogOutput, Luminosity, Presence, Temperature,
    RelativeHumidity, Accelerometer, BarometricPressure]

theorem DecodeUplink_Gyrometer (c x1 x0 y1 y0 z1 z0 : Nat) (r : List Nat) :
    DecodeUplink (c :: Gyrometer :: x1 :: x0 :: y1 :: y0 :: z1 :: z0 :: r) =
      (DecodeUplink r).map
        (Decoded.deliver (.Gyrometer c ((int16 (x1 * 256 + x0) : ℚ) / 100)
          ((int16 (y1 * 256 + y0) : ℚ) / 100) ((int16 (z1 * 256 + z0) : ℚ) / 100))) := by
  rw [DecodeUplink_cons]
  simp [decodeUnit, decodeGyrometer, readInt16, readFull, beUint16_pair, DigitalInput,
    DigitalOutput, AnalogInput, AnalogOutput, Luminosity, Presence, Temperature,
    RelativeHumidity, Accelerometer, BarometricPressure, Gyrometer]

theorem DecodeUplink_GPS (c b0 b1 b2 b3 b4 b5 b6 b7 b8 : Nat) (r : List Nat) :
    DecodeUplink (c :: GPS :: b0 :: b1 :: b2 :: b3 :: b4 :: b5 :: b6 :: b7 :: b8 :: r) =
      (DecodeUplink r).map
        (Decoded.deliver (.GPS c ((signed24 b0 b1 b2 : ℚ) / 10000)
          ((signed24 b3 b4 b5 : ℚ) / 10000) ((signed24 b6 b7 b8 : ℚ) / 100))) := by
  rw [DecodeUplink_cons]
  have h : decodeUnit c GPS (b0 :: b1 :: b2 :: b3 :: b4 :: b5 :: b6 :: b7 :: b8 :: r) =
      decodeGPS c (b0 :: b1 :: b2 :: b3 :: b4 :: b5 :: b6 :: b7 :: b8 :: r) := by
    simp [decodeUnit, DigitalInput, DigitalOutput, AnalogInput, AnalogOutput, Luminosity,
      Presence, Temperature, RelativeHumidity, Accelerometer, BarometricPressure, Gyrometer, GPS]
  rw [h, decodeGPS_nine]

theorem testDecode_stream :
    DecodeUplink [1, DigitalInput, 255, 2, DigitalOutput, 100, 3, AnalogInput, 21, 74,
        4, AnalogOutput, 234, 182, 5, Luminosity, 1, 244, 6, Presence, 50,
        7, Temperature, 255, 100, 8, RelativeHumidity, 99,
        9, Accelerometer, 254, 88, 0, 15, 6, 130, 10, BarometricPressure, 41, 239,
        11, Gyrometer, 1, 99, 2, 49, 254, 102, 12, GPS, 7, 253, 135, 0, 190, 245, 0, 8, 106] =
      some ⟨[.DigitalInput 1 255, .DigitalOutput 2 100, .AnalogInput 3 54.5,
        .AnalogOutput 4 (-54.5), .Luminosity 5 500, .Presence 6 50, .Temperature 7 (-15.6),
        .RelativeHumidity 8 49.5, .Accelerometer 9 (-0.424) 0.015 1.666,
        .BarometricPressure 10 1073.5, .Gyrometer 11 3.55 5.61 (-4.10),
        .GPS 12 52.3655 4.8885 21.54], none, []⟩ := by
  have e1 : int16 (21 * 256 + 74) = 5450 := by decide
  have e2 : int16 (234 * 256 + 182) = -5450 := by decide
  have e3 : int16 (255 * 256 + 100) = -156 := by decide
  have e4 : int16 (254 * 256 + 88) = -424 := by decide
  have e5 : int16 (0 * 256 + 15) = 15 := by decide
  have e6 : int16 (6 * 256 + 130) = 1666 := by decide
  have e7 : int16 (41 * 256 + 239) = 10735 := by decide
  have e8 : int16 (1 * 256 + 99) = 355 := by decide
  have e9 : int16 (2 * 256 + 49) = 561 := by decide
  have e10 : int16 (254 * 256 + 102) = -410 := by decide
  have g1 : signed24 7 253 135 = 523655 := by decide
  have g2 : signed24 0 190 245 = 48885 := by decide
  have g3 : signed24 0 8 106 = 2154 := by decide
  rw [DecodeUplink_DigitalInput, DecodeUplink_DigitalOutput, DecodeUplink_AnalogInput,
    DecodeUplink_AnalogOutput, DecodeUplink_Luminosity, DecodeUplink_Presence,
    DecodeUplink_Temperature, DecodeUplink_RelativeHumidity, DecodeUplink_Accelerometer,
    DecodeUplink_BarometricPressure, DecodeUplink_Gyrometer, DecodeUplink_GPS, DecodeUplink_nil,
    e1, e2, e3, e4, e5, e6, e7, e8, e9, e10, g1, g2, g3]
  simp only [Option.map_some', Decoded.deliver]
  norm_num

/-- C8. Per-type uplink decode: for every channel byte and every full payload,
a single unit decodes by reading the payload big-endian and applying the scale
of its type: digital input/output and presence give the unsigned byte
unchanged; luminosity the unsigned 16-bit value unchanged; analog input/output
signed16/100; temperature and barometric pressure signed16/10; relative
humidity byte/2; accelerometer three signed16/1000 and gyrometer three
signed16/100 in x, y, z order; GPS three signed 24-bit fields scaled by
10000, 10000 and 100. The callback is the one for the header's type tag and
receives the header's channel. The 12-unit stream of `TestDecode` yields the
values its test expects. -/
theorem per_type_decode :
    (∀ c b0 b1 b2 b3 b4 b5 b6 b7 b8 : Nat, b0 < 256 → b1 < 256 → b2 < 256 → b3 < 256 →
      b4 < 256 → b5 < 256 → b6 < 256 → b7 < 256 → b8 < 256 →
      DecodeUplink [c, DigitalInput, b0] = some ⟨[.DigitalInput c b0], none, []⟩ ∧
      DecodeUplink [c, DigitalOutput, b0] = some ⟨[.DigitalOutput c b0], none, []⟩ ∧
      DecodeUplink [c, AnalogInput, b0, b1] =
        some ⟨[.AnalogInput c ((signed16 b0 b1 : ℚ) / 100)], none, []⟩ ∧
      DecodeUplink [c, AnalogOutput, b0, b1] =
        some ⟨[.AnalogOutput c ((signed16 b0 b1 : ℚ) / 100)], none, []⟩ ∧
      DecodeUplink [c, Luminosity, b0, b1] = some ⟨[.Luminosity c (b0 * 256 + b1)], none, []⟩ ∧
      DecodeUplink [c, Presence, b0] = some ⟨[.Presence c b0], none, []⟩ ∧
      DecodeUplink [c, Temperature, b0, b1] =
        some ⟨[.Temperature c ((signed16 b0 b1 : ℚ) / 10)], none, []⟩ ∧
      DecodeUplink [c, RelativeHumidity, b0] =
        some ⟨[.RelativeHumidity c ((b0 : ℚ) / 2)], none, []⟩ ∧
      DecodeUplink [c, Accelerometer, b0, b1, b2, b3, b4, b5] =
        some ⟨[.Accelerometer c ((signed16 b0 b1 : ℚ) / 1000) ((signed16 b2 b3 : ℚ) / 1000)
          ((signed16 b4 b5 : ℚ) / 1000)], none, []⟩ ∧
      DecodeUplink [c, BarometricPressure, b0, b1] =
        some ⟨[.BarometricPressure c ((signed16 b0 b1 : ℚ) / 10)], none, []⟩ ∧
      DecodeUplink [c, Gyrometer, b0, b1, b2, b3, b4, b5] =
        some ⟨[.Gyrometer c ((signed16 b0 b1 : ℚ) / 100) ((signed16 b2 b3 : ℚ) / 100)
          ((signed16 b4 b5 : ℚ) / 100)], none, []⟩ ∧
      DecodeUplink [c, GPS, b0, b1, b2, b3, b4, b5, b6, b7, b8] =
        some ⟨[.GPS c ((signed24 b0 b1 b2 : ℚ) / 10000) ((signed24 b3 b4 b5 : ℚ) / 10000)
          ((signed24 b6 b7 b8 : ℚ) / 100)], none, []⟩) ∧
    DecodeUplink [1, DigitalInput, 255, 2, DigitalOutput, 100, 3, AnalogInput, 21, 74,
        4, AnalogOutput, 234, 182, 5, Luminosity, 1, 244, 6, Presence, 50,
        7, Temperature, 255, 100, 8, RelativeHumidity, 99,
        9, Accelerometer, 254, 88, 0, 15, 6, 130, 10, BarometricPressure, 41, 239,
        11, Gyrometer, 1, 99, 2, 49, 254, 102, 12, GPS, 7, 253, 135, 0, 190, 245, 0, 8, 106] =
      some ⟨[.DigitalInput 1 255, .DigitalOutput 2 100, .AnalogInput 3 54.5,
        .AnalogOutput 4 (-54.5), .Luminosity 5 500, .Presence 6 50, .Temperature 7 (-15.6),
        .RelativeHumidity 8 49.5, .Accelerometer 9 (-0.424) 0.015 1.666,
        .BarometricPressure 10 1073.5, .Gyrometer 11 3.55 5.61 (-4.10),
        .GPS 12 52.3655 4.8885 21.54], none, []⟩ := by
  refine ⟨?_, testDecode_stream⟩
  intro c b0 b1 b2 b3 b4 b5 b6 b7 b8 h0 h1 h2 h3 h4 h5 _ _ _
  refine ⟨?_, ?_, ?_, ?_, ?_, ?_, ?_, ?_, ?_, ?_, ?_, ?_⟩
  · rw [DecodeUplink_DigitalInput, DecodeUplink_nil]; rfl
  · rw [DecodeUplink_DigitalOutput, DecodeUplink_nil]; rfl
  · rw [DecodeUplink_AnalogInput, DecodeUplink_nil, int16_pair b0 b1 h0 h1]; rfl
  · rw [DecodeUplink_AnalogOutput, DecodeUplink_nil, int16_pair b0 b1 h0 h1]; rfl
  · rw [DecodeUplink_Luminosity, DecodeUplink_nil]; rfl
  · rw [DecodeUplink_Presence, DecodeUplink_nil]; rfl
  · rw [DecodeUplink_Temperature, DecodeUplink_nil, int16_pair b0 b1 h0 h1]; rfl
  · rw [DecodeUplink_RelativeHumidity, DecodeUplink_nil]; rfl
  · rw [DecodeUplink_Accelerometer, DecodeUplink_nil, int16_pair b0 b1 h0 h1,
      int16_pair b2 b3 h2 h3, int16_pair b4 b5 h4 h5]; rfl
  · rw [DecodeUplink_BarometricPressure, DecodeUplink_nil, int16_pair b0 b1 h0 h1]; rfl
  · rw [DecodeUplink_Gyrometer, DecodeUplink_nil, int16_pair b0 b1 h0 h1,
      int16_pair b2 b3 h2 h3, int16_pair b4 b5 h4 h5]; rfl
  · rw [DecodeUplink_GPS, DecodeUplink_nil]; rfl

theorem per_type_decode_witness :
    DecodeUplink [7, Temperature, 255, 100] =
        some ⟨[.Temperature 7 ((signed16 255 100 : ℚ) / 10)], none, []⟩ ∧
      signed16 255 100 = -156 :=
  ⟨(per_type_decode.1 7 255 100 0 0 0 0 0 0 0 (by decide) (by decide) (by decide) (by decide)
    (by decide) (by decide) (by decide) (by decide) (by decide)).2.2.2.2.2.2.1, by decide⟩

theorem DecodeDownlink_frame (us : List (Nat × Nat × Nat)) (r : List Nat)
    (h : ∀ u ∈ us, u.1 ≠ 0xFF ∧ u.2.1 < 256 ∧ u.2.2 < 256) :
    DecodeDownlink (downlinkFrame us ++ r) =
      (DecodeDownlink r).map (Decoded.after (us.map portOf)) := by
  induction us with
  | nil => rw [List.map_nil, map_after_nil]; rfl
  | cons u us ih =>
    obtain ⟨c, hi, lo⟩ := u
    obtain ⟨hc, hhi, hlo⟩ := h (c, hi, lo) (List.mem_cons_self _ _)
    simp only [downlinkFrame, List.cons_append]
    rw [DecodeDownlink_unit c hi lo _ hc, ih (fun v hv => h v (List.mem_cons_of_mem _ hv)),
      map_deliver_after, int16_beUint16 hi lo hhi hlo]
    rfl

theorem older_DecodeDownlink_frame (us : List (Nat × Nat × Nat)) (r : List Nat)
    (h : ∀ u ∈ us, u.2.1 < 256 ∧ u.2.2 < 256) :
    older.DecodeDownlink (downlinkFrame us ++ r) =
      (older.DecodeDownlink r).map (Decoded.after (us.map portOf32)) := by
  induction us with
  | nil => rw [List.map_nil, map_after_nil]; rfl
  | cons u us ih =>
    obtain ⟨c, hi, lo⟩ := u
    obtain ⟨hhi, hlo⟩ := h (c, hi, lo) (List.mem_cons_self _ _)
    simp only [downlinkFrame, List.cons_append]
    rw [older_DecodeDownlink_unit c hi lo _, ih (fun v hv => h v (List.mem_cons_of_mem _ hv)),
      map_deliver_after, int16_beUint16 hi lo hhi hlo]
    rfl

theorem portOf_example_one : portOf (1, 0, 100) = ⟨1, 1⟩ := by
  have h : signed16 0 100 = 100 := by decide
  simp only [portOf, h]
  norm_num

theorem portOf_example_two : portOf (2, 234, 182) = ⟨2, -54.5⟩ := by
  have h : signed16 234 182 = -5450 := by decide
  simp only [portOf, h]
  norm_num

theorem round32_two : round32 2 = 2 := by
  exact_mod_cast round32_intCast 2 (by norm_num)

theorem round32_ten : round32 10 = 10 := by
  exact_mod_cast round32_intCast 10 (by norm_num)

theorem round32_hundred : round32 100 = 100 := by
  exact_mod_cast round32_intCast 100 (by norm_num)

theorem round32_thousand : round32 1000 = 1000 := by
  exact_mod_cast round32_intCast 1000 (by norm_num)

theorem round32_tenThousand : round32 10000 = 10000 := by
  exact_mod_cast round32_intCast 10000 (by norm_num)

/-- The `float32` quotient of an integer that `float32` holds exactly by a
scale is the `float32` nearest to the exact quotient. -/
theorem f32div_intCast (n : Int) (s : ℚ) (hn : |n| < 2 ^ 24) (hs : round32 s = s) :
    f32div (n : ℚ) s = round32 ((n : ℚ) / s) := by
  unfold f32div
  rw [round32_intCast n hn, hs]

theorem portOf32_example_one : portOf32 (1, 0, 100) = ⟨1, 1⟩ := by
  have h : signed16 0 100 = 100 := by decide
  have e : ((100 : Int) : ℚ) / 100 = ((1 : Int) : ℚ) := by norm_num
  simp only [portOf32, h]
  rw [f32div_intCast 100 100 (by norm_num) round32_hundred, e, round32_intCast 1 (by norm_num)]
  norm_num

theorem portOf32_example_two : portOf32 (2, 234, 182) = ⟨2, -54.5⟩ := by
  have h : signed16 234 182 = -5450 := by decide
  have e : ((-5450 : Int) : ℚ) / 100 = ((-109 : Int) : ℚ) * 2 ^ (-1 : Int) := by norm_num
  have r := roundTo_exact 24 (-149) (-109) (-1) (by norm_num) (by norm_num)
  simp only [portOf32, h]
  rw [f32div_intCast (-5450) 100 (by norm_num) round32_hundred, e]
  unfold round32
  rw [r]
  norm_num

/-- C9. Downlink terminator: on a stream of `k` complete 3-byte units whose
channel byte is not `0xFF`, followed by `0xFF` and arbitrary further bytes,
`DecodeDownlink` returns no error and invokes `Port` exactly `k` times, for the
units in order, each with its channel and its signed 16-bit value divided by
100; the bytes after the terminator are left unread. In particular
`{1, 0, 100, 0xFF}` yields exactly one event, channel 1 with value 1.00. -/
theorem downlink_terminator :
    (∀ (us : List (Nat × Nat × Nat)) (rest : List Nat),
      (∀ u ∈ us, u.1 ≠ 0xFF ∧ u.2.1 < 256 ∧ u.2.2 < 256) →
      DecodeDownlink (downlinkFrame us ++ 0xFF :: rest) = some ⟨us.map portOf, none, rest⟩) ∧
    DecodeDownlink [1, 0, 100, 0xFF] = some ⟨[⟨1, 1⟩], none, []⟩ := by
  have general : ∀ (us : List (Nat × Nat × Nat)) (rest : List Nat),
      (∀ u ∈ us, u.1 ≠ 0xFF ∧ u.2.1 < 256 ∧ u.2.2 < 256) →
      DecodeDownlink (downlinkFrame us ++ 0xFF :: rest) =
        some ⟨us.map portOf, none, rest⟩ := by
    intro us rest h
    rw [DecodeDownlink_frame us _ h, DecodeDownlink_cons, if_pos rfl]
    simp [Decoded.after]
  refine ⟨general, ?_⟩
  have := general [(1, 0, 100)] [] (by decide)
  simp only [List.map, portOf_example_one] at this
  exact this

theorem downlink_terminator_witness :
    (∀ u ∈ [((2 : Nat), (234 : Nat), (182 : Nat))], u.1 ≠ 0xFF ∧ u.2.1 < 256 ∧ u.2.2 < 256) ∧
      DecodeDownlink (downlinkFrame [(2, 234, 182)] ++ 0xFF :: [7, 7]) =
        some ⟨[(2, 234, 182)].map portOf, none, [7, 7]⟩ :=
  ⟨by decide, downlink_terminator.1 [(2, 234, 182)] [7, 7] (by decide)⟩

/-- C10. Downlink decode without terminator: on a stream that is a
concatenation of `k ≥ 0` complete units `(c, hi, lo)` with `c ≠ 0xFF`,
`DecodeDownlink` (and the older generation's `DecodeDownlink` as well) returns
no error and invokes `Port` exactly `k` times in stream order with
`(c, n / 100)`, `n` the big-endian two's-complement signed 16-bit value of
`hi, lo` (the quotient is the `float32` one in the older generation). In
particular `{1, 0, 100, 2, 234, 182}` yields `(1, 1.0)` then `(2, -54.5)`. -/
theorem downlink_without_terminator :
    (∀ us : List (Nat × Nat × Nat), (∀ u ∈ us, u.1 ≠ 0xFF ∧ u.2.1 < 256 ∧ u.2.2 < 256) →
      DecodeDownlink (downlinkFrame us) = some ⟨us.map portOf, none, []⟩ ∧
      older.DecodeDownlink (downlinkFrame us) = some ⟨us.map portOf32, none, []⟩) ∧
    DecodeDownlink [1, 0, 100, 2, 234, 182] = some ⟨[⟨1, 1⟩, ⟨2, -54.5⟩], none, []⟩ ∧
    older.DecodeDownlink [1, 0, 100, 2, 234, 182] = some ⟨[⟨1, 1⟩, ⟨2, -54.5⟩], none, []⟩ := by
  have general : ∀ us : List (Nat × Nat × Nat),
      (∀ u ∈ us, u.1 ≠ 0xFF ∧ u.2.1 < 256 ∧ u.2.2 < 256) →
      DecodeDownlink (downlinkFrame us) = some ⟨us.map portOf, none, []⟩ ∧
      older.DecodeDownlink (downlinkFrame us) = some ⟨us.map portOf32, none, []⟩ := by
    intro us h
    have h1 := DecodeDownlink_frame us [] h
    have h2 := older_DecodeDownlink_frame us [] (fun u hu => (h u hu).2)
    rw [List.append_nil, DecodeDownlink_nil] at h1
    rw [List.append_nil, older_DecodeDownlink_nil] at h2
    constructor
    · rw [h1]; simp [Decoded.after]
    · rw [h2]; simp [Decoded.after]
  refine ⟨general, ?_⟩
  have := general [(1, 0, 100), (2, 234, 182)] (by decide)
  simp only [List.map, portOf_example_one, portOf_example_two, portOf32_example_one,
    portOf32_example_two] at this
  exact this

theorem downlink_without_terminator_witness :
    (∀ u ∈ [((12 : Nat), (255 : Nat), (255 : Nat))], u.1 ≠ 0xFF ∧ u.2.1 < 256 ∧ u.2.2 < 256) ∧
      DecodeDownlink (downlinkFrame [(12, 255, 255)]) =
        some ⟨[(12, 255, 255)].map portOf, none, []⟩ :=
  ⟨by decide, (downlink_without_terminator.1 [(12, 255, 255)] (by decide)).1⟩

/-! ## Downlink truncation and round trip -/

theorem DecodeDownlink_channel_only (c : Nat) (hc : c ≠ 0xFF) :
    DecodeDownlink [c] = some ⟨[], some .EOF, []⟩ := by
  rw [DecodeDownlink_cons, if_neg hc]
  simp [readInt16, readFull]

theorem DecodeDownlink_one_value_byte (c b : Nat) (hc : c ≠ 0xFF) :
    DecodeDownlink [c, b] = some ⟨[], some .ErrUnexpectedEOF, []⟩ := by
  rw [DecodeDownlink_cons, if_neg hc]
  simp [readInt16, readFull]

/-- C11 (the code at the failing input). Downlink truncation: a channel byte
other than the terminator followed by one of its two value bytes fails with
`io.ErrUnexpectedEOF` and no `Port` call, as the claim says (stream
`{12, 1}`); followed by no value byte at all (`k = 0`, stream `{12}`) it
fails with `io.EOF` instead, still with no `Port` call. -/
theorem downlink_truncation_missing_value :
    (∀ c b : Nat, c ≠ 0xFF →
      DecodeDownlink [c, b] = some ⟨[], some .ErrUnexpectedEOF, []⟩ ∧
      DecodeDownlink [c] = some ⟨[], some .EOF, []⟩) ∧
    DecodeDownlink [12, 1] = some ⟨[], some .ErrUnexpectedEOF, []⟩ ∧
    DecodeDownlink [12] = some ⟨[], some .EOF, []⟩ :=
  ⟨fun c b hc => ⟨DecodeDownlink_one_value_byte c b hc, DecodeDownlink_channel_only c hc⟩,
    DecodeDownlink_one_value_byte 12 1 (by decide), DecodeDownlink_channel_only 12 (by decide)⟩

theorem AddPort_Bytes (e : encoder) (c : Nat) (v : ℚ) :
    (e.AddPort c v).Bytes = e.Bytes ++ c :: putInt16 (floatToInt16 (f64mul v 100)) := by
  simp [encoder.AddPort, encoder.WriteByte, encoder.WriteInt16, encoder.Bytes]

theorem DecodeDownlink_AddPort (c : Nat) (v : ℚ) (hc : c ≠ 0xFF) :
    DecodeDownlink (NewEncoder.AddPort c v).Bytes =
      some ⟨[⟨c, (floatToInt16 (f64mul v 100) : ℚ) / 100⟩], none, []⟩ := by
  have hb : (NewEncoder.AddPort c v).Bytes = c :: (putInt16 (floatToInt16 (f64mul v 100)) ++ []) := by
    rw [AddPort_Bytes, List.append_nil]; rfl
  rw [hb, DecodeDownlink_cons, if_neg hc, readInt16_putInt16, floatToInt16_wrap]
  simp only [DecodeDownlink_nil, Option.map_some']
  rfl

/-- C12 (as stated, refuted). The channel byte 255 is the terminator:
`DecodeDownlink` over the bytes of `AddPort(255, 1)` returns no error but
invokes `Port` not at all, and leaves the two value bytes unread. And the
bound is not met at `AddPort(1, 1.15)`, which writes `{1, 0, 114}` and
decodes to `Port(1, 1.14)`: the two `float64` values are
`0.0100000000000000089` apart. -/
theorem downlink_round_trip_refuted :
    ((NewEncoder.AddPort 255 1).Bytes = [255, 0, 100] ∧
      DecodeDownlink (NewEncoder.AddPort 255 1).Bytes = some ⟨[], none, [0, 100]⟩) ∧
    ((NewEncoder.AddPort 1 1.15).Bytes = [1, 0, 114] ∧
      DecodeDownlink (NewEncoder.AddPort 1 1.15).Bytes = some ⟨[⟨1, 1.14⟩], none, []⟩ ∧
      round64 1.15 - round64 1.14 = 45035996273705 / 4503599627370496 ∧
      ¬ |round64 1.14 - round64 1.15| < 1 / 100) := by
  have hb : (NewEncoder.AddPort 255 1).Bytes = [255, 0, 100] := by
    rw [AddPort_Bytes]
    have hf : fits16 (f64mul 1 100) := by simp only [fits16, trunc_port_one]; decide
    rw [floatToInt16_of_fits hf, trunc_port_one]
    decide
  have hf : fits16 (f64mul 1.15 100) := by simp only [fits16, trunc_analog_115]; decide
  have hb2 : (NewEncoder.AddPort 1 1.15).Bytes = [1, 0, 114] := by
    rw [AddPort_Bytes, floatToInt16_of_fits hf, trunc_analog_115]
    decide
  have hdiff : round64 1.15 - round64 1.14 = 45035996273705 / 4503599627370496 := by
    rw [round64_analog_115, round64_analog_114]
    norm_num
  refine ⟨⟨hb, ?_⟩, hb2, ?_, hdiff, ?_⟩
  · rw [hb, DecodeDownlink_cons, if_pos rfl]
  · rw [DecodeDownlink_AddPort 1 1.15 (by decide), floatToInt16_of_fits hf, trunc_analog_115]
    norm_num
  · intro h
    rw [abs_sub_comm, hdiff] at h
    norm_num [abs_lt] at h

/-- C12 (amended). Downlink round trip: for every channel byte `c` other than
the terminator `0xFF` and every value `v` whose `float64` product `v * 100` is
below 32768 in magnitude, `DecodeDownlink` over the bytes `AddPort(c, v)`
writes on a fresh encoder returns no error, reads all bytes and invokes `Port`
exactly once, with `(c, v')` where `|v' - v| < 0.01 * (1 + 2^-27)`, the step
with the allowance for the rounding of the `float64` arithmetic. -/
theorem downlink_round_trip (c : Nat) (v : ℚ) (hc : c ≠ 0xFF)
    (hv : |f64mul v 100| < 32768) :
    ∃ w, DecodeDownlink (NewEncoder.AddPort c v).Bytes = some ⟨[⟨c, w⟩], none, []⟩ ∧
      closer (slack / 100) v w := by
  have hf := fits16_of_abs_lt hv
  refine ⟨quant 100 v, ?_, quant_closer 100 v (by norm_num) (by norm_num) round64_hundred
    (abs_truncate_of_fits16 hf)⟩
  rw [DecodeDownlink_AddPort c v hc, floatToInt16_of_fits hf]
  rfl

theorem downlink_round_trip_witness :
    (2 : Nat) ≠ 0xFF ∧ |f64mul (-54.5) 100| < 32768 ∧
      ∃ w, DecodeDownlink (NewEncoder.AddPort 2 (-54.5)).Bytes = some ⟨[⟨2, w⟩], none, []⟩ ∧
        closer (slack / 100) (-54.5) w :=
  have hv : |f64mul (-54.5) 100| < 32768 := by
    rw [f64mul_example_analog, abs_lt]; constructor <;> norm_num
  ⟨by decide, hv, downlink_round_trip 2 (-54.5) (by decide) hv⟩

/-! ## The layout written by the encoder -/

theorem putInt16_eq_be16 (n : Int) (h1 : -32768 ≤ n) (h2 : n ≤ 32767) :
    putInt16 n = be16 n := by
  simp only [putInt16, putUint16, be16, List.cons.injEq, and_true]
  constructor <;> split <;> omega

theorem putUint16_eq_be16 (v : Nat) (h : v < 65536) : putUint16 v = be16 (v : Int) := by
  simp only [putUint16, be16, List.cons.injEq, and_true]
  constructor <;> split <;> omega

theorem byte_shift16 (n : Int) : byte (n >>> (16 : Nat)) = (n / 65536 % 256).toNat := by
  simp only [byte, Int.shiftRight_eq_div_pow]
  norm_num

theorem byte_shift8 (n : Int) : byte (n >>> (8 : Nat)) = (n / 256 % 256).toNat := by
  simp only [byte, Int.shiftRight_eq_div_pow]
  norm_num

theorem gpsBytes_eq_low24 (n : Int) :
    [byte (n >>> (16 : Nat)), byte (n >>> (8 : Nat)), byte n] = low24 n := by
  rw [byte_shift16, byte_shift8]
  rfl

theorem low24_eq_be24 (n : Int) (h1 : -8388608 ≤ n) (h2 : n ≤ 8388607) : low24 n = be24 n := by
  simp only [low24, be24, List.cons.injEq, and_true]
  refine ⟨?_, ?_, ?_⟩ <;> split <;> omega

theorem low24_floatToInt32 {x : ℚ} (h : fits32 x) :
    low24 (floatToInt32 x) = low24 (truncate x) := by
  unfold floatToInt32
  rw [Cvt64Fto32_of_fits h]

theorem AddGPS_Bytes (e : encoder) (c : Nat) (la lo al : ℚ) :
    (e.AddGPS c la lo al).Bytes =
      e.Bytes ++ c :: GPS ::
        (low24 (floatToInt32 (f64mul la 10000)) ++ low24 (floatToInt32 (f64mul lo 10000)) ++
          low24 (floatToInt32 (f64mul al 100))) := by
  have h1 := gpsBytes_eq_low24 (floatToInt32 (f64mul la 10000))
  have h2 := gpsBytes_eq_low24 (floatToInt32 (f64mul lo 10000))
  have h3 := gpsBytes_eq_low24 (floatToInt32 (f64mul al 100))
  rw [← h1, ← h2, ← h3]
  simp [encoder.AddGPS, encoder.WriteByte, encoder.Bytes]

theorem AddGPS_Bytes_of_fits (e : encoder) (c : Nat) (la lo al : ℚ)
    (h1 : fits32 (f64mul la 10000)) (h2 : fits32 (f64mul lo 10000))
    (h3 : fits32 (f64mul al 100)) :
    (e.AddGPS c la lo al).Bytes =
      e.Bytes ++ c :: GPS ::
        (low24 (truncate (f64mul la 10000)) ++ low24 (truncate (f64mul lo 10000)) ++
          low24 (truncate (f64mul al 100))) := by
  rw [AddGPS_Bytes, low24_floatToInt32 h1, low24_floatToInt32 h2, low24_floatToInt32 h3]

theorem fits32_of_fits24 {x : ℚ} (h : fits24 x) : fits32 x := by
  unfold fits24 at h
  exact ⟨by omega, by omega⟩

theorem putInt16_floatToInt16 {x : ℚ} (h : fits16 x) :
    putInt16 (floatToInt16 x) = be16 (truncate x) := by
  rw [floatToInt16_of_fits h, putInt16_eq_be16 _ h.1 h.2]

theorem Add_unitLayout (call : UplinkEvent) (h : Fits call) :
    (NewEncoder.Add call).Bytes = unitLayout call := by
  cases call with
  | DigitalInput c v => rfl
  | DigitalOutput c v => rfl
  | Presence c v => rfl
  | Luminosity c v =>
    simp only [Fits] at h
    simp only [unitLayout, ← putUint16_eq_be16 v h]
    rfl
  | AnalogInput c v =>
    simp only [Fits] at h
    simp only [unitLayout, ← putInt16_floatToInt16 h]
    rfl
  | AnalogOutput c v =>
    simp only [Fits] at h
    simp only [unitLayout, ← putInt16_floatToInt16 h]
    rfl
  | Temperature c v =>
    simp only [Fits] at h
    simp only [unitLayout, ← putInt16_floatToInt16 h]
    rfl
  | BarometricPressure c v =>
    simp only [Fits] at h
    simp only [unitLayout, ← putInt16_floatToInt16 h]
    rfl
  | RelativeHumidity c v =>
    simp only [Fits] at h
    have e : floatToUint8 (f64mul v 2) = (truncate (f64mul v 2)).toNat := by
      have := floatToUint8_of_fits h
      omega
    simp only [unitLayout, ← e]
    rfl
  | Accelerometer c x y z =>
    simp only [Fits] at h
    simp only [unitLayout, ← putInt16_floatToInt16 h.1, ← putInt16_floatToInt16 h.2.1,
      ← putInt16_floatToInt16 h.2.2]
    rfl
  | Gyrometer c x y z =>
    simp only [Fits] at h
    simp only [unitLayout, ← putInt16_floatToInt16 h.1, ← putInt16_floatToInt16 h.2.1,
      ← putInt16_floatToInt16 h.2.2]
    rfl
  | GPS c la lo al =>
    simp only [Fits] at h
    obtain ⟨hx, hy, hz⟩ := h
    have := AddGPS_Bytes_of_fits NewEncoder c la lo al (fits32_of_fits24 hx)
      (fits32_of_fits24 hy) (fits32_of_fits24 hz)
    simp only [unitLayout, ← low24_eq_be24 _ hx.1 hx.2, ← low24_eq_be24 _ hy.1 hy.2,
      ← low24_eq_be24 _ hz.1 hz.2]
    exact this

theorem truncate_towardZero (x : ℚ) : TowardZero x (truncate x) := by
  unfold TowardZero truncate
  constructor
  · intro h
    rw [if_pos h]
    exact ⟨Int.floor_le x, Int.lt_floor_add_one x⟩
  · intro h
    rw [if_neg (not_le.mpr h)]
    have h1 := Int.ceil_lt_add_one x
    exact ⟨by linarith, Int.le_ceil x⟩

theorem truncate_abs_le (x : ℚ) : |(truncate x : ℚ)| ≤ |x| := by
  obtain ⟨hp, hn⟩ := truncate_towardZero x
  by_cases h : 0 ≤ x
  · obtain ⟨h1, _⟩ := hp h
    have h0 : (0 : ℚ) ≤ (truncate x : ℚ) := by
      unfold truncate
      rw [if_pos h]
      exact_mod_cast Int.floor_nonneg.mpr h
    rw [abs_of_nonneg h0, abs_of_nonneg h]
    exact h1
  · have hx := not_le.mp h
    obtain ⟨_, h2⟩ := hn hx
    have h0 : (truncate x : ℚ) ≤ 0 := by
      unfold truncate
      rw [if_neg h]
      have : ⌈x⌉ ≤ 0 := Int.ceil_le.mpr (by exact_mod_cast hx.le)
      exact_mod_cast this
    rw [abs_of_nonpos h0, abs_of_neg hx]
    linarith

theorem Add_unitLayout_append (e : encoder) (call : UplinkEvent) (h : Fits call) :
    (e.Add call).Bytes = e.Bytes ++ unitLayout call := by
  rw [Add_Bytes, Add_unitLayout call h]

theorem unitLayout_of_Exact (call : UplinkEvent) (h : Exact call) :
    unitLayout call = specLayout call := by
  cases call <;> simp only [Exact, exactProduct] at h <;>
    simp only [unitLayout, specLayout, h]

theorem specLayout_gyrometer_example :
    specLayout (.Gyrometer 11 3.55 5.61 (-4.10)) = [11, 134, 1, 99, 2, 49, 254, 102] := by
  have h1 : truncate ((3.55 : ℚ) * 100) = 355 := truncate_eq _ _ (Or.inl (by norm_num))
  have h2 : truncate ((5.61 : ℚ) * 100) = 561 := truncate_eq _ _ (Or.inl (by norm_num))
  have h3 : truncate ((-4.10 : ℚ) * 100) = -410 := truncate_eq _ _ (Or.inr (by norm_num))
  simp only [specLayout, h1, h2, h3]
  decide

/-- C13 (the code at the failing input). Uplink encode layout: for every
encoder state, channel and in-range value, each `Add...` call appends exactly
`[channel, type tag]` followed by the raw integer(s) big-endian at the width
of the type, in two's complement for the signed fields, the raw integer being
the `float64` product of the value and the scale with the fraction discarded
toward zero; where that product is exact, this is the layout the claim gives.
The `TestEncode` calls `AddAnalogOutput(4, -54.5)`,
`AddTemperature(7, -15.65)`, `AddRelativeHumidity(8, 49.65)` and
`AddAccelerometer(9, -0.424, 0.015, 1.666)` write `{4,3,234,182}`,
`{7,103,255,100}`, `{8,104,99}` and `{9,113,254,88,0,15,6,130}`. But the
`TestEncode` call `AddGyrometer(11, 3.55, 5.61, -4.10)` writes
`{11,134,1,99,2,49,254,103}`, raw `-409` for the `float64` product
`-409.99999999999994`, where the value times the scale is `-410` and the
layout of the claim, which `TestEncode` expects, is
`{11,134,1,99,2,49,254,102}`. -/
theorem uplink_encode_layout :
    (∀ (e : encoder) (call : UplinkEvent), Fits call →
      (e.Add call).Bytes = e.Bytes ++ unitLayout call) ∧
    (∀ (e : encoder) (call : UplinkEvent), Fits call → Exact call →
      (e.Add call).Bytes = e.Bytes ++ specLayout call) ∧
    (∀ x : ℚ, TowardZero x (truncate x)) ∧
    (NewEncoder.AddAnalogOutput 4 (-54.5)).Bytes = [4, 3, 234, 182] ∧
    (NewEncoder.AddTemperature 7 (-15.65)).Bytes = [7, 103, 255, 100] ∧
    (NewEncoder.AddRelativeHumidity 8 49.65).Bytes = [8, 104, 99] ∧
    (NewEncoder.AddAccelerometer 9 (-0.424) 0.015 1.666).Bytes =
      [9, 113, 254, 88, 0, 15, 6, 130] ∧
    (NewEncoder.AddGyrometer 11 3.55 5.61 (-4.10)).Bytes =
      [11, 134, 1, 99, 2, 49, 254, 103] ∧
    specLayout (.Gyrometer 11 3.55 5.61 (-4.10)) = [11, 134, 1, 99, 2, 49, 254, 102] := by
  refine ⟨Add_unitLayout_append, ?_, truncate_towardZero, ?_, ?_, ?_, ?_, ?_,
    specLayout_gyrometer_example⟩
  · intro e call hf hx
    rw [Add_unitLayout_append e call hf, unitLayout_of_Exact call hx]
  · have hf : Fits (.AnalogOutput 4 (-54.5)) := by
      simp only [Fits, fits16, trunc_example_analog]; decide
    have := Add_unitLayout _ hf
    simp only [unitLayout, trunc_example_analog] at this
    exact this
  · have hf : Fits (.Temperature 7 (-15.65)) := by
      simp only [Fits, fits16, trunc_example_temperature]; decide
    have := Add_unitLayout _ hf
    simp only [unitLayout, trunc_example_temperature] at this
    exact this
  · have hf : Fits (.RelativeHumidity 8 49.65) := by
      simp only [Fits, fitsU8, trunc_example_humidity]; decide
    have := Add_unitLayout _ hf
    simp only [unitLayout, trunc_example_humidity] at this
    exact this
  · have hf : Fits (.Accelerometer 9 (-0.424) 0.015 1.666) := by
      simp only [Fits, fits16, trunc_example_x, trunc_example_y, trunc_example_z]; decide
    have := Add_unitLayout _ hf
    simp only [unitLayout, trunc_example_x, trunc_example_y, trunc_example_z] at this
    exact this
  · have := Add_unitLayout _ Fits_gyrometer_example
    simp only [unitLayout, trunc_gyro_x, trunc_gyro_y, trunc_gyro_z] at this
    exact this

theorem uplink_encode_layout_witness :
    Fits (.Luminosity 5 500) ∧
      ((NewEncoder.AddDigitalInput 1 255).Add (.Luminosity 5 500)).Bytes =
        (NewEncoder.AddDigitalInput 1 255).Bytes ++ unitLayout (.Luminosity 5 500) ∧
      unitLayout (.Luminosity 5 500) = [5, 101, 1, 244] :=
  have hf : Fits (.Luminosity 5 500) := by show (500 : Nat) < 65536; decide
  ⟨hf, uplink_encode_layout.1 _ _ hf, by decide⟩

/-- C14 (as stated, refuted). A value whose scaled product is 1.9 is written
as raw 1, not as the nearest integer 2: `AddAnalogInput(3, 0.019)` writes
`{3, 2, 0, 1}`. -/
theorem encode_rounding_refuted :
    (0.019 : ℚ) * 100 = 1.9 ∧ round ((0.019 : ℚ) * 100) = 2 ∧
      (NewEncoder.AddAnalogInput 3 0.019).Bytes = [3, 2, 0, 1] ∧
      (NewEncoder.AddAnalogInput 3 0.019).Bytes ≠ 3 :: AnalogInput :: be16 2 := by
  have hf : Fits (.AnalogInput 3 0.019) := by
    simp only [Fits, fits16, trunc_analog_019]; decide
  have hb : (NewEncoder.AddAnalogInput 3 0.019).Bytes = [3, 2, 0, 1] := by
    have := Add_unitLayout _ hf
    simp only [unitLayout, trunc_analog_019] at this
    exact this
  refine ⟨by norm_num, ?_, hb, ?_⟩
  · rw [round_eq, Int.floor_eq_iff]
    constructor <;> norm_num
  · rw [hb]
    decide

/-- C14 (amended). Encode truncation: for every uplink type and every in-range
physical value whose `float64` product with the scale is exact, the raw
integer written by the encoder is the value times the scale with its
fractional part discarded toward zero, not the nearest integer: the unit
written is the layout of those truncated integers, and a truncated integer `n`
of `x` satisfies `n ≤ x < n + 1` for `x ≥ 0`, `n - 1 < x ≤ n` for `x < 0`, and
`|n| ≤ |x|`. -/
theorem encode_discards_fraction (call : UplinkEvent) (h : Fits call) (hx : Exact call) :
    (NewEncoder.Add call).Bytes = specLayout call ∧
    (∀ x : ℚ, TowardZero x (truncate x) ∧ |(truncate x : ℚ)| ≤ |x|) ∧
    (∀ x : ℚ, fits16 x → floatToInt16 x = truncate x) ∧
    (∀ x : ℚ, fitsU8 x → (floatToUint8 x : Int) = truncate x) ∧
    (∀ x : ℚ, fits32 x → floatToInt32 x = truncate x) := by
  refine ⟨?_, fun x => ⟨truncate_towardZero x, truncate_abs_le x⟩,
    fun x hx => floatToInt16_of_fits hx, fun x hx => floatToUint8_of_fits hx,
    fun x hx => Cvt64Fto32_of_fits hx⟩
  rw [Add_unitLayout call h, unitLayout_of_Exact call hx]

theorem encode_discards_fraction_witness :
    Fits (.Temperature 3 0.1875) ∧ Exact (.Temperature 3 0.1875) ∧
      (NewEncoder.Add (.Temperature 3 0.1875)).Bytes = specLayout (.Temperature 3 0.1875) ∧
      (0.1875 : ℚ) * 10 = 1.875 ∧ truncate ((0.1875 : ℚ) * 10) = 1 ∧
      specLayout (.Temperature 3 0.1875) = [3, 103, 0, 1] :=
  have ht : truncate ((0.1875 : ℚ) * 10) = 1 := truncate_eq _ _ (Or.inl (by norm_num))
  have hf : Fits (.Temperature 3 0.1875) := by
    simp only [Fits, fits16, trunc_temp_1875]; decide
  have hx : Exact (.Temperature 3 0.1875) := by
    simp only [Exact, exactProduct, f64mul_temp_1875]; norm_num
  ⟨hf, hx, (encode_discards_fraction _ hf hx).1, by norm_num, ht, by
    simp only [specLayout, ht]; decide⟩

theorem wrap24_spec (n : Int) :
    (-8388608 ≤ wrap24 n ∧ wrap24 n < 8388608) ∧ (wrap24 n - n) % 16777216 = 0 ∧
    (∀ m : Int, -8388608 ≤ m → m < 8388608 → (m - n) % 16777216 = 0 → m = wrap24 n) ∧
    (-8388608 ≤ n → n < 8388608 → wrap24 n = n) := by
  unfold wrap24
  refine ⟨by omega, by omega, ?_, by omega⟩
  intro m h1 h2 h3
  omega

theorem gpsField_low24 (n : Int) : gpsField (low24 n) = wrap24 n := by
  rw [← gpsBytes_eq_low24, gpsField_bytes]
  rfl

theorem DecodeUplink_AddGPS (c : Nat) (la lo al : ℚ)
    (h1 : fits32 (f64mul la 10000)) (h2 : fits32 (f64mul lo 10000))
    (h3 : fits32 (f64mul al 100)) :
    DecodeUplink (NewEncoder.AddGPS c la lo al).Bytes =
      some ⟨[.GPS c ((wrap24 (truncate (f64mul la 10000)) : ℚ) / 10000)
        ((wrap24 (truncate (f64mul lo 10000)) : ℚ) / 10000)
        ((wrap24 (truncate (f64mul al 100)) : ℚ) / 100)], none, []⟩ := by
  have e : ∀ x : ℚ, fits32 x →
      (floatToInt32 x + 8388608) % 16777216 - 8388608 = wrap24 (truncate x) := by
    intro x hx
    unfold floatToInt32 wrap24
    rw [Cvt64Fto32_of_fits hx]
  have h := DecodeUplink_Add_single (.GPS c la lo al)
  simp only [echo, e _ h1, e _ h2, e _ h3] at h
  exact h

theorem fits32_of_eq {x : ℚ} {n : Int} (h : truncate x = n) (h1 : -2147483648 ≤ n)
    (h2 : n ≤ 2147483647) : fits32 x := by
  unfold fits32
  rw [h]
  exact ⟨h1, h2⟩

/-- C15 (the code at the failing input). GPS encode packing: for every encoder
state, channel and triple of values whose scaled integers (the `float64`
products `lat*10000`, `lon*10000`, `alt*100`, fraction discarded) fit 32 bits,
`AddGPS` appends exactly 11 bytes: the channel, 136, then for latitude,
longitude and altitude in that order the bytes `(n >> 16) & 0xFF`,
`(n >> 8) & 0xFF`, `n & 0xFF`, the low 3 bytes of `n` big-endian. Decoding the
unit yields for each field the unique `m` in `[-2^23, 2^23)` congruent to `n`
modulo `2^24`: values outside the 24-bit range wrap silently, values inside it
are reproduced exactly. But `AddGPS(12, 52.3655, 4.8885, 21.54)` writes
`{12,136,7,253,135,0,190,244,0,8,106}`: the `float64` product `4.8885 * 10000`
is `48884.99999999999` and is written as `48884`, where the scaled integer of
the claim is `48885`, low bytes `{0,190,245}`, as `TestEncode` expects. -/
theorem gps_encode_packing :
    (∀ (e : encoder) (c : Nat) (la lo al : ℚ),
      fits32 (f64mul la 10000) → fits32 (f64mul lo 10000) → fits32 (f64mul al 100) →
      (e.AddGPS c la lo al).Bytes =
        e.Bytes ++ c :: 136 ::
          (low24 (truncate (f64mul la 10000)) ++ low24 (truncate (f64mul lo 10000)) ++
            low24 (truncate (f64mul al 100))) ∧
      (e.AddGPS c la lo al).Bytes.length = e.Bytes.length + 11 ∧
      DecodeUplink (NewEncoder.AddGPS c la lo al).Bytes =
        some ⟨[.GPS c ((wrap24 (truncate (f64mul la 10000)) : ℚ) / 10000)
          ((wrap24 (truncate (f64mul lo 10000)) : ℚ) / 10000)
          ((wrap24 (truncate (f64mul al 100)) : ℚ) / 100)], none, []⟩) ∧
    (∀ n : Int, (-8388608 ≤ wrap24 n ∧ wrap24 n < 8388608) ∧ (wrap24 n - n) % 16777216 = 0 ∧
      (∀ m : Int, -8388608 ≤ m → m < 8388608 → (m - n) % 16777216 = 0 → m = wrap24 n) ∧
      (-8388608 ≤ n → n < 8388608 → wrap24 n = n)) ∧
    (NewEncoder.AddGPS 12 52.3655 4.8885 21.54).Bytes =
      [12, 136, 7, 253, 135, 0, 190, 244, 0, 8, 106] ∧
    truncate (f64mul 4.8885 10000) = 48884 ∧
    truncate ((4.8885 : ℚ) * 10000) = 48885 ∧ low24 48885 = [0, 190, 245] := by
  refine ⟨?_, wrap24_spec, ?_, trunc_gps_lon, truncate_eq _ _ (Or.inl (by norm_num)),
    by decide⟩
  · intro e c la lo al h1 h2 h3
    refine ⟨AddGPS_Bytes_of_fits e c la lo al h1 h2 h3, ?_, DecodeUplink_AddGPS c la lo al h1 h2 h3⟩
    rw [AddGPS_Bytes]
    simp [low24]
  · have := AddGPS_Bytes_of_fits NewEncoder 12 52.3655 4.8885 21.54
      (fits32_of_eq trunc_gps_lat (by decide) (by decide))
      (fits32_of_eq trunc_gps_lon (by decide) (by decide))
      (fits32_of_eq trunc_gps_alt (by decide) (by decide))
    simp only [trunc_gps_lat, trunc_gps_lon, trunc_gps_alt] at this
    rw [this]
    decide

theorem round64_zero : round64 0 = 0 := roundTo_zero 53 (-1074)

theorem f64mul_zero (s : ℚ) : f64mul 0 s = 0 := by
  unfold f64mul
  rw [round64_zero, zero_mul, round64_zero]

theorem trunc_zero (s : ℚ) : truncate (f64mul 0 s) = 0 := by
  rw [f64mul_zero]
  exact truncate_eq _ _ (Or.inl (by norm_num))

theorem gps_encode_packing_witness :
    fits32 (f64mul 900 10000) ∧ fits32 (f64mul 0 10000) ∧ fits32 (f64mul 0 100) ∧
      DecodeUplink (NewEncoder.AddGPS 1 900 0 0).Bytes =
        some ⟨[.GPS 1 ((wrap24 (truncate (f64mul 900 10000)) : ℚ) / 10000)
          ((wrap24 (truncate (f64mul 0 10000)) : ℚ) / 10000)
          ((wrap24 (truncate (f64mul 0 100)) : ℚ) / 100)], none, []⟩ ∧
      wrap24 (truncate (f64mul 900 10000)) = -7777216 :=
  have f1 : fits32 (f64mul 900 10000) := fits32_of_eq trunc_gps_900 (by decide) (by decide)
  have f2 : fits32 (f64mul 0 10000) := fits32_of_eq (trunc_zero _) (by decide) (by decide)
  have f3 : fits32 (f64mul 0 100) := fits32_of_eq (trunc_zero _) (by decide) (by decide)
  ⟨f1, f2, f3, (gps_encode_packing.1 NewEncoder 1 900 0 0 f1 f2 f3).2.2, by
    rw [trunc_gps_900]; decide⟩

/-- C16 (the code at the failing input). Downlink encode layout: for every
encoder state, channel byte `c` and value `v` whose `float64` product `v * 100`
is below 32768 in magnitude, `AddPort(c, v)` appends exactly 3 bytes
`[c, hi, lo]`, `hi, lo` the big-endian two's-complement 16-bit encoding of that
product with the fraction discarded, with no type tag and no terminator byte.
`AddPort(1, 54.5)` writes `{1, 21, 74}` and `AddPort(2, -54.5)` writes
`{2, 234, 182}`. But `AddPort(1, -4.10)` writes `{1, 254, 103}`, raw `-409` for
the `float64` product `-409.99999999999994`, where the encoding of `v * 100`
with the fraction discarded, `-410`, is `{254, 102}`. -/
theorem downlink_encode_layout :
    (∀ (e : encoder) (c : Nat) (v : ℚ), |f64mul v 100| < 32768 →
      (e.AddPort c v).Bytes = e.Bytes ++ c :: be16 (truncate (f64mul v 100)) ∧
      (e.AddPort c v).Bytes.length = e.Bytes.length + 3) ∧
    (NewEncoder.AddPort 1 54.5).Bytes = [1, 21, 74] ∧
    (NewEncoder.AddPort 2 (-54.5)).Bytes = [2, 234, 182] ∧
    ((NewEncoder.AddPort 1 54.5).AddPort 2 (-54.5)).Bytes = [1, 21, 74, 2, 234, 182] ∧
    (NewEncoder.AddPort 1 (-4.10)).Bytes = [1, 254, 103] ∧
    truncate ((-4.10 : ℚ) * 100) = -410 ∧ be16 (-410) = [254, 102] := by
  have general : ∀ (e : encoder) (c : Nat) (v : ℚ), |f64mul v 100| < 32768 →
      (e.AddPort c v).Bytes = e.Bytes ++ c :: be16 (truncate (f64mul v 100)) ∧
      (e.AddPort c v).Bytes.length = e.Bytes.length + 3 := by
    intro e c v hv
    have hb : (e.AddPort c v).Bytes = e.Bytes ++ c :: be16 (truncate (f64mul v 100)) := by
      rw [AddPort_Bytes, putInt16_floatToInt16 (fits16_of_abs_lt hv)]
    refine ⟨hb, ?_⟩
    rw [hb]
    simp [be16]
  have a1 : |f64mul 54.5 100| < 32768 := by
    rw [f64mul_example_port, abs_lt]; constructor <;> norm_num
  have a2 : |f64mul (-54.5) 100| < 32768 := by
    rw [f64mul_example_analog, abs_lt]; constructor <;> norm_num
  have a3 : |f64mul (-4.10) 100| < 32768 := by
    rw [f64mul_gyro_z, abs_lt]; constructor <;> norm_num
  have b1 : (NewEncoder.AddPort 1 54.5).Bytes = [1, 21, 74] := by
    rw [(general NewEncoder 1 54.5 a1).1, trunc_example_port]
    decide
  refine ⟨general, b1, ?_, ?_, ?_, truncate_eq _ _ (Or.inr (by norm_num)), by decide⟩
  · rw [(general _ 2 (-54.5) a2).1, trunc_example_analog]
    decide
  · rw [(general _ 2 (-54.5) a2).1, b1, trunc_example_analog]
    decide
  · rw [(general _ 1 (-4.10) a3).1, trunc_gyro_z]
    decide

theorem downlink_encode_layout_witness :
    |f64mul 54.5 100| < 32768 ∧
      (NewEncoder.AddPort 1 54.5).Bytes =
        NewEncoder.Bytes ++ 1 :: be16 (truncate (f64mul 54.5 100)) :=
  have a1 : |f64mul 54.5 100| < 32768 := by
    rw [f64mul_example_port, abs_lt]; constructor <;> norm_num
  ⟨a1, (downlink_encode_layout.1 NewEncoder 1 54.5 a1).1⟩

theorem Add_length (call : UplinkEvent) :
    (NewEncoder.Add call).Bytes.length = 2 + payloadWidth (tagOf call) := by
  cases call <;>
    simp [encoder.Add, encoder.AddDigitalInput, encoder.AddDigitalOutput, encoder.AddAnalogInput,
      encoder.AddAnalogOutput, encoder.AddLuminosity, encoder.AddPresence, encoder.AddTemperature,
      encoder.AddRelativeHumidity, encoder.AddAccelerometer, encoder.AddBarometricPressure,
      encoder.AddGyrometer, encoder.AddGPS, encoder.WriteByte, encoder.WriteInt16,
      encoder.WriteUint16, encoder.Bytes, NewEncoder, putInt16, putUint16, tagOf, payloadWidth,
      DigitalInput, DigitalOutput, AnalogInput, AnalogOutput, Luminosity, Presence, Temperature,
      RelativeHumidity, Accelerometer, BarometricPressure, Gyrometer, GPS]

/-- C17. The encoder is append-only and order-preserving: for every encoder
state with contents `B` and every `Add...` call, of any type and with any
arguments, the contents after the call are `B` followed by exactly the bytes
of that one unit, which do not depend on `B`; the length grows by exactly 2
plus the payload width of the type (3 for digital, presence and humidity, 4
for analog, luminosity, temperature and pressure, 8 for accelerometer and
gyrometer, 11 for GPS), and by 3 for a downlink port. -/
theorem encoder_append_only (e : encoder) (call : UplinkEvent) (c : Nat) (v : ℚ) :
    (e.Add call).Bytes = e.Bytes ++ (NewEncoder.Add call).Bytes ∧
    (e.Add call).Bytes.length = e.Bytes.length + 2 + payloadWidth (tagOf call) ∧
    (e.AddPort c v).Bytes = e.Bytes ++ (NewEncoder.AddPort c v).Bytes ∧
    (e.AddPort c v).Bytes.length = e.Bytes.length + 3 ∧
    (∀ t ∈ [DigitalInput, DigitalOutput, Presence, RelativeHumidity], 2 + payloadWidth t = 3) ∧
    (∀ t ∈ [AnalogInput, AnalogOutput, Luminosity, Temperature, BarometricPressure],
      2 + payloadWidth t = 4) ∧
    (∀ t ∈ [Accelerometer, Gyrometer], 2 + payloadWidth t = 8) ∧
    2 + payloadWidth GPS = 11 := by
  refine ⟨Add_Bytes e call, ?_, ?_, ?_, by decide, by decide, by decide, by decide⟩
  · rw [Add_Bytes, List.length_append, Add_length]
    omega
  · rw [AddPort_Bytes, AddPort_Bytes]
    rfl
  · rw [AddPort_Bytes]
    simp [putInt16, putUint16]

/-! ## Values out of range -/

theorem floatToInt16_of_fits32 {x : ℚ} (h : fits32 x) : floatToInt16 x = wrap16 (truncate x) := by
  unfold floatToInt16 wrap16
  rw [Cvt64Fto32_of_fits h]

theorem putInt16_low16 (n : Int) : putInt16 (wrap16 n) = low16 n := by
  simp only [putInt16, putUint16, wrap16, low16, List.cons.injEq, and_true]
  constructor <;> omega

theorem putInt16_floatToInt16_low16 {x : ℚ} (h : fits32 x) :
    putInt16 (floatToInt16 x) = low16 (truncate x) := by
  rw [floatToInt16_of_fits32 h, putInt16_low16]

theorem floatToInt16_of_not_fits32 {x : ℚ} (h : ¬ fits32 x) : floatToInt16 x = 0 := by
  unfold fits32 at h
  unfold floatToInt16 Cvt64Fto32
  rw [if_neg h]
  decide

theorem wrap16_spec (n : Int) :
    (-32768 ≤ wrap16 n ∧ wrap16 n ≤ 32767) ∧ (wrap16 n - n) % 65536 = 0 ∧
    ((n < -32768 ∨ 32767 < n) → wrap16 n ≠ n) := by
  unfold wrap16
  refine ⟨by omega, by omega, ?_⟩
  intro h
  omega

/-- C18 (as stated, refuted). `AddTemperature(1, 300000000)` has the scaled
integer `n = 3000000000`, outside `[-32768, 32767]`, whose two bytes modulo
`2^16` are `{94, 0}` (the wrapped value is 24064); the call writes
`{1, 103, 0, 0}` and the unit decodes to `Temperature(1, 0)`: the conversion
of a value that does not fit 32 bits gives `0x80000000`, whose low 16 bits are
zero. -/
theorem overflow_wraparound_refuted :
    truncate (f64mul 300000000 10) = 3000000000 ∧
    low16 3000000000 = [94, 0] ∧ wrap16 3000000000 = 24064 ∧
    (NewEncoder.AddTemperature 1 300000000).Bytes = [1, 103, 0, 0] ∧
    DecodeUplink (NewEncoder.AddTemperature 1 300000000).Bytes =
      some ⟨[.Temperature 1 0], none, []⟩ := by
  have hn : ¬ fits32 (f64mul 300000000 10) := by
    simp only [fits32, trunc_temp_3e8]; decide
  have hb : (NewEncoder.AddTemperature 1 300000000).Bytes =
      1 :: Temperature :: putInt16 (floatToInt16 (f64mul 300000000 10)) := rfl
  refine ⟨trunc_temp_3e8, by decide, by decide, ?_, ?_⟩
  · rw [hb, floatToInt16_of_not_fits32 hn]
    decide
  · have hd := DecodeUplink_Add_single (.Temperature 1 300000000)
    simp only [echo, floatToInt16_of_not_fits32 hn] at hd
    have hq : (((0 : Int) : ℚ) / 10) = 0 := by norm_num
    rw [hq] at hd
    exact hd

/-- C18 (amended). Silent overflow wraparound: for every scaled signed 16-bit
type (analog input/output, temperature, barometric pressure, accelerometer,
gyrometer, downlink port) and every value whose scaled integer `n` (the
`float64` product, fraction discarded) fits 32 bits, in particular one with
`n` outside `[-32768, 32767]`, the `Add...` call writes the two bytes of `n`
modulo `2^16`, and decoding delivers the wrapped value, the integer of
`[-32768, 32767]` congruent to `n`, divided by the scale, with no error.
`AddTemperature(1, 4000)` writes `{1, 103, 156, 64}` and decodes to
-2553.6. -/
theorem overflow_wraparound :
    (∀ (c : Nat) (v : ℚ), fits32 (f64mul v 100) →
      ((NewEncoder.AddAnalogInput c v).Bytes =
          c :: AnalogInput :: low16 (truncate (f64mul v 100)) ∧
        DecodeUplink (NewEncoder.AddAnalogInput c v).Bytes =
          some ⟨[.AnalogInput c ((wrap16 (truncate (f64mul v 100)) : ℚ) / 100)], none, []⟩) ∧
      ((NewEncoder.AddAnalogOutput c v).Bytes =
          c :: AnalogOutput :: low16 (truncate (f64mul v 100)) ∧
        DecodeUplink (NewEncoder.AddAnalogOutput c v).Bytes =
          some ⟨[.AnalogOutput c ((wrap16 (truncate (f64mul v 100)) : ℚ) / 100)], none, []⟩) ∧
      ((NewEncoder.AddPort c v).Bytes = c :: low16 (truncate (f64mul v 100)) ∧
        (c ≠ 0xFF → DecodeDownlink (NewEncoder.AddPort c v).Bytes =
          some ⟨[⟨c, (wrap16 (truncate (f64mul v 100)) : ℚ) / 100⟩], none, []⟩))) ∧
    (∀ (c : Nat) (v : ℚ), fits32 (f64mul v 10) →
      ((NewEncoder.AddTemperature c v).Bytes =
          c :: Temperature :: low16 (truncate (f64mul v 10)) ∧
        DecodeUplink (NewEncoder.AddTemperature c v).Bytes =
          some ⟨[.Temperature c ((wrap16 (truncate (f64mul v 10)) : ℚ) / 10)], none, []⟩) ∧
      ((NewEncoder.AddBarometricPressure c v).Bytes =
          c :: BarometricPressure :: low16 (truncate (f64mul v 10)) ∧
        DecodeUplink (NewEncoder.AddBarometricPressure c v).Bytes =
          some ⟨[.BarometricPressure c ((wrap16 (truncate (f64mul v 10)) : ℚ) / 10)],
            none, []⟩)) ∧
    (∀ (c : Nat) (x y z : ℚ),
      fits32 (f64mul x 1000) → fits32 (f64mul y 1000) → fits32 (f64mul z 1000) →
      (NewEncoder.AddAccelerometer c x y z).Bytes =
        c :: Accelerometer :: (low16 (truncate (f64mul x 1000)) ++
          low16 (truncate (f64mul y 1000)) ++ low16 (truncate (f64mul z 1000))) ∧
      DecodeUplink (NewEncoder.AddAccelerometer c x y z).Bytes =
        some ⟨[.Accelerometer c ((wrap16 (truncate (f64mul x 1000)) : ℚ) / 1000)
          ((wrap16 (truncate (f64mul y 1000)) : ℚ) / 1000)
          ((wrap16 (truncate (f64mul z 1000)) : ℚ) / 1000)], none, []⟩) ∧
    (∀ (c : Nat) (x y z : ℚ),
      fits32 (f64mul x 100) → fits32 (f64mul y 100) → fits32 (f64mul z 100) →
      (NewEncoder.AddGyrometer c x y z).Bytes =
        c :: Gyrometer :: (low16 (truncate (f64mul x 100)) ++
          low16 (truncate (f64mul y 100)) ++ low16 (truncate (f64mul z 100))) ∧
      DecodeUplink (NewEncoder.AddGyrometer c x y z).Bytes =
        some ⟨[.Gyrometer c ((wrap16 (truncate (f64mul x 100)) : ℚ) / 100)
          ((wrap16 (truncate (f64mul y 100)) : ℚ) / 100)
          ((wrap16 (truncate (f64mul z 100)) : ℚ) / 100)], none, []⟩) ∧
    (∀ n : Int, (-32768 ≤ wrap16 n ∧ wrap16 n ≤ 32767) ∧ (wrap16 n - n) % 65536 = 0 ∧
      ((n < -32768 ∨ 32767 < n) → wrap16 n ≠ n)) ∧
    ((NewEncoder.AddTemperature 1 4000).Bytes = [1, 103, 156, 64] ∧
      DecodeUplink (NewEncoder.AddTemperature 1 4000).Bytes =
        some ⟨[.Temperature 1 (-2553.6)], none, []⟩) := by
  have bytes1 : ∀ (c t : Nat) (x : ℚ), fits32 x →
      c :: t :: putInt16 (floatToInt16 x) = c :: t :: low16 (truncate x) := by
    intro c t x hx
    rw [putInt16_floatToInt16_low16 hx]
  have bytes3 : ∀ (c t : Nat) (x y z : ℚ), fits32 x → fits32 y → fits32 z →
      c :: t :: ((putInt16 (floatToInt16 x) ++ putInt16 (floatToInt16 y)) ++
        putInt16 (floatToInt16 z)) =
      c :: t :: (low16 (truncate x) ++ low16 (truncate y) ++ low16 (truncate z)) := by
    intro c t x y z hx hy hz
    rw [putInt16_floatToInt16_low16 hx, putInt16_floatToInt16_low16 hy,
      putInt16_floatToInt16_low16 hz]
  have h4000 : fits32 (f64mul 4000 10) := fits32_of_eq trunc_temp_4000 (by decide) (by decide)
  refine ⟨?_, ?_, ?_, ?_, wrap16_spec, ?_, ?_⟩
  · intro c v hv
    refine ⟨⟨bytes1 c AnalogInput _ hv, ?_⟩, ⟨bytes1 c AnalogOutput _ hv, ?_⟩, ?_, ?_⟩
    · have h := DecodeUplink_Add_single (.AnalogInput c v)
      simp only [echo, floatToInt16_of_fits32 hv] at h
      exact h
    · have h := DecodeUplink_Add_single (.AnalogOutput c v)
      simp only [echo, floatToInt16_of_fits32 hv] at h
      exact h
    · rw [AddPort_Bytes, putInt16_floatToInt16_low16 hv]
      rfl
    · intro hc
      rw [DecodeDownlink_AddPort c v hc, floatToInt16_of_fits32 hv]
  · intro c v hv
    refine ⟨⟨bytes1 c Temperature _ hv, ?_⟩, bytes1 c BarometricPressure _ hv, ?_⟩
    · have h := DecodeUplink_Add_single (.Temperature c v)
      simp only [echo, floatToInt16_of_fits32 hv] at h
      exact h
    · have h := DecodeUplink_Add_single (.BarometricPressure c v)
      simp only [echo, floatToInt16_of_fits32 hv] at h
      exact h
  · intro c x y z hx hy hz
    refine ⟨bytes3 c Accelerometer _ _ _ hx hy hz, ?_⟩
    have h := DecodeUplink_Add_single (.Accelerometer c x y z)
    simp only [echo, floatToInt16_of_fits32 hx, floatToInt16_of_fits32 hy,
      floatToInt16_of_fits32 hz] at h
    exact h
  · intro c x y z hx hy hz
    refine ⟨bytes3 c Gyrometer _ _ _ hx hy hz, ?_⟩
    have h := DecodeUplink_Add_single (.Gyrometer c x y z)
    simp only [echo, floatToInt16_of_fits32 hx, floatToInt16_of_fits32 hy,
      floatToInt16_of_fits32 hz] at h
    exact h
  · have hb : (NewEncoder.AddTemperature 1 4000).Bytes =
        1 :: Temperature :: putInt16 (floatToInt16 (f64mul 4000 10)) := rfl
    rw [hb, putInt16_floatToInt16_low16 h4000, trunc_temp_4000]
    decide
  · have hd := DecodeUplink_Add_single (.Temperature 1 4000)
    have hw : floatToInt16 (f64mul 4000 10) = -25536 := by
      rw [floatToInt16_of_fits32 h4000, trunc_temp_4000]
      decide
    simp only [echo, hw] at hd
    have hq : (((-25536 : Int) : ℚ) / 10) = -2553.6 := by norm_num
    rw [hq] at hd
    exact hd

/-- C19. Relative humidity is an unsigned byte in 0.5 percent steps: for every
payload byte `b` in `0..255`, decoding a relative-humidity unit delivers
`RelativeHumidity(channel, b / 2)`, a value in `[0, 127.5]`; and
`AddRelativeHumidity(channel, b / 2)` writes exactly the byte `b`, so the unit
round-trips exactly over the whole byte range. -/
theorem relative_humidity_unsigned (e : encoder) (c b : Nat) (hb : b < 256) :
    DecodeUplink [c, RelativeHumidity, b] =
      some ⟨[.RelativeHumidity c ((b : ℚ) / 2)], none, []⟩ ∧
    (0 ≤ (b : ℚ) / 2 ∧ (b : ℚ) / 2 ≤ 127.5) ∧
    (e.AddRelativeHumidity c ((b : ℚ) / 2)).Bytes = e.Bytes ++ [c, RelativeHumidity, b] ∧
    DecodeUplink (NewEncoder.AddRelativeHumidity c ((b : ℚ) / 2)).Bytes =
      some ⟨[.RelativeHumidity c ((b : ℚ) / 2)], none, []⟩ := by
  have hr : round64 ((b : ℚ) / 2) = (b : ℚ) / 2 := by
    have h := roundTo_exact 53 (-1074) (b : Int) (-1)
      (by rw [abs_of_nonneg (by omega)]; omega) (by norm_num)
    have e : ((b : Int) : ℚ) * 2 ^ (-1 : Int) = (b : ℚ) / 2 := by
      rw [zpow_neg, zpow_one]; push_cast; ring
    rw [e] at h
    exact h
  have hp : f64mul ((b : ℚ) / 2) 2 = (b : ℚ) := by
    have e : (b : ℚ) / 2 * 2 = ((b : Int) : ℚ) := by push_cast; ring
    unfold f64mul
    rw [hr, round64_two, e, round64_intCast _ (by rw [abs_of_nonneg (by omega)]; omega)]
    push_cast
    rfl
  have ht : truncate (f64mul ((b : ℚ) / 2) 2) = (b : Int) := by
    rw [hp]
    exact_mod_cast truncate_intCast (b : Int)
  have hu : floatToUint8 (f64mul ((b : ℚ) / 2) 2) = b := by
    have hf : fitsU8 (f64mul ((b : ℚ) / 2) 2) := by
      unfold fitsU8; rw [ht]; omega
    have := floatToUint8_of_fits hf
    rw [ht] at this
    exact_mod_cast this
  have hbytes : ∀ e : encoder,
      (e.AddRelativeHumidity c ((b : ℚ) / 2)).Bytes = e.Bytes ++ [c, RelativeHumidity, b] := by
    intro e
    have h0 : (e.AddRelativeHumidity c ((b : ℚ) / 2)).Bytes =
        (e.Bytes ++ [c] ++ [RelativeHumidity]) ++ [floatToUint8 (f64mul ((b : ℚ) / 2) 2)] := rfl
    rw [h0, hu]
    simp
  have hdec : DecodeUplink [c, RelativeHumidity, b] =
      some ⟨[.RelativeHumidity c ((b : ℚ) / 2)], none, []⟩ := by
    rw [DecodeUplink_RelativeHumidity, DecodeUplink_nil]; rfl
  refine ⟨hdec, ⟨by positivity, ?_⟩, hbytes e, ?_⟩
  · have : (b : ℚ) ≤ 255 := by exact_mod_cast Nat.le_of_lt_succ hb
    norm_num
    linarith
  · rw [hbytes NewEncoder]
    exact hdec

theorem relative_humidity_unsigned_witness :
    (255 : Nat) < 256 ∧
      DecodeUplink [8, RelativeHumidity, 255] =
        some ⟨[.RelativeHumidity 8 (((255 : Nat) : ℚ) / 2)], none, []⟩ ∧
      (NewEncoder.AddRelativeHumidity 8 (((255 : Nat) : ℚ) / 2)).Bytes =
        NewEncoder.Bytes ++ [8, RelativeHumidity, 255] :=
  have h := relative_humidity_unsigned NewEncoder 8 255 (by decide)
  ⟨by decide, h.1, h.2.2.1⟩

theorem round32_pressure_example : round32 (-3276.8 : ℚ) = -13421773 / 4096 := by
  rw [round32_eq_of (-3276.8) 11 (-13421773) (by norm_num) (by norm_num [le_abs])
    (by norm_num [abs_lt]) (by norm_num [abs_lt])]
  norm_num

/-- C20 (the code at the failing input). Barometric pressure is decoded as a
signed 16-bit value, not an unsigned one: for payload bytes `hi, lo` with
`hi ≥ 0x80` the value delivered is `(256*hi + lo - 65536) / 10`, which is
negative; the unit `{10, 115, 0x80, 0x00}` delivers -3276.8 where the
unsigned reading is 3276.8, in the decoder of either generation (the older
one delivers the `float32` nearest to -3276.8, which is -3276.800048828125). -/
theorem barometric_pressure_signed :
    (∀ c hi lo : Nat, hi < 256 → lo < 256 → 0x80 ≤ hi →
      DecodeUplink [c, BarometricPressure, hi, lo] =
        some ⟨[.BarometricPressure c ((((256 * hi + lo : Nat) : ℚ) - 65536) / 10)], none, []⟩ ∧
      (((256 * hi + lo : Nat) : ℚ) - 65536) / 10 < 0) ∧
    DecodeUplink [10, BarometricPressure, 0x80, 0x00] =
      some ⟨[.BarometricPressure 10 (-3276.8)], none, []⟩ ∧
    older.decodeBarometricPressure 10 [0x80, 0x00] =
      (.ok (.BarometricPressure 10 (round32 (-3276.8))), []) ∧
    round32 (-3276.8) = -13421773 / 4096 ∧
    (((256 * 0x80 + 0x00 : Nat) : ℚ) / 10 = 3276.8) := by
  have general : ∀ c hi lo : Nat, hi < 256 → lo < 256 → 0x80 ≤ hi →
      DecodeUplink [c, BarometricPressure, hi, lo] =
        some ⟨[.BarometricPressure c ((((256 * hi + lo : Nat) : ℚ) - 65536) / 10)], none, []⟩ ∧
      (((256 * hi + lo : Nat) : ℚ) - 65536) / 10 < 0 := by
    intro c hi lo h1 h2 h3
    have hs : int16 (hi * 256 + lo) = ((256 * hi + lo : Nat) : Int) - 65536 := by
      simp only [int16]
      split <;> omega
    have hq : ((int16 (hi * 256 + lo) : Int) : ℚ) = ((256 * hi + lo : Nat) : ℚ) - 65536 := by
      rw [hs]; push_cast; ring
    constructor
    · rw [DecodeUplink_BarometricPressure, DecodeUplink_nil, hq]; rfl
    · have : ((256 * hi + lo : Nat) : ℚ) < 65536 := by
        have : 256 * hi + lo < 65536 := by omega
        exact_mod_cast this
      apply div_neg_of_neg_of_pos _ (by norm_num)
      linarith
  have hv : ((((256 * 0x80 + 0x00 : Nat) : ℚ) - 65536) / 10) = -3276.8 := by norm_num
  refine ⟨general, ?_, ?_, round32_pressure_example, by norm_num⟩
  · have := (general 10 0x80 0x00 (by decide) (by decide) (by decide)).1
    rw [hv] at this
    exact this
  · have hs : int16 (beUint16 [0x80, 0x00]) = -32768 := by decide
    have hr : readInt16 [0x80, 0x00] = (.ok (int16 (beUint16 [0x80, 0x00])), []) := by
      simp [readInt16, readFull]
    have e : ((-32768 : Int) : ℚ) / 10 = -3276.8 := by norm_num
    simp only [older.decodeBarometricPressure, hr, hs]
    rw [f32div_intCast (-32768) 10 (by norm_num) round32_ten, e]

/-- C21. Encoder reset: a fresh encoder has empty `Bytes()`; for every encoder
state, after `Reset()` `Bytes()` is empty, and any subsequent sequence of
`Add...` calls (uplink or downlink) produces exactly the bytes the same
sequence produces on a fresh encoder. -/
theorem encoder_reset (e : encoder) (cs : List EncoderCall) :
    NewEncoder.Bytes = [] ∧ e.Reset.Bytes = [] ∧
    (e.Reset.calls cs).Bytes = (NewEncoder.calls cs).Bytes :=
  ⟨rfl, rfl, rfl⟩

/-! ## Decoding a stream unit by unit -/

theorem payloadWidth_pos (t : Nat) (h : registered t) : 1 ≤ payloadWidth t := by
  simp only [registered, tags, List.mem_cons, List.mem_singleton, List.mem_nil_iff, or_false] at h
  rcases h with rfl | rfl | rfl | rfl | rfl | rfl | rfl | rfl | rfl | rfl | rfl | rfl <;> decide

theorem decodeUnit_ok (c t : Nat) (r r2 : List Nat) (ev : UplinkEvent)
    (h : decodeUnit c t r = (.ok ev, r2)) :
    registered t ∧ payloadWidth t ≤ r.length ∧ r2 = r.drop (payloadWidth t) ∧
      ∀ r3, decodeUnit c t (r.take (payloadWidth t) ++ r3) = (.ok ev, r3) := by
  by_cases ht : registered t
  · by_cases hw : payloadWidth t ≤ r.length
    · obtain ⟨ev2, hev⟩ := decodeUnit_append c t (r.take (payloadWidth t)) ht (by simp [hw])
      have h2 := hev (r.drop (payloadWidth t))
      rw [List.take_append_drop, h] at h2
      simp only [Prod.mk.injEq, Except.ok.injEq] at h2
      obtain ⟨rfl, rfl⟩ := h2
      exact ⟨ht, hw, rfl, hev⟩
    · rw [decodeUnit_short c t r ht (by omega)] at h
      simp at h
  · rw [decodeUnit_unregistered c t r ht] at h
    simp at h

theorem DecodeUplink_split (n : Nat) : ∀ (s : List Nat), s.length ≤ n → ∀ d,
    DecodeUplink s = some d →
    ∃ s1 s2, s = s1 ++ s2 ∧ IsFrame s1 ∧ DecodeUplink s1 = some ⟨d.events, none, []⟩ ∧
      DecodeUplink s2 = some ⟨[], d.err, d.rest⟩ ∧ (d.err = none → s2 = []) ∧
      3 * d.events.length ≤ s1.length := by
  induction n with
  | zero =>
    intro s hs d hd
    have : s = [] := List.length_eq_zero.mp (by omega)
    subst this
    rw [DecodeUplink_nil] at hd
    cases hd
    exact ⟨[], [], rfl, ⟨[], by simp, rfl⟩, DecodeUplink_nil, DecodeUplink_nil, fun _ => rfl,
      by simp⟩
  | succ n ih =>
    intro s hs d hd
    rcases s with _ | ⟨c, _ | ⟨t, r⟩⟩
    · rw [DecodeUplink_nil] at hd
      cases hd
      exact ⟨[], [], rfl, ⟨[], by simp, rfl⟩, DecodeUplink_nil, DecodeUplink_nil, fun _ => rfl,
        by simp⟩
    · have h1 := DecodeUplink_single c
      rw [h1] at hd
      cases hd
      exact ⟨[], [c], rfl, ⟨[], by simp, rfl⟩, DecodeUplink_nil, h1, (fun h => by cases h),
        by simp⟩
    · have hcons := DecodeUplink_cons c t r
      rcases hu : decodeUnit c t r with ⟨res, r2⟩
      rw [hu] at hcons
      cases res with
      | error e =>
        simp only at hcons
        rw [hcons] at hd
        cases hd
        exact ⟨[], c :: t :: r, rfl, ⟨[], by simp, rfl⟩, DecodeUplink_nil, hcons,
          (fun h => by cases h), by simp⟩
      | ok ev =>
        simp only at hcons
        obtain ⟨ht, hw, hr2, hev⟩ := decodeUnit_ok c t r r2 ev hu
        rw [hcons] at hd
        cases hd2 : DecodeUplink r2 with
        | none => rw [hd2] at hd; cases hd
        | some d2 =>
          rw [hd2] at hd
          simp only [Option.map_some', Option.some.injEq] at hd
          subst hd
          have hlen : r2.length ≤ n := by
            rw [hr2, List.length_drop]
            simp only [List.length_cons] at hs
            omega
          obtain ⟨s1, s2, hs12, ⟨units, hunits, hcat⟩, hd1, hds2, hnone, hbound⟩ :=
            ih r2 hlen d2 hd2
          have hpw := payloadWidth_pos t ht
          refine ⟨c :: t :: (r.take (payloadWidth t) ++ s1), s2, ?_, ?_, ?_, hds2, hnone, ?_⟩
          · simp only [List.cons_append, List.append_assoc]
            rw [← hs12, hr2, List.take_append_drop]
          · refine ⟨(c :: t :: r.take (payloadWidth t)) :: units, ?_, ?_⟩
            · intro u hmem
              rcases List.mem_cons.mp hmem with rfl | hmem
              · exact ⟨c, t, r.take (payloadWidth t), rfl, ht, by simp [hw]⟩
              · exact hunits u hmem
            · simp only [concatUnits, List.cons_append]
              rw [← hcat]
          · rw [DecodeUplink_cons, hev s1]
            simp only
            rw [hd1]
            rfl
          · simp only [Decoded.deliver, List.length_cons, List.length_append, List.length_take]
            omega

/-- C22. Decoding is compositional over well-formed prefixes: when `s1` is a
concatenation of complete uplink units with registered tags, `DecodeUplink`
on `s1 ++ s2` delivers first exactly the events of `s1`, in stream order, and
then behaves exactly as `DecodeUplink` on `s2` alone (same further events,
same success or failure, same unread bytes). Hence when decoding fails, the
stream is a run of complete units followed by a rest on which the decoder
fails before any callback: the callbacks delivered are exactly those of the
units before the failing one. -/
theorem decode_compositional :
    (∀ s1 : List Nat, IsFrame s1 →
      ∃ evs, DecodeUplink s1 = some ⟨evs, none, []⟩ ∧
        ∀ s2, DecodeUplink (s1 ++ s2) = (DecodeUplink s2).map (Decoded.after evs)) ∧
    (∀ (s : List Nat) (evs : List UplinkEvent) (e : DecodeError) (rest : List Nat),
      DecodeUplink s = some ⟨evs, some e, rest⟩ →
      ∃ s1 s2, s = s1 ++ s2 ∧ IsFrame s1 ∧ DecodeUplink s1 = some ⟨evs, none, []⟩ ∧
        DecodeUplink s2 = some ⟨[], some e, rest⟩) := by
  constructor
  · intro s1 h
    obtain ⟨evs, hevs⟩ := DecodeUplink_frame_append s1 h
    refine ⟨evs, ?_, hevs⟩
    have := hevs []
    rw [List.append_nil, DecodeUplink_nil] at this
    rw [this]
    simp [Decoded.after]
  · intro s evs e rest h
    obtain ⟨s1, s2, h12, hf, h1, h2, _, _⟩ := DecodeUplink_split s.length s (le_refl _) _ h
    exact ⟨s1, s2, h12, hf, h1, h2⟩

theorem decode_compositional_witness :
    IsFrame [1, 0, 255] ∧
      ∃ evs, DecodeUplink [1, 0, 255] = some ⟨evs, none, []⟩ ∧
        ∀ s2, DecodeUplink ([1, 0, 255] ++ s2) = (DecodeUplink s2).map (Decoded.after evs) :=
  have h : IsFrame [1, 0, 255] :=
    ⟨[[1, 0, 255]], by
      intro u hu
      simp only [List.mem_singleton] at hu
      subst hu
      exact ⟨1, 0, [255], rfl, by decide, by decide⟩, rfl⟩
  ⟨h, decode_compositional.1 _ h⟩

theorem readInt16_ok (r r2 : List Nat) (v : Int) (h : readInt16 r = (.ok v, r2)) :
    ∃ hi lo, r = hi :: lo :: r2 ∧ v = int16 (beUint16 [hi, lo]) := by
  rcases r with _ | ⟨a, _ | ⟨b, r⟩⟩
  · simp [readInt16, readFull] at h
  · simp [readInt16, readFull] at h
  · simp only [readInt16, readFull, List.length_cons] at h
    simp only [show 2 ≤ r.length + 1 + 1 by omega, if_true, List.take, List.drop,
      Prod.mk.injEq, Except.ok.injEq] at h
    exact ⟨a, b, by rw [h.2], h.1.symm⟩

theorem DecodeDownlink_bound (n : Nat) : ∀ (s : List Nat), s.length ≤ n → ∀ d,
    DecodeDownlink s = some d → 3 * d.events.length ≤ s.length := by
  induction n with
  | zero =>
    intro s hs d hd
    have : s = [] := List.length_eq_zero.mp (by omega)
    subst this
    rw [DecodeDownlink_nil] at hd
    cases hd
    simp
  | succ n ih =>
    intro s hs d hd
    rcases s with _ | ⟨c, r⟩
    · rw [DecodeDownlink_nil] at hd
      cases hd
      simp
    · rw [DecodeDownlink_cons] at hd
      split at hd
      · cases hd
        simp
      · rcases hr : readInt16 r with ⟨res, r2⟩
        rw [hr] at hd
        cases res with
        | error e =>
          simp only at hd
          cases hd
          simp
        | ok val =>
          simp only at hd
          obtain ⟨hi, lo, rfl, _⟩ := readInt16_ok r r2 val hr
          cases hd2 : DecodeDownlink r2 with
          | none => rw [hd2] at hd; cases hd
          | some d2 =>
            rw [hd2] at hd
            simp only [Option.map_some', Option.some.injEq] at hd
            subst hd
            have := ih r2 (by simp only [List.length_cons] at hs; omega) d2 hd2
            simp only [Decoded.deliver, List.length_cons]
            omega

theorem DecodeDownlink_eq (r : List Nat) (fuel : Nat) (h : r.length < fuel) :
    downlinkLoop fuel r = DecodeDownlink r :=
  downlinkLoop_fuel r.length r fuel (r.length + 1) (le_refl _) h (by omega)

/-- C23. Termination and event bound: on every finite byte stream of length
`n`, `DecodeUplink` and `DecodeDownlink` terminate with a result, for any
amount of fuel above `n`, because every loop iteration that does not stop
consumes at least 3 bytes: a unit that decodes leaves at least 3 bytes fewer
in the source. Each of them invokes at most `n / 3` callbacks. -/
theorem decode_terminates (s : List Nat) :
    (∃ d, DecodeUplink s = some d ∧ d.events.length ≤ s.length / 3) ∧
    (∃ d, DecodeDownlink s = some d ∧ d.events.length ≤ s.length / 3) ∧
    (∀ fuel, s.length < fuel →
      uplinkLoop fuel s = DecodeUplink s ∧ downlinkLoop fuel s = DecodeDownlink s) ∧
    (∀ (c t : Nat) (r r2 : List Nat) (ev : UplinkEvent),
      decodeUnit c t r = (.ok ev, r2) → r2.length + 3 ≤ (c :: t :: r).length) ∧
    (∀ (c : Nat) (r r2 : List Nat) (v : Int),
      readInt16 r = (.ok v, r2) → r2.length + 3 = (c :: r).length) := by
  refine ⟨?_, ?_, fun fuel h => ⟨DecodeUplink_eq s fuel h, DecodeDownlink_eq s fuel h⟩, ?_, ?_⟩
  · obtain ⟨d, hd⟩ := DecodeUplink_total s
    refine ⟨d, hd, ?_⟩
    obtain ⟨s1, s2, h12, _, _, _, _, hb⟩ := DecodeUplink_split s.length s (le_refl _) d hd
    have : s1.length ≤ s.length := by rw [h12, List.length_append]; omega
    omega
  · obtain ⟨d, hd⟩ := DecodeDownlink_total s
    refine ⟨d, hd, ?_⟩
    have := DecodeDownlink_bound s.length s (le_refl _) d hd
    omega
  · intro c t r r2 ev h
    obtain ⟨ht, hw, hr2, _⟩ := decodeUnit_ok c t r r2 ev h
    have := payloadWidth_pos t ht
    rw [hr2]
    simp only [List.length_drop, List.length_cons]
    omega
  · intro c r r2 v h
    obtain ⟨hi, lo, rfl, _⟩ := readInt16_ok r r2 v h
    simp

/-! ## Encoding a decoded value again -/

theorem IsFrame_single (c t : Nat) (p : List Nat) (ht : registered t)
    (hp : p.length = payloadWidth t) : IsFrame (c :: t :: p) :=
  ⟨[c :: t :: p], by
    intro u hu
    simp only [List.mem_singleton] at hu
    subst hu
    exact ⟨c, t, p, rfl, ht, hp⟩, by simp [concatUnits]⟩

/-- C24 (the code at the failing input). Re-encoding does not always undo
decoding. The stream `{11,134,1,99,2,49,254,102}`, one complete gyrometer
unit (the bytes `TestEncode` expects of `AddGyrometer(11, 3.55, 5.61, -4.10)`),
decodes with no error to `Gyrometer(11, 3.55, 5.61, -4.1)`, and replaying that
event into a fresh encoder gives `{11,134,1,99,2,49,254,103}`: the `float64`
product `-4.1 * 100` is `-409.99999999999994` and is written as `-409`.
Likewise the unit `{3,2,0,115}` decodes to `AnalogInput(3, 1.15)` and is
re-encoded as `{3,2,0,114}`, and the downlink stream `{1,0,115}` decodes to
`Port(1, 1.15)` and is re-encoded as `{1,0,114}`. -/
theorem reencode_undoes_decode :
    (IsFrame [11, 134, 1, 99, 2, 49, 254, 102] ∧
      DecodeUplink [11, 134, 1, 99, 2, 49, 254, 102] =
        some ⟨[.Gyrometer 11 3.55 5.61 (-4.10)], none, []⟩ ∧
      (encodeAll [.Gyrometer 11 3.55 5.61 (-4.10)]).Bytes =
        [11, 134, 1, 99, 2, 49, 254, 103]) ∧
    (IsFrame [3, 2, 0, 115] ∧
      DecodeUplink [3, 2, 0, 115] = some ⟨[.AnalogInput 3 1.15], none, []⟩ ∧
      (encodeAll [.AnalogInput 3 1.15]).Bytes = [3, 2, 0, 114]) ∧
    (DecodeDownlink [1, 0, 115] = some ⟨[⟨1, 1.15⟩], none, []⟩ ∧
      (encodePorts [⟨1, 1.15⟩]).Bytes = [1, 0, 114]) := by
  refine ⟨⟨IsFrame_single 11 134 _ (by decide) (by decide), ?_, ?_⟩,
    ⟨IsFrame_single 3 2 _ (by decide) (by decide), ?_, ?_⟩, ?_, ?_⟩
  · have h := DecodeUplink_Gyrometer 11 1 99 2 49 254 102 []
    have e1 : int16 (1 * 256 + 99) = 355 := by decide
    have e2 : int16 (2 * 256 + 49) = 561 := by decide
    have e3 : int16 (254 * 256 + 102) = -410 := by decide
    rw [DecodeUplink_nil, e1, e2, e3] at h
    have q1 : ((355 : Int) : ℚ) / 100 = 3.55 := by norm_num
    have q2 : ((561 : Int) : ℚ) / 100 = 5.61 := by norm_num
    have q3 : ((-410 : Int) : ℚ) / 100 = -4.10 := by norm_num
    rw [q1, q2, q3] at h
    exact h
  · have := Add_unitLayout _ Fits_gyrometer_example
    simp only [unitLayout, trunc_gyro_x, trunc_gyro_y, trunc_gyro_z] at this
    exact this
  · have h := DecodeUplink_AnalogInput 3 0 115 []
    have e1 : int16 (0 * 256 + 115) = 115 := by decide
    rw [DecodeUplink_nil, e1] at h
    have q1 : ((115 : Int) : ℚ) / 100 = 1.15 := by norm_num
    rw [q1] at h
    exact h
  · have := Add_unitLayout _ Fits_analog_115
    simp only [unitLayout, trunc_analog_115] at this
    exact this
  · have h := DecodeDownlink_unit 1 0 115 [] (by decide)
    have e1 : int16 (beUint16 [0, 115]) = 115 := by decide
    rw [DecodeDownlink_nil, e1] at h
    have q1 : ((115 : Int) : ℚ) / 100 = 1.15 := by norm_num
    rw [q1] at h
    exact h
  · have hf : fits16 (f64mul 1.15 100) := by simp only [fits16, trunc_analog_115]; decide
    have hb : (encodePorts [⟨1, 1.15⟩]).Bytes = (NewEncoder.AddPort 1 1.15).Bytes := rfl
    rw [hb, AddPort_Bytes, floatToInt16_of_fits hf, trunc_analog_115]
    decide

/-! ## The two generations of the uplink decoder -/

theorem int16_abs_lt (u : Nat) : |int16 u| < 2 ^ 24 := by
  unfold int16
  split <;> exact abs_lt.mpr ⟨by omega, by omega⟩

theorem readInt16_abs_lt {r r1 : List Nat} {val : Int} (h : readInt16 r = (.ok val, r1)) :
    |val| < 2 ^ 24 := by
  unfold readInt16 at h
  rcases hf : readFull 2 r with ⟨res, r2⟩
  rw [hf] at h
  cases res with
  | error e => simp at h
  | ok b =>
    simp only [Prod.mk.injEq, Except.ok.injEq] at h
    rw [← h.1]
    exact int16_abs_lt _

theorem narrowRead_error (e : DecodeError) (r : List Nat) :
    narrowRead (.error e, r) = (.error e, r) := rfl

theorem narrowRead_ok (ev : UplinkEvent) (r : List Nat) :
    narrowRead (.ok ev, r) = (.ok ev.toFloat32, r) := rfl

theorem older_decodeDigitalInput_eq (c : Nat) (r : List Nat) :
    older.decodeDigitalInput c r = narrowRead (decodeDigitalInput c r) := by
  unfold older.decodeDigitalInput decodeDigitalInput
  rcases readUint8 r with ⟨res, r1⟩
  cases res <;> rfl

theorem older_decodeDigitalOutput_eq (c : Nat) (r : List Nat) :
    older.decodeDigitalOutput c r = narrowRead (decodeDigitalOutput c r) := by
  unfold older.decodeDigitalOutput decodeDigitalOutput
  rcases readUint8 r with ⟨res, r1⟩
  cases res <;> rfl

theorem older_decodePresence_eq (c : Nat) (r : List Nat) :
    older.decodePresence c r = narrowRead (decodePresence c r) := by
  unfold older.decodePresence decodePresence
  rcases readUint8 r with ⟨res, r1⟩
  cases res <;> rfl

theorem older_decodeLuminosity_eq (c : Nat) (r : List Nat) :
    older.decodeLuminosity c r = narrowRead (decodeLuminosity c r) := by
  unfold older.decodeLuminosity decodeLuminosity
  rcases readUint16 r with ⟨res, r1⟩
  cases res <;> rfl

theorem older_decodeAnalogInput_eq (c : Nat) (r : List Nat) :
    older.decodeAnalogInput c r = narrowRead (decodeAnalogInput c r) := by
  unfold older.decodeAnalogInput decodeAnalogInput
  rcases h : readInt16 r with ⟨res, r1⟩
  cases res with
  | error e => rfl
  | ok val =>
    simp only [narrowRead_ok, UplinkEvent.toFloat32]
    rw [f32div_intCast val 100 (readInt16_abs_lt h) round32_hundred]

theorem older_decodeAnalogOutput_eq (c : Nat) (r : List Nat) :
    older.decodeAnalogOutput c r = narrowRead (decodeAnalogOutput c r) := by
  unfold older.decodeAnalogOutput decodeAnalogOutput
  rcases h : readInt16 r with ⟨res, r1⟩
  cases res with
  | error e => rfl
  | ok val =>
    simp only [narrowRead_ok, UplinkEvent.toFloat32]
    rw [f32div_intCast val 100 (readInt16_abs_lt h) round32_hundred]

theorem older_decodeTemperature_eq (c : Nat) (r : List Nat) :
    older.decodeTemperature c r = narrowRead (decodeTemperature c r) := by
  unfold older.decodeTemperature decodeTemperature
  rcases h : readInt16 r with ⟨res, r1⟩
  cases res with
  | error e => rfl
  | ok val =>
    simp only [narrowRead_ok, UplinkEvent.toFloat32]
    rw [f32div_intCast val 10 (readInt16_abs_lt h) round32_ten]

theorem older_decodeBarometricPressure_eq (c : Nat) (r : List Nat) :
    older.decodeBarometricPressure c r = narrowRead (decodeBarometricPressure c r) := by
  unfold older.decodeBarometricPressure decodeBarometricPressure
  rcases h : readInt16 r with ⟨res, r1⟩
  cases res with
  | error e => rfl
  | ok val =>
    simp only [narrowRead_ok, UplinkEvent.toFloat32]
    rw [f32div_intCast val 10 (readInt16_abs_lt h) round32_ten]

theorem older_decodeAccelerometer_eq (c : Nat) (r : List Nat) :
    older.decodeAccelerometer c r = narrowRead (decodeAccelerometer c r) := by
  unfold older.decodeAccelerometer decodeAccelerometer
  rcases hx : readInt16 r with ⟨resx, r1⟩
  cases resx with
  | error e => rfl
  | ok valX =>
    simp only
    rcases hy : readInt16 r1 with ⟨resy, r2⟩
    cases resy with
    | error e => rfl
    | ok valY =>
      simp only
      rcases hz : readInt16 r2 with ⟨resz, r3⟩
      cases resz with
      | error e => rfl
      | ok valZ =>
        simp only [narrowRead_ok, UplinkEvent.toFloat32]
        rw [f32div_intCast valX 1000 (readInt16_abs_lt hx) round32_thousand,
          f32div_intCast valY 1000 (readInt16_abs_lt hy) round32_thousand,
          f32div_intCast valZ 1000 (readInt16_abs_lt hz) round32_thousand]

theorem older_decodeGyrometer_eq (c : Nat) (r : List Nat) :
    older.decodeGyrometer c r = narrowRead (decodeGyrometer c r) := by
  unfold older.decodeGyrometer decodeGyrometer
  rcases hx : readInt16 r with ⟨resx, r1⟩
  cases resx with
  | error e => rfl
  | ok valX =>
    simp only
    rcases hy : readInt16 r1 with ⟨resy, r2⟩
    cases resy with
    | error e => rfl
    | ok valY =>
      simp only
      rcases hz : readInt16 r2 with ⟨resz, r3⟩
      cases resz with
      | error e => rfl
      | ok valZ =>
        simp only [narrowRead_ok, UplinkEvent.toFloat32]
        rw [f32div_intCast valX 100 (readInt16_abs_lt hx) round32_hundred,
          f32div_intCast valY 100 (readInt16_abs_lt hy) round32_hundred,
          f32div_intCast valZ 100 (readInt16_abs_lt hz) round32_hundred]

theorem older_int8_small (b : Nat) (h : b < 0x80) : older.int8 b = (b : Int) := by
  unfold older.int8
  split <;> omega

theorem older_int8_large (b : Nat) (h1 : 0x80 ≤ b) (h2 : b < 256) :
    older.int8 b = (b : Int) - 256 := by
  unfold older.int8
  split <;> omega

theorem older_int8_abs_lt (b : Nat) : |older.int8 b| < 2 ^ 24 := by
  unfold older.int8
  split <;> exact abs_lt.mpr ⟨by omega, by omega⟩

/-- Half of an integer that `float32` holds exactly is a `float32`. -/
theorem round32_half (n : Int) (h : |n| < 2 ^ 24) : round32 ((n : ℚ) / 2) = (n : ℚ) / 2 := by
  have r := roundTo_exact 24 (-149) n (-1) h (by norm_num)
  have e : (n : ℚ) * 2 ^ (-1 : Int) = (n : ℚ) / 2 := by
    rw [zpow_neg, zpow_one]; ring
  rw [e] at r
  exact r

theorem older_decodeRelativeHumidity_cons (c b : Nat) (r : List Nat) :
    older.decodeRelativeHumidity c (b :: r) =
      (.ok (.RelativeHumidity c ((older.int8 b : ℚ) / 2)), r) := by
  have h : older.decodeRelativeHumidity c (b :: r) =
      (.ok (.RelativeHumidity c (f32div (older.int8 b : ℚ) 2)), r) := by
    simp [older.decodeRelativeHumidity, older.readInt8, readFull]
  rw [h, f32div_intCast _ 2 (older_int8_abs_lt b) round32_two,
    round32_half _ (older_int8_abs_lt b)]

theorem decodeRelativeHumidity_cons (c b : Nat) (r : List Nat) :
    decodeRelativeHumidity c (b :: r) = (.ok (.RelativeHumidity c ((b : ℚ) / 2)), r) := by
  simp [decodeRelativeHumidity, readUint8, readFull]

theorem older_decodeRelativeHumidity_eq (c : Nat) (r : List Nat)
    (h : ∀ b rest, r = b :: rest → b < 0x80) :
    older.decodeRelativeHumidity c r = narrowRead (decodeRelativeHumidity c r) := by
  rcases r with _ | ⟨b, rest⟩
  · simp [older.decodeRelativeHumidity, decodeRelativeHumidity, older.readInt8, readUint8,
      readFull, narrowRead, Except.map]
  · have hb := h b rest rfl
    rw [older_decodeRelativeHumidity_cons, decodeRelativeHumidity_cons,
      older_int8_small b hb, narrowRead_ok]
    have e := round32_half (b : Int) (abs_lt.mpr ⟨by omega, by omega⟩)
    rw [Int.cast_natCast] at e
    simp only [UplinkEvent.toFloat32, e, Int.cast_natCast]

theorem older_gpsField_triple (b0 b1 b2 : Nat) :
    older.gpsField [b0, b1, b2] = ((b0 * 65536 + b1 * 256 + b2 : Nat) : Int) := rfl

theorem signed24_small (b0 b1 b2 : Nat) (h0 : b0 < 0x80) (h1 : b1 < 256) (h2 : b2 < 256) :
    signed24 b0 b1 b2 = ((b0 * 65536 + b1 * 256 + b2 : Nat) : Int) := by
  unfold signed24
  omega

theorem signed24_large (b0 b1 b2 : Nat) (h : 0x80 ≤ b0) (h0 : b0 < 256) (h1 : b1 < 256)
    (h2 : b2 < 256) :
    signed24 b0 b1 b2 = ((b0 * 65536 + b1 * 256 + b2 : Nat) : Int) - 16777216 := by
  unfold signed24
  omega

theorem f32div_field (b0 b1 b2 : Nat) (s : ℚ) (h0 : b0 < 256) (h1 : b1 < 256) (h2 : b2 < 256)
    (hs : round32 s = s) :
    f32div (((b0 * 65536 + b1 * 256 + b2 : Nat) : Int) : ℚ) s =
      round32 (((b0 * 65536 + b1 * 256 + b2 : Nat) : ℚ) / s) := by
  rw [f32div_intCast _ s (abs_lt.mpr ⟨by omega, by omega⟩) hs, Int.cast_natCast]

theorem older_decodeGPS_nine (c b0 b1 b2 b3 b4 b5 b6 b7 b8 : Nat) (r : List Nat)
    (hb : IsBytes [b0, b1, b2, b3, b4, b5, b6, b7, b8]) :
    older.decodeGPS c (b0 :: b1 :: b2 :: b3 :: b4 :: b5 :: b6 :: b7 :: b8 :: r) =
      (.ok (.GPS c (round32 (((b0 * 65536 + b1 * 256 + b2 : Nat) : ℚ) / 10000))
        (round32 (((b3 * 65536 + b4 * 256 + b5 : Nat) : ℚ) / 10000))
        (round32 (((b6 * 65536 + b7 * 256 + b8 : Nat) : ℚ) / 100))), r) := by
  have h : older.decodeGPS c (b0 :: b1 :: b2 :: b3 :: b4 :: b5 :: b6 :: b7 :: b8 :: r) =
      (.ok (.GPS c (f32div (((b0 * 65536 + b1 * 256 + b2 : Nat) : Int) : ℚ) 10000)
        (f32div (((b3 * 65536 + b4 * 256 + b5 : Nat) : Int) : ℚ) 10000)
        (f32div (((b6 * 65536 + b7 * 256 + b8 : Nat) : Int) : ℚ) 100)), r) := by
    simp [older.decodeGPS, readFull, older_gpsField_triple]
  rw [h, f32div_field b0 b1 b2 _ (hb b0 (by simp)) (hb b1 (by simp)) (hb b2 (by simp))
      round32_tenThousand,
    f32div_field b3 b4 b5 _ (hb b3 (by simp)) (hb b4 (by simp)) (hb b5 (by simp))
      round32_tenThousand,
    f32div_field b6 b7 b8 _ (hb b6 (by simp)) (hb b7 (by simp)) (hb b8 (by simp))
      round32_hundred]

theorem IsBytes_take (s : List Nat) (k : Nat) (h : IsBytes s) : IsBytes (s.take k) :=
  fun b hb => h b (List.mem_of_mem_take hb)

theorem older_decodeGPS_eq (c : Nat) (r : List Nat) (hb : IsBytes r)
    (h : 9 ≤ r.length → r.getD 0 0 < 0x80 ∧ r.getD 3 0 < 0x80 ∧ r.getD 6 0 < 0x80) :
    older.decodeGPS c r = narrowRead (decodeGPS c r) := by
  by_cases hl : 9 ≤ r.length
  · obtain ⟨h0, h3, h6⟩ := h hl
    rcases r with _ | ⟨b0, _ | ⟨b1, _ | ⟨b2, _ | ⟨b3, _ | ⟨b4, _ | ⟨b5, _ | ⟨b6, _ | ⟨b7,
      _ | ⟨b8, r⟩⟩⟩⟩⟩⟩⟩⟩⟩
    all_goals try (simp only [List.length_cons, List.length_nil] at hl; omega)
    simp only [List.getD_cons_zero, List.getD_cons_succ] at h0 h3 h6
    have hb9 : IsBytes [b0, b1, b2, b3, b4, b5, b6, b7, b8] := by
      intro b hm
      apply hb b
      simp only [List.mem_cons, List.mem_singleton, List.mem_nil_iff, or_false] at hm ⊢
      tauto
    rw [older_decodeGPS_nine c b0 b1 b2 b3 b4 b5 b6 b7 b8 r hb9, decodeGPS_nine,
      signed24_small b0 b1 b2 h0 (hb9 b1 (by simp)) (hb9 b2 (by simp)),
      signed24_small b3 b4 b5 h3 (hb9 b4 (by simp)) (hb9 b5 (by simp)),
      signed24_small b6 b7 b8 h6 (hb9 b7 (by simp)) (hb9 b8 (by simp)), narrowRead_ok]
    simp only [UplinkEvent.toFloat32, Int.cast_natCast]
  · have hs : r.length < 9 := by omega
    simp only [older.decodeGPS, decodeGPS, readFull_short hs]
    split <;> rfl

theorem older_decodeUnit_unregistered (c t : Nat) (r : List Nat) (h : ¬ registered t) :
    older.decodeUnit c t r = (.error .ErrInvalidChannelType, r) := by
  simp only [registered, tags, List.mem_cons, List.mem_singleton, not_or, List.mem_nil_iff,
    or_false] at h
  obtain ⟨h1, h2, h3, h4, h5, h6, h7, h8, h9, h10, h11, h12⟩ := h
  simp [older.decodeUnit, h1, h2, h3, h4, h5, h6, h7, h8, h9, h10, h11, h12]

theorem older_decodeUnit_eq (c t : Nat) (r : List Nat) (hb : IsBytes r)
    (hRH : t = RelativeHumidity → ∀ b rest, r = b :: rest → b < 0x80)
    (hGPS : t = GPS → 9 ≤ r.length →
      r.getD 0 0 < 0x80 ∧ r.getD 3 0 < 0x80 ∧ r.getD 6 0 < 0x80) :
    older.decodeUnit c t r = narrowRead (decodeUnit c t r) := by
  by_cases ht : registered t
  · simp only [registered, tags, List.mem_cons, List.mem_singleton, List.mem_nil_iff,
      or_false] at ht
    rcases ht with rfl | rfl | rfl | rfl | rfl | rfl | rfl | rfl | rfl | rfl | rfl | rfl
    · exact older_decodeDigitalInput_eq c r
    · exact older_decodeDigitalOutput_eq c r
    · exact older_decodeAnalogInput_eq c r
    · exact older_decodeAnalogOutput_eq c r
    · exact older_decodeLuminosity_eq c r
    · exact older_decodePresence_eq c r
    · exact older_decodeTemperature_eq c r
    · exact older_decodeRelativeHumidity_eq c r (hRH rfl)
    · exact older_decodeAccelerometer_eq c r
    · exact older_decodeBarometricPressure_eq c r
    · exact older_decodeGyrometer_eq c r
    · exact older_decodeGPS_eq c r hb (hGPS rfl)
  · rw [older_decodeUnit_unregistered c t r ht, decodeUnit_unregistered c t r ht]
    rfl

theorem IsBytes_drop (s : List Nat) (k : Nat) (h : IsBytes s) : IsBytes (s.drop k) :=
  fun b hb => h b (List.mem_of_mem_drop hb)

theorem Agrees_unit (c t : Nat) (r : List Nat) (h : Agrees (c :: t :: r)) (ht : registered t)
    (hw : payloadWidth t ≤ r.length) :
    unitAgrees (c :: t :: r.take (payloadWidth t)) ∧ Agrees (r.drop (payloadWidth t)) := by
  have hu : IsUnit (c :: t :: r.take (payloadWidth t)) :=
    ⟨c, t, r.take (payloadWidth t), rfl, ht, by simp [hw]⟩
  constructor
  · apply h [c :: t :: r.take (payloadWidth t)] (r.drop (payloadWidth t))
    · simp [concatUnits]
    · intro u hmem
      simp only [List.mem_singleton] at hmem
      subst hmem
      exact hu
    · simp
  · intro units rest hcat hunits u hmem
    apply h ((c :: t :: r.take (payloadWidth t)) :: units) rest
    · simp only [concatUnits, List.cons_append, List.append_assoc]
      rw [← hcat, List.take_append_drop]
    · intro v hv
      rcases List.mem_cons.mp hv with rfl | hv
      · exact hu
      · exact hunits v hv
    · exact List.mem_cons_of_mem _ hmem

theorem older_decodeUnit_eq_of_Agrees (c t : Nat) (r : List Nat) (hb : IsBytes (c :: t :: r))
    (h : Agrees (c :: t :: r)) : older.decodeUnit c t r = narrowRead (decodeUnit c t r) := by
  have hbr : IsBytes r := fun b hm => hb b (List.mem_cons_of_mem _ (List.mem_cons_of_mem _ hm))
  apply older_decodeUnit_eq c t r hbr
  · intro ht b rest hr
    subst ht hr
    have := (Agrees_unit c RelativeHumidity (b :: rest) h (by decide)
      (by simp [payloadWidth, DigitalInput, DigitalOutput, Presence, RelativeHumidity])).1
    have h2 := this.1 rfl
    simpa [payloadWidth, DigitalInput, DigitalOutput, Presence, RelativeHumidity] using h2
  · intro ht hl
    subst ht
    have hw : payloadWidth GPS = 9 := by decide
    have := (Agrees_unit c GPS r h (by decide) (by rw [hw]; exact hl)).1
    have h2 := this.2 rfl
    rw [hw] at h2
    rcases r with _ | ⟨b0, _ | ⟨b1, _ | ⟨b2, _ | ⟨b3, _ | ⟨b4, _ | ⟨b5, _ | ⟨b6, _ | ⟨b7,
      _ | ⟨b8, r⟩⟩⟩⟩⟩⟩⟩⟩⟩
    all_goals try (simp only [List.length_cons, List.length_nil] at hl; omega)
    simpa using h2

theorem map_deliver_mapEvents {ε : Type} (f : ε → ε) (ev : ε) (o : Option (Decoded ε)) :
    (o.map (Decoded.mapEvents f)).map (Decoded.deliver (f ev)) =
      (o.map (Decoded.deliver ev)).map (Decoded.mapEvents f) := by
  cases o with
  | none => rfl
  | some d => simp [Decoded.deliver, Decoded.mapEvents]

theorem older_uplinkLoop_eq (fuel : Nat) : ∀ s : List Nat, IsBytes s → Agrees s →
    older.uplinkLoop fuel s =
      (uplinkLoop fuel s).map (Decoded.mapEvents UplinkEvent.toFloat32) := by
  induction fuel with
  | zero => intro s _ _; rfl
  | succ fuel ih =>
    intro s hb ha
    rcases s with _ | ⟨c, _ | ⟨t, r⟩⟩
    · rw [older_uplinkLoop_nil, uplinkLoop_nil]; rfl
    · rw [older_uplinkLoop_single, uplinkLoop_single]; rfl
    · rw [older_uplinkLoop_cons, uplinkLoop_cons, older_decodeUnit_eq_of_Agrees c t r hb ha]
      rcases hu : decodeUnit c t r with ⟨res, r2⟩
      cases res with
      | error e => rfl
      | ok ev =>
        simp only [narrowRead_ok]
        obtain ⟨ht, hw, hr2, _⟩ := decodeUnit_ok c t r r2 ev hu
        have hbr : IsBytes r :=
          fun b hm => hb b (List.mem_cons_of_mem _ (List.mem_cons_of_mem _ hm))
        rw [hr2, ih _ (IsBytes_drop r _ hbr) (Agrees_unit c t r ha ht hw).2,
          map_deliver_mapEvents]

theorem Agrees_of_small (s : List Nat) (h : ∀ b ∈ s, b < 0x80) : Agrees s := by
  intro units rest hcat hunits u hmem
  have hsub : ∀ x ∈ u, x < 0x80 := by
    intro x hx
    apply h x
    rw [hcat]
    apply List.mem_append_left
    clear hcat hunits
    induction units with
    | nil => cases hmem
    | cons v vs ih =>
      simp only [concatUnits, List.mem_append]
      rcases List.mem_cons.mp hmem with rfl | hm
      · exact Or.inl hx
      · exact Or.inr (ih hm)
  have hget : ∀ k, u.getD k 0 < 0x80 := by
    intro k
    by_cases hk : k < u.length
    · rw [List.getD_eq_getElem _ _ hk]
      exact hsub _ (List.getElem_mem _)
    · rw [List.getD_eq_default _ _ (by omega)]
      decide
  exact ⟨fun _ => hget 2, fun _ => ⟨hget 2, hget 5, hget 8⟩⟩

theorem round32_temperature_356 : round32 (35.6 : ℚ) = 4666163 / 131072 := by
  rw [round32_eq_of (35.6) 5 9332326 (by norm_num) (by norm_num [le_abs])
    (by norm_num [abs_lt]) (by norm_num [abs_lt])]
  norm_num

theorem round64_temperature_356 : round64 (35.6 : ℚ) = 5010254585449677 / 140737488355328 := by
  rw [round64_eq_of (35.6) 5 5010254585449677 (by norm_num) (by norm_num [le_abs])
    (by norm_num [abs_lt]) (by norm_num [abs_lt])]
  norm_num

/-- C25 (as stated, refuted). The stream `{1, 103, 1, 100}`, one temperature
unit of raw value 356, has no humidity and no GPS unit, so it meets the
proviso; the newer decoder delivers `Temperature(1, 35.6)`, the `float64`
quotient, and the older one the `float32` quotient
`35.599998474121094`, which is another value. -/
theorem uplink_generations_agree_refuted :
    IsBytes [1, 103, 1, 100] ∧ Agrees [1, 103, 1, 100] ∧
    DecodeUplink [1, 103, 1, 100] = some ⟨[.Temperature 1 35.6], none, []⟩ ∧
    older.DecodeUplink [1, 103, 1, 100] =
      some ⟨[.Temperature 1 (4666163 / 131072)], none, []⟩ ∧
    round32 35.6 = 4666163 / 131072 ∧
    round64 35.6 = 5010254585449677 / 140737488355328 ∧
    (4666163 / 131072 : ℚ) ≠ 5010254585449677 / 140737488355328 ∧
    older.DecodeUplink [1, 103, 1, 100] ≠ DecodeUplink [1, 103, 1, 100] := by
  have hb : IsBytes [1, 103, 1, 100] := by unfold IsBytes; decide
  have ha : Agrees [1, 103, 1, 100] := Agrees_of_small _ (by decide)
  have hn : DecodeUplink [1, 103, 1, 100] = some ⟨[.Temperature 1 35.6], none, []⟩ := by
    have h := DecodeUplink_Temperature 1 1 100 []
    have e1 : int16 (1 * 256 + 100) = 356 := by decide
    have q1 : ((356 : Int) : ℚ) / 10 = 35.6 := by norm_num
    rw [DecodeUplink_nil, e1, q1] at h
    exact h
  have ho : older.DecodeUplink [1, 103, 1, 100] =
      some ⟨[.Temperature 1 (4666163 / 131072)], none, []⟩ := by
    have h : older.DecodeUplink [1, 103, 1, 100] =
        (DecodeUplink [1, 103, 1, 100]).map (Decoded.mapEvents UplinkEvent.toFloat32) :=
      older_uplinkLoop_eq _ _ hb ha
    rw [h, hn]
    simp only [Option.map_some', Decoded.mapEvents, List.map, UplinkEvent.toFloat32,
      round32_temperature_356]
  refine ⟨hb, ha, hn, ho, round32_temperature_356, round64_temperature_356, by norm_num, ?_⟩
  rw [ho, hn]
  intro h
  simp only [Option.some.injEq, Decoded.mk.injEq, List.cons.injEq, UplinkEvent.Temperature.injEq,
    and_true, true_and] at h
  norm_num at h

/-- C25 (amended). Uplink generation equivalence: on every stream of bytes in
which every complete unit satisfies the proviso (a relative-humidity payload
byte below `0x80`, the first byte of each GPS latitude, longitude and altitude
field below `0x80`), the older decoder and the newer one deliver events of the
same types on the same channels in the same order, return the same error or
success and leave the same bytes unread; the unscaled values are equal, and
each physical value of the older decoder is the `float32` nearest to the
quotient of the raw integer by the scale, of which the newer decoder delivers
the `float64`. A complete unit that violates the proviso is delivered with
different values: the older decoder reads a humidity byte `b ≥ 0x80` as
`(b - 256) / 2` where the newer one gives `b / 2`, and reads a GPS field as
the unsigned 24-bit integer, its value not negative, where the newer one gives
the sign-extended, negative one. -/
theorem uplink_generations_agree :
    (∀ s : List Nat, IsBytes s → Agrees s →
      older.DecodeUplink s =
        (DecodeUplink s).map (Decoded.mapEvents UplinkEvent.toFloat32)) ∧
    (∀ (c b : Nat) (r : List Nat), 0x80 ≤ b → b < 256 →
      older.decodeUnit c RelativeHumidity (b :: r) =
        (.ok (.RelativeHumidity c (((b : ℚ) - 256) / 2)), r) ∧
      decodeUnit c RelativeHumidity (b :: r) = (.ok (.RelativeHumidity c ((b : ℚ) / 2)), r) ∧
      ((b : ℚ) - 256) / 2 ≠ (b : ℚ) / 2) ∧
    (∀ (c b0 b1 b2 b3 b4 b5 b6 b7 b8 : Nat) (r : List Nat),
      IsBytes [b0, b1, b2, b3, b4, b5, b6, b7, b8] →
      older.decodeUnit c GPS (b0 :: b1 :: b2 :: b3 :: b4 :: b5 :: b6 :: b7 :: b8 :: r) =
        (.ok (.GPS c (round32 (((b0 * 65536 + b1 * 256 + b2 : Nat) : ℚ) / 10000))
          (round32 (((b3 * 65536 + b4 * 256 + b5 : Nat) : ℚ) / 10000))
          (round32 (((b6 * 65536 + b7 * 256 + b8 : Nat) : ℚ) / 100))), r) ∧
      decodeUnit c GPS (b0 :: b1 :: b2 :: b3 :: b4 :: b5 :: b6 :: b7 :: b8 :: r) =
        (.ok (.GPS c ((signed24 b0 b1 b2 : ℚ) / 10000) ((signed24 b3 b4 b5 : ℚ) / 10000)
          ((signed24 b6 b7 b8 : ℚ) / 100)), r) ∧
      (0x80 ≤ b0 →
        (signed24 b0 b1 b2 : ℚ) / 10000 < 0 ∧
          0 ≤ round32 (((b0 * 65536 + b1 * 256 + b2 : Nat) : ℚ) / 10000)) ∧
      (0x80 ≤ b3 →
        (signed24 b3 b4 b5 : ℚ) / 10000 < 0 ∧
          0 ≤ round32 (((b3 * 65536 + b4 * 256 + b5 : Nat) : ℚ) / 10000)) ∧
      (0x80 ≤ b6 →
        (signed24 b6 b7 b8 : ℚ) / 100 < 0 ∧
          0 ≤ round32 (((b6 * 65536 + b7 * 256 + b8 : Nat) : ℚ) / 100))) := by
  refine ⟨fun s hb ha => older_uplinkLoop_eq _ s hb ha, ?_, ?_⟩
  · intro c b r h1 h2
    refine ⟨?_, ?_, ?_⟩
    · show older.decodeRelativeHumidity c (b :: r) = _
      rw [older_decodeRelativeHumidity_cons, older_int8_large b h1 h2]
      push_cast
      rfl
    · show decodeRelativeHumidity c (b :: r) = _
      exact decodeRelativeHumidity_cons c b r
    · intro h
      have : (b : ℚ) - 256 = (b : ℚ) := by linarith [(div_left_inj' (by norm_num : (2 : ℚ) ≠ 0)).mp h]
      linarith
  · intro c b0 b1 b2 b3 b4 b5 b6 b7 b8 r hb
    have differ : ∀ x y z : Nat, x < 256 → y < 256 → z < 256 → 0x80 ≤ x → ∀ k : ℚ, 0 < k →
        (signed24 x y z : ℚ) / k < 0 ∧ 0 ≤ round32 (((x * 65536 + y * 256 + z : Nat) : ℚ) / k) := by
      intro x y z hx hy hz hx2 k hk
      constructor
      · apply div_neg_of_neg_of_pos _ hk
        have : signed24 x y z < 0 := by
          rw [signed24_large x y z hx2 hx hy hz]; omega
        exact_mod_cast this
      · exact roundTo_nonneg 24 (-149) (div_nonneg (Nat.cast_nonneg _) hk.le)
    refine ⟨?_, ?_, ?_, ?_, ?_⟩
    · show older.decodeGPS c _ = _
      exact older_decodeGPS_nine c b0 b1 b2 b3 b4 b5 b6 b7 b8 r hb
    · show decodeGPS c _ = _
      exact decodeGPS_nine ..
    · intro h; exact differ b0 b1 b2 (hb b0 (by simp)) (hb b1 (by simp)) (hb b2 (by simp)) h _
        (by norm_num)
    · intro h; exact differ b3 b4 b5 (hb b3 (by simp)) (hb b4 (by simp)) (hb b5 (by simp)) h _
        (by norm_num)
    · intro h; exact differ b6 b7 b8 (hb b6 (by simp)) (hb b7 (by simp)) (hb b8 (by simp)) h _
        (by norm_num)

theorem uplink_generations_agree_witness :
    IsBytes [8, 104, 99, 7, 103, 1, 100] ∧ Agrees [8, 104, 99, 7, 103, 1, 100] ∧
      older.DecodeUplink [8, 104, 99, 7, 103, 1, 100] =
        (DecodeUplink [8, 104, 99, 7, 103, 1, 100]).map
          (Decoded.mapEvents UplinkEvent.toFloat32) :=
  have hb : IsBytes [8, 104, 99, 7, 103, 1, 100] := by unfold IsBytes; decide
  have ha : Agrees [8, 104, 99, 7, 103, 1, 100] := Agrees_of_small _ (by decide)
  ⟨hb, ha, uplink_generations_agree.1 _ hb ha⟩

/-! ## The two generations of the downlink decoder -/

theorem NoTerminator_tail (c hi lo : Nat) (r : List Nat) (h : NoTerminator (c :: hi :: lo :: r)) :
    NoTerminator r := by
  intro k hk
  have := h (k + 1) (by simp only [List.length_cons]; omega)
  have e : 3 * (k + 1) = 3 * k + 1 + 1 + 1 := by ring
  rw [e] at this
  simpa using this

theorem older_downlinkLoop_eq (fuel : Nat) : ∀ s : List Nat, NoTerminator s →
    older.downlinkLoop fuel s =
      (downlinkLoop fuel s).map (Decoded.mapEvents PortEvent.toFloat32) := by
  induction fuel with
  | zero => intro s _; rfl
  | succ fuel ih =>
    intro s h
    rcases s with _ | ⟨c, r⟩
    · rw [older_downlinkLoop_nil, downlinkLoop_nil]; rfl
    · have hc : c ≠ 0xFF := by
        have := h 0 (by simp)
        simpa using this
      rw [older_downlinkLoop_cons, downlinkLoop_cons, if_neg hc]
      rcases hr : readInt16 r with ⟨res, r2⟩
      cases res with
      | error e => rfl
      | ok val =>
        simp only
        obtain ⟨hi, lo, rfl, _⟩ := readInt16_ok r r2 val hr
        have e : (⟨c, f32div (val : ℚ) 100⟩ : PortEvent) =
            PortEvent.toFloat32 ⟨c, (val : ℚ) / 100⟩ := by
          rw [f32div_intCast val 100 (readInt16_abs_lt hr) round32_hundred]
          rfl
        rw [ih r2 (NoTerminator_tail c hi lo r2 h), e, map_deliver_mapEvents]

theorem older_DecodeDownlink_terminator_only :
    older.DecodeDownlink [0xFF] = some ⟨[], some .EOF, []⟩ := by
  rw [older_DecodeDownlink_cons]
  simp [readInt16, readFull]

theorem older_DecodeDownlink_terminator_one (b : Nat) :
    older.DecodeDownlink [0xFF, b] = some ⟨[], some .ErrUnexpectedEOF, []⟩ := by
  rw [older_DecodeDownlink_cons]
  simp [readInt16, readFull]

theorem round32_port_001 : round32 (0.01 : ℚ) = 5368709 / 536870912 := by
  rw [round32_eq_of (0.01) (-7) 10737418 (by norm_num) (by norm_num [le_abs])
    (by norm_num [abs_lt]) (by norm_num [abs_lt])]
  norm_num

theorem round64_port_001 : round64 (0.01 : ℚ) = 5764607523034235 / 576460752303423488 := by
  rw [round64_eq_of (0.01) (-7) 5764607523034235 (by norm_num) (by norm_num [le_abs])
    (by norm_num [abs_lt]) (by norm_num [abs_lt])]
  norm_num

/-- C26 (as stated, refuted). The stream `{1, 0, 1}`, one unit of raw value 1
on channel 1, has no `0xFF` at a unit boundary; the newer decoder delivers
`Port(1, 0.01)`, the `float64` quotient, and the older one the `float32`
quotient `0.009999999776482582`, which is another value. -/
theorem downlink_generations_agree_refuted :
    NoTerminator [1, 0, 1] ∧
    DecodeDownlink [1, 0, 1] = some ⟨[⟨1, 0.01⟩], none, []⟩ ∧
    older.DecodeDownlink [1, 0, 1] = some ⟨[⟨1, 5368709 / 536870912⟩], none, []⟩ ∧
    round32 0.01 = 5368709 / 536870912 ∧
    round64 0.01 = 5764607523034235 / 576460752303423488 ∧
    (5368709 / 536870912 : ℚ) ≠ 5764607523034235 / 576460752303423488 ∧
    older.DecodeDownlink [1, 0, 1] ≠ DecodeDownlink [1, 0, 1] := by
  have hnt : NoTerminator [1, 0, 1] := by
    intro k hk
    have hk2 : k < 1 := by simp only [List.length_cons, List.length_nil] at hk; omega
    interval_cases k
    decide
  have hn : DecodeDownlink [1, 0, 1] = some ⟨[⟨1, 0.01⟩], none, []⟩ := by
    have h := DecodeDownlink_unit 1 0 1 [] (by decide)
    have e1 : int16 (beUint16 [0, 1]) = 1 := by decide
    have q1 : ((1 : Int) : ℚ) / 100 = 0.01 := by norm_num
    rw [DecodeDownlink_nil, e1, q1] at h
    exact h
  have ho : older.DecodeDownlink [1, 0, 1] = some ⟨[⟨1, 5368709 / 536870912⟩], none, []⟩ := by
    have h : older.DecodeDownlink [1, 0, 1] =
        (DecodeDownlink [1, 0, 1]).map (Decoded.mapEvents PortEvent.toFloat32) :=
      older_downlinkLoop_eq _ _ hnt
    rw [h, hn]
    simp only [Option.map_some', Decoded.mapEvents, List.map, PortEvent.toFloat32,
      round32_port_001]
  refine ⟨hnt, hn, ho, round32_port_001, round64_port_001, by norm_num, ?_⟩
  rw [ho, hn]
  intro h
  simp only [Option.some.injEq, Decoded.mk.injEq, List.cons.injEq, PortEvent.mk.injEq,
    and_true, true_and] at h
  norm_num at h

/-- C26 (amended). Downlink generation equivalence: on every stream in which
no byte at a unit boundary is `0xFF`, the older and the newer `DecodeDownlink`
deliver `Port` events on the same channels in the same order and return the
same result, and each value of the older one is the `float32` nearest to the
quotient of the raw integer by 100, of which the newer one delivers the
`float64`. On a stream whose next unit boundary byte is `0xFF`, after any
number of complete units, the newer decoder stops with success and leaves the
rest unread, while the older one takes `0xFF` for a channel: it delivers
`Port(255, ...)` when two more bytes follow, and fails with `io.EOF` or
`io.ErrUnexpectedEOF` when none or one does. On `{1, 0, 100, 0xFF}` the older
decoder returns `io.EOF` after one event. -/
theorem downlink_generations_agree :
    (∀ s : List Nat, NoTerminator s →
      older.DecodeDownlink s =
        (DecodeDownlink s).map (Decoded.mapEvents PortEvent.toFloat32)) ∧
    (∀ (us : List (Nat × Nat × Nat)) (rest : List Nat),
      (∀ u ∈ us, u.1 ≠ 0xFF ∧ u.2.1 < 256 ∧ u.2.2 < 256) →
      DecodeDownlink (downlinkFrame us ++ 0xFF :: rest) = some ⟨us.map portOf, none, rest⟩ ∧
      older.DecodeDownlink (downlinkFrame us ++ [0xFF]) =
        some ⟨us.map portOf32, some .EOF, []⟩ ∧
      (∀ b, older.DecodeDownlink (downlinkFrame us ++ [0xFF, b]) =
        some ⟨us.map portOf32, some .ErrUnexpectedEOF, []⟩) ∧
      (∀ hi lo r, older.DecodeDownlink (downlinkFrame us ++ 0xFF :: hi :: lo :: r) =
        (older.DecodeDownlink r).map
          (Decoded.after
            (us.map portOf32 ++ [⟨255, f32div (int16 (beUint16 [hi, lo]) : ℚ) 100⟩])))) ∧
    DecodeDownlink [1, 0, 100, 0xFF] = some ⟨[⟨1, 1⟩], none, []⟩ ∧
    older.DecodeDownlink [1, 0, 100, 0xFF] = some ⟨[⟨1, 1⟩], some .EOF, []⟩ := by
  have part2 : ∀ (us : List (Nat × Nat × Nat)) (rest : List Nat),
      (∀ u ∈ us, u.1 ≠ 0xFF ∧ u.2.1 < 256 ∧ u.2.2 < 256) →
      DecodeDownlink (downlinkFrame us ++ 0xFF :: rest) = some ⟨us.map portOf, none, rest⟩ ∧
      older.DecodeDownlink (downlinkFrame us ++ [0xFF]) =
        some ⟨us.map portOf32, some .EOF, []⟩ ∧
      (∀ b, older.DecodeDownlink (downlinkFrame us ++ [0xFF, b]) =
        some ⟨us.map portOf32, some .ErrUnexpectedEOF, []⟩) ∧
      (∀ hi lo r, older.DecodeDownlink (downlinkFrame us ++ 0xFF :: hi :: lo :: r) =
        (older.DecodeDownlink r).map
          (Decoded.after
            (us.map portOf32 ++ [⟨255, f32div (int16 (beUint16 [hi, lo]) : ℚ) 100⟩]))) := by
    intro us rest h
    have ho := fun r => older_DecodeDownlink_frame us r (fun u hu => (h u hu).2)
    refine ⟨?_, ?_, ?_, ?_⟩
    · rw [DecodeDownlink_frame us _ h, DecodeDownlink_cons, if_pos rfl]
      simp [Decoded.after]
    · rw [ho, older_DecodeDownlink_terminator_only]
      simp [Decoded.after]
    · intro b
      rw [ho, older_DecodeDownlink_terminator_one]
      simp [Decoded.after]
    · intro hi lo r
      rw [ho, older_DecodeDownlink_unit]
      cases older.DecodeDownlink r with
      | none => rfl
      | some d => simp [Decoded.after, Decoded.deliver]
  refine ⟨fun s h => older_downlinkLoop_eq _ s h, part2, ?_, ?_⟩
  · have := (part2 [(1, 0, 100)] [] (by decide)).1
    simp only [List.map, portOf_example_one] at this
    exact this
  · have := (part2 [(1, 0, 100)] [] (by decide)).2.1
    simp only [List.map, portOf32_example_one] at this
    exact this

theorem downlink_generations_agree_witness :
    NoTerminator [1, 0, 100, 2, 234, 182] ∧
      older.DecodeDownlink [1, 0, 100, 2, 234, 182] =
        (DecodeDownlink [1, 0, 100, 2, 234, 182]).map
          (Decoded.mapEvents PortEvent.toFloat32) :=
  have h : NoTerminator [1, 0, 100, 2, 234, 182] := by
    intro k hk
    have hk2 : k < 2 := by simp only [List.length_cons, List.length_nil] at hk; omega
    interval_cases k <;> decide
  ⟨h, downlink_generations_agree.1 _ h⟩
end cayennelpp
